import Mathlib

/-! # MySQL API server: security validator, statement splitter and sandbox pipeline

A shallow embedding of `internal/security/validator.go`, `internal/executor/sandbox.go`,
`internal/executor/formatter.go`, `internal/executor/mysql.go`, `internal/api/handler.go`
and `internal/domain`, and the properties of the specification proved about it.

Strings.  The query reaches the code out of the JSON decoder and is valid UTF-8, so a Go
string that is inspected rune by rune is modelled as its list of runes (`List Char`); the
library functions the code calls on it (`strings.ToLower`, `strings.ToUpper`,
`strings.TrimSpace`, `strings.Split`, `regexp`) are modelled at the rune level, which is how
Go defines them.  Texts that are only built and measured (outputs, messages) are `String`s,
Go's `len` being the length in bytes.

Effects.  The database behind `*sql.DB` is a state machine (`Database`), and every call on
it is recorded, with its context, in the trace of the `World`; what comes from outside the
program (the fresh UUID, the clock) is an input (`Env`).
-/

set_option maxRecDepth 100000

namespace MySQLAPIServer

/-! ## Runes: the character classes of `regexp` and `unicode` -/

/-- The class `\s` of Go's `regexp` (RE2 syntax): tab, newline, form feed, carriage return
and space.  The vertical tab is not in it. -/
def isReSpace (c : Char) : Bool :=
  c == '\t' || c == '\n' || c == '\x0c' || c == '\r' || c == ' '

/-- The class `\w` of Go's `regexp`, from which `\b` is defined: ASCII letters, digits and
underscore. -/
def isWordChar (c : Char) : Bool :=
  ('0' ≤ c && c ≤ '9') || ('A' ≤ c && c ≤ 'Z') || ('a' ≤ c && c ≤ 'z') || c == '_'

/-- Go's `unicode.IsSpace`: the white space that `strings.TrimSpace` removes. -/
def IsSpace (c : Char) : Bool :=
  let n := c.toNat
  n == 0x09 || n == 0x0A || n == 0x0B || n == 0x0C || n == 0x0D || n == 0x20 ||
  n == 0x85 || n == 0xA0 || n == 0x1680 || (0x2000 ≤ n && n ≤ 0x200A) ||
  n == 0x2028 || n == 0x2029 || n == 0x202F || n == 0x205F || n == 0x3000

/-- One run of a case table: the code points `lo, lo + stride, ..., hi` map to
`tlo, tlo + stride, ...`. -/
abbrev CaseRange := Nat × Nat × Nat × Nat

/-- Whether code point `n` is one of the code points of the run. -/
def CaseRange.covers (r : CaseRange) (n : Nat) : Bool :=
  r.1 ≤ n && n ≤ r.2.1 && (n - r.1) % r.2.2.1 == 0

/-- The image of a covered code point. -/
def CaseRange.image (r : CaseRange) (n : Nat) : Nat :=
  r.2.2.2 + (n - r.1)

/-- Looks a code point up in a case table; code points without an entry map to themselves. -/
def caseLookup : List CaseRange → Nat → Nat
  | [], n => n
  | r :: rs, n => if r.covers n then r.image n else caseLookup rs n

/-- The simple lower-case mappings of the Unicode character database (version 14.0), which
Go's `unicode.ToLower` applies through its `CaseRanges` table, one entry per run of code
points: `(lo, hi, stride, target of lo)`. -/
def lowerRanges : List CaseRange :=
  [(0x41, 0x5A, 1, 0x61), (0xC0, 0xD6, 1, 0xE0), (0xD8, 0xDE, 1, 0xF8), (0x100, 0x12E, 2, 0x101),
   (0x130, 0x130, 1, 0x69), (0x132, 0x136, 2, 0x133), (0x139, 0x147, 2, 0x13A),
   (0x14A, 0x176, 2, 0x14B), (0x178, 0x178, 1, 0xFF), (0x179, 0x17D, 2, 0x17A),
   (0x181, 0x181, 1, 0x253), (0x182, 0x184, 2, 0x183), (0x186, 0x186, 1, 0x254),
   (0x187, 0x187, 1, 0x188), (0x189, 0x18A, 1, 0x256), (0x18B, 0x18B, 1, 0x18C),
   (0x18E, 0x18E, 1, 0x1DD), (0x18F, 0x18F, 1, 0x259), (0x190, 0x190, 1, 0x25B),
   (0x191, 0x191, 1, 0x192), (0x193, 0x193, 1, 0x260), (0x194, 0x194, 1, 0x263),
   (0x196, 0x196, 1, 0x269), (0x197, 0x197, 1, 0x268), (0x198, 0x198, 1, 0x199),
   (0x19C, 0x19C, 1, 0x26F), (0x19D, 0x19D, 1, 0x272), (0x19F, 0x19F, 1, 0x275),
   (0x1A0, 0x1A4, 2, 0x1A1), (0x1A6, 0x1A6, 1, 0x280), (0x1A7, 0x1A7, 1, 0x1A8),
   (0x1A9, 0x1A9, 1, 0x283), (0x1AC, 0x1AC, 1, 0x1AD), (0x1AE, 0x1AE, 1, 0x288),
   (0x1AF, 0x1AF, 1, 0x1B0), (0x1B1, 0x1B2, 1, 0x28A), (0x1B3, 0x1B5, 2, 0x1B4),
   (0x1B7, 0x1B7, 1, 0x292), (0x1B8, 0x1B8, 1, 0x1B9), (0x1BC, 0x1BC, 1, 0x1BD),
   (0x1C4, 0x1C4, 1, 0x1C6), (0x1C5, 0x1C5, 1, 0x1C6), (0x1C7, 0x1C7, 1, 0x1C9),
   (0x1C8, 0x1C8, 1, 0x1C9), (0x1CA, 0x1CA, 1, 0x1CC), (0x1CB, 0x1DB, 2, 0x1CC),
   (0x1DE, 0x1EE, 2, 0x1DF), (0x1F1, 0x1F1, 1, 0x1F3), (0x1F2, 0x1F4, 2, 0x1F3),
   (0x1F6, 0x1F6, 1, 0x195), (0x1F7, 0x1F7, 1, 0x1BF), (0x1F8, 0x21E, 2, 0x1F9),
   (0x220, 0x220, 1, 0x19E), (0x222, 0x232, 2, 0x223), (0x23A, 0x23A, 1, 0x2C65),
   (0x23B, 0x23B, 1, 0x23C), (0x23D, 0x23D, 1, 0x19A), (0x23E, 0x23E, 1, 0x2C66),
   (0x241, 0x241, 1, 0x242), (0x243, 0x243, 1, 0x180), (0x244, 0x244, 1, 0x289),
   (0x245, 0x245, 1, 0x28C), (0x246, 0x24E, 2, 0x247), (0x370, 0x372, 2, 0x371),
   (0x376, 0x376, 1, 0x377), (0x37F, 0x37F, 1, 0x3F3), (0x386, 0x386, 1, 0x3AC),
   (0x388, 0x38A, 1, 0x3AD), (0x38C, 0x38C, 1, 0x3CC), (0x38E, 0x38F, 1, 0x3CD),
   (0x391, 0x3A1, 1, 0x3B1), (0x3A3, 0x3AB, 1, 0x3C3), (0x3CF, 0x3CF, 1, 0x3D7),
   (0x3D8, 0x3EE, 2, 0x3D9), (0x3F4, 0x3F4, 1, 0x3B8), (0x3F7, 0x3F7, 1, 0x3F8),
   (0x3F9, 0x3F9, 1, 0x3F2), (0x3FA, 0x3FA, 1, 0x3FB), (0x3FD, 0x3FF, 1, 0x37B),
   (0x400, 0x40F, 1, 0x450), (0x410, 0x42F, 1, 0x430), (0x460, 0x480, 2, 0x461),
   (0x48A, 0x4BE, 2, 0x48B), (0x4C0, 0x4C0, 1, 0x4CF), (0x4C1, 0x4CD, 2, 0x4C2),
   (0x4D0, 0x52E, 2, 0x4D1), (0x531, 0x556, 1, 0x561), (0x10A0, 0x10C5, 1, 0x2D00),
   (0x10C7, 0x10C7, 1, 0x2D27), (0x10CD, 0x10CD, 1, 0x2D2D), (0x13A0, 0x13EF, 1, 0xAB70),
   (0x13F0, 0x13F5, 1, 0x13F8), (0x1C90, 0x1CBA, 1, 0x10D0), (0x1CBD, 0x1CBF, 1, 0x10FD),
   (0x1E00, 0x1E94, 2, 0x1E01), (0x1E9E, 0x1E9E, 1, 0xDF), (0x1EA0, 0x1EFE, 2, 0x1EA1),
   (0x1F08, 0x1F0F, 1, 0x1F00), (0x1F18, 0x1F1D, 1, 0x1F10), (0x1F28, 0x1F2F, 1, 0x1F20),
   (0x1F38, 0x1F3F, 1, 0x1F30), (0x1F48, 0x1F4D, 1, 0x1F40), (0x1F59, 0x1F5F, 2, 0x1F51),
   (0x1F68, 0x1F6F, 1, 0x1F60), (0x1F88, 0x1F8F, 1, 0x1F80), (0x1F98, 0x1F9F, 1, 0x1F90),
   (0x1FA8, 0x1FAF, 1, 0x1FA0), (0x1FB8, 0x1FB9, 1, 0x1FB0), (0x1FBA, 0x1FBB, 1, 0x1F70),
   (0x1FBC, 0x1FBC, 1, 0x1FB3), (0x1FC8, 0x1FCB, 1, 0x1F72), (0x1FCC, 0x1FCC, 1, 0x1FC3),
   (0x1FD8, 0x1FD9, 1, 0x1FD0), (0x1FDA, 0x1FDB, 1, 0x1F76), (0x1FE8, 0x1FE9, 1, 0x1FE0),
   (0x1FEA, 0x1FEB, 1, 0x1F7A), (0x1FEC, 0x1FEC, 1, 0x1FE5), (0x1FF8, 0x1FF9, 1, 0x1F78),
   (0x1FFA, 0x1FFB, 1, 0x1F7C), (0x1FFC, 0x1FFC, 1, 0x1FF3), (0x2126, 0x2126, 1, 0x3C9),
   (0x212A, 0x212A, 1, 0x6B), (0x212B, 0x212B, 1, 0xE5), (0x2132, 0x2132, 1, 0x214E),
   (0x2160, 0x216F, 1, 0x2170), (0x2183, 0x2183, 1, 0x2184), (0x24B6, 0x24CF, 1, 0x24D0),
   (0x2C00, 0x2C2F, 1, 0x2C30), (0x2C60, 0x2C60, 1, 0x2C61), (0x2C62, 0x2C62, 1, 0x26B),
   (0x2C63, 0x2C63, 1, 0x1D7D), (0x2C64, 0x2C64, 1, 0x27D), (0x2C67, 0x2C6B, 2, 0x2C68),
   (0x2C6D, 0x2C6D, 1, 0x251), (0x2C6E, 0x2C6E, 1, 0x271), (0x2C6F, 0x2C6F, 1, 0x250),
   (0x2C70, 0x2C70, 1, 0x252), (0x2C72, 0x2C72, 1, 0x2C73), (0x2C75, 0x2C75, 1, 0x2C76),
   (0x2C7E, 0x2C7F, 1, 0x23F), (0x2C80, 0x2CE2, 2, 0x2C81), (0x2CEB, 0x2CED, 2, 0x2CEC),
   (0x2CF2, 0x2CF2, 1, 0x2CF3), (0xA640, 0xA66C, 2, 0xA641), (0xA680, 0xA69A, 2, 0xA681),
   (0xA722, 0xA72E, 2, 0xA723), (0xA732, 0xA76E, 2, 0xA733), (0xA779, 0xA77B, 2, 0xA77A),
   (0xA77D, 0xA77D, 1, 0x1D79), (0xA77E, 0xA786, 2, 0xA77F), (0xA78B, 0xA78B, 1, 0xA78C),
   (0xA78D, 0xA78D, 1, 0x265), (0xA790, 0xA792, 2, 0xA791), (0xA796, 0xA7A8, 2, 0xA797),
   (0xA7AA, 0xA7AA, 1, 0x266), (0xA7AB, 0xA7AB, 1, 0x25C), (0xA7AC, 0xA7AC, 1, 0x261),
   (0xA7AD, 0xA7AD, 1, 0x26C), (0xA7AE, 0xA7AE, 1, 0x26A), (0xA7B0, 0xA7B0, 1, 0x29E),
   (0xA7B1, 0xA7B1, 1, 0x287), (0xA7B2, 0xA7B2, 1, 0x29D), (0xA7B3, 0xA7B3, 1, 0xAB53),
   (0xA7B4, 0xA7C2, 2, 0xA7B5), (0xA7C4, 0xA7C4, 1, 0xA794), (0xA7C5, 0xA7C5, 1, 0x282),
   (0xA7C6, 0xA7C6, 1, 0x1D8E), (0xA7C7, 0xA7C9, 2, 0xA7C8), (0xA7D0, 0xA7D0, 1, 0xA7D1),
   (0xA7D6, 0xA7D8, 2, 0xA7D7), (0xA7F5, 0xA7F5, 1, 0xA7F6), (0xFF21, 0xFF3A, 1, 0xFF41),
   (0x10400, 0x10427, 1, 0x10428), (0x104B0, 0x104D3, 1, 0x104D8),
   (0x10570, 0x1057A, 1, 0x10597), (0x1057C, 0x1058A, 1, 0x105A3),
   (0x1058C, 0x10592, 1, 0x105B3), (0x10594, 0x10595, 1, 0x105BB),
   (0x10C80, 0x10CB2, 1, 0x10CC0), (0x118A0, 0x118BF, 1, 0x118C0),
   (0x16E40, 0x16E5F, 1, 0x16E60), (0x1E900, 0x1E921, 1, 0x1E922)]

/-- The simple upper-case mappings of the Unicode character database (version 14.0), which
Go's `unicode.ToUpper` applies, in the same run encoding as `lowerRanges`. -/
def upperRanges : List CaseRange :=
  [(0x61, 0x7A, 1, 0x41), (0xB5, 0xB5, 1, 0x39C), (0xE0, 0xF6, 1, 0xC0), (0xF8, 0xFE, 1, 0xD8),
   (0xFF, 0xFF, 1, 0x178), (0x101, 0x12F, 2, 0x100), (0x131, 0x131, 1, 0x49),
   (0x133, 0x137, 2, 0x132), (0x13A, 0x148, 2, 0x139), (0x14B, 0x177, 2, 0x14A),
   (0x17A, 0x17E, 2, 0x179), (0x17F, 0x17F, 1, 0x53), (0x180, 0x180, 1, 0x243),
   (0x183, 0x185, 2, 0x182), (0x188, 0x188, 1, 0x187), (0x18C, 0x18C, 1, 0x18B),
   (0x192, 0x192, 1, 0x191), (0x195, 0x195, 1, 0x1F6), (0x199, 0x199, 1, 0x198),
   (0x19A, 0x19A, 1, 0x23D), (0x19E, 0x19E, 1, 0x220), (0x1A1, 0x1A5, 2, 0x1A0),
   (0x1A8, 0x1A8, 1, 0x1A7), (0x1AD, 0x1AD, 1, 0x1AC), (0x1B0, 0x1B0, 1, 0x1AF),
   (0x1B4, 0x1B6, 2, 0x1B3), (0x1B9, 0x1B9, 1, 0x1B8), (0x1BD, 0x1BD, 1, 0x1BC),
   (0x1BF, 0x1BF, 1, 0x1F7), (0x1C5, 0x1C5, 1, 0x1C4), (0x1C6, 0x1C6, 1, 0x1C4),
   (0x1C8, 0x1C8, 1, 0x1C7), (0x1C9, 0x1C9, 1, 0x1C7), (0x1CB, 0x1CB, 1, 0x1CA),
   (0x1CC, 0x1CC, 1, 0x1CA), (0x1CE, 0x1DC, 2, 0x1CD), (0x1DD, 0x1DD, 1, 0x18E),
   (0x1DF, 0x1EF, 2, 0x1DE), (0x1F2, 0x1F2, 1, 0x1F1), (0x1F3, 0x1F3, 1, 0x1F1),
   (0x1F5, 0x1F5, 1, 0x1F4), (0x1F9, 0x21F, 2, 0x1F8), (0x223, 0x233, 2, 0x222),
   (0x23C, 0x23C, 1, 0x23B), (0x23F, 0x240, 1, 0x2C7E), (0x242, 0x242, 1, 0x241),
   (0x247, 0x24F, 2, 0x246), (0x250, 0x250, 1, 0x2C6F), (0x251, 0x251, 1, 0x2C6D),
   (0x252, 0x252, 1, 0x2C70), (0x253, 0x253, 1, 0x181), (0x254, 0x254, 1, 0x186),
   (0x256, 0x257, 1, 0x189), (0x259, 0x259, 1, 0x18F), (0x25B, 0x25B, 1, 0x190),
   (0x25C, 0x25C, 1, 0xA7AB), (0x260, 0x260, 1, 0x193), (0x261, 0x261, 1, 0xA7AC),
   (0x263, 0x263, 1, 0x194), (0x265, 0x265, 1, 0xA78D), (0x266, 0x266, 1, 0xA7AA),
   (0x268, 0x268, 1, 0x197), (0x269, 0x269, 1, 0x196), (0x26A, 0x26A, 1, 0xA7AE),
   (0x26B, 0x26B, 1, 0x2C62), (0x26C, 0x26C, 1, 0xA7AD), (0x26F, 0x26F, 1, 0x19C),
   (0x271, 0x271, 1, 0x2C6E), (0x272, 0x272, 1, 0x19D), (0x275, 0x275, 1, 0x19F),
   (0x27D, 0x27D, 1, 0x2C64), (0x280, 0x280, 1, 0x1A6), (0x282, 0x282, 1, 0xA7C5),
   (0x283, 0x283, 1, 0x1A9), (0x287, 0x287, 1, 0xA7B1), (0x288, 0x288, 1, 0x1AE),
   (0x289, 0x289, 1, 0x244), (0x28A, 0x28B, 1, 0x1B1), (0x28C, 0x28C, 1, 0x245),
   (0x292, 0x292, 1, 0x1B7), (0x29D, 0x29D, 1, 0xA7B2), (0x29E, 0x29E, 1, 0xA7B0),
   (0x345, 0x345, 1, 0x399), (0x371, 0x373, 2, 0x370), (0x377, 0x377, 1, 0x376),
   (0x37B, 0x37D, 1, 0x3FD), (0x3AC, 0x3AC, 1, 0x386), (0x3AD, 0x3AF, 1, 0x388),
   (0x3B1, 0x3C1, 1, 0x391), (0x3C2, 0x3C2, 1, 0x3A3), (0x3C3, 0x3CB, 1, 0x3A3),
   (0x3CC, 0x3CC, 1, 0x38C), (0x3CD, 0x3CE, 1, 0x38E), (0x3D0, 0x3D0, 1, 0x392),
   (0x3D1, 0x3D1, 1, 0x398), (0x3D5, 0x3D5, 1, 0x3A6), (0x3D6, 0x3D6, 1, 0x3A0),
   (0x3D7, 0x3D7, 1, 0x3CF), (0x3D9, 0x3EF, 2, 0x3D8), (0x3F0, 0x3F0, 1, 0x39A),
   (0x3F1, 0x3F1, 1, 0x3A1), (0x3F2, 0x3F2, 1, 0x3F9), (0x3F3, 0x3F3, 1, 0x37F),
   (0x3F5, 0x3F5, 1, 0x395), (0x3F8, 0x3F8, 1, 0x3F7), (0x3FB, 0x3FB, 1, 0x3FA),
   (0x430, 0x44F, 1, 0x410), (0x450, 0x45F, 1, 0x400), (0x461, 0x481, 2, 0x460),
   (0x48B, 0x4BF, 2, 0x48A), (0x4C2, 0x4CE, 2, 0x4C1), (0x4CF, 0x4CF, 1, 0x4C0),
   (0x4D1, 0x52F, 2, 0x4D0), (0x561, 0x586, 1, 0x531), (0x10D0, 0x10FA, 1, 0x1C90),
   (0x10FD, 0x10FF, 1, 0x1CBD), (0x13F8, 0x13FD, 1, 0x13F0), (0x1C80, 0x1C80, 1, 0x412),
   (0x1C81, 0x1C81, 1, 0x414), (0x1C82, 0x1C82, 1, 0x41E), (0x1C83, 0x1C84, 1, 0x421),
   (0x1C85, 0x1C85, 1, 0x422), (0x1C86, 0x1C86, 1, 0x42A), (0x1C87, 0x1C87, 1, 0x462),
   (0x1C88, 0x1C88, 1, 0xA64A), (0x1D79, 0x1D79, 1, 0xA77D), (0x1D7D, 0x1D7D, 1, 0x2C63),
   (0x1D8E, 0x1D8E, 1, 0xA7C6), (0x1E01, 0x1E95, 2, 0x1E00), (0x1E9B, 0x1E9B, 1, 0x1E60),
   (0x1EA1, 0x1EFF, 2, 0x1EA0), (0x1F00, 0x1F07, 1, 0x1F08), (0x1F10, 0x1F15, 1, 0x1F18),
   (0x1F20, 0x1F27, 1, 0x1F28), (0x1F30, 0x1F37, 1, 0x1F38), (0x1F40, 0x1F45, 1, 0x1F48),
   (0x1F51, 0x1F57, 2, 0x1F59), (0x1F60, 0x1F67, 1, 0x1F68), (0x1F70, 0x1F71, 1, 0x1FBA),
   (0x1F72, 0x1F75, 1, 0x1FC8), (0x1F76, 0x1F77, 1, 0x1FDA), (0x1F78, 0x1F79, 1, 0x1FF8),
   (0x1F7A, 0x1F7B, 1, 0x1FEA), (0x1F7C, 0x1F7D, 1, 0x1FFA), (0x1F80, 0x1F87, 1, 0x1F88),
   (0x1F90, 0x1F97, 1, 0x1F98), (0x1FA0, 0x1FA7, 1, 0x1FA8), (0x1FB0, 0x1FB1, 1, 0x1FB8),
   (0x1FB3, 0x1FB3, 1, 0x1FBC), (0x1FBE, 0x1FBE, 1, 0x399), (0x1FC3, 0x1FC3, 1, 0x1FCC),
   (0x1FD0, 0x1FD1, 1, 0x1FD8), (0x1FE0, 0x1FE1, 1, 0x1FE8), (0x1FE5, 0x1FE5, 1, 0x1FEC),
   (0x1FF3, 0x1FF3, 1, 0x1FFC), (0x214E, 0x214E, 1, 0x2132), (0x2170, 0x217F, 1, 0x2160),
   (0x2184, 0x2184, 1, 0x2183), (0x24D0, 0x24E9, 1, 0x24B6), (0x2C30, 0x2C5F, 1, 0x2C00),
   (0x2C61, 0x2C61, 1, 0x2C60), (0x2C65, 0x2C65, 1, 0x23A), (0x2C66, 0x2C66, 1, 0x23E),
   (0x2C68, 0x2C6C, 2, 0x2C67), (0x2C73, 0x2C73, 1, 0x2C72), (0x2C76, 0x2C76, 1, 0x2C75),
   (0x2C81, 0x2CE3, 2, 0x2C80), (0x2CEC, 0x2CEE, 2, 0x2CEB), (0x2CF3, 0x2CF3, 1, 0x2CF2),
   (0x2D00, 0x2D25, 1, 0x10A0), (0x2D27, 0x2D27, 1, 0x10C7), (0x2D2D, 0x2D2D, 1, 0x10CD),
   (0xA641, 0xA66D, 2, 0xA640), (0xA681, 0xA69B, 2, 0xA680), (0xA723, 0xA72F, 2, 0xA722),
   (0xA733, 0xA76F, 2, 0xA732), (0xA77A, 0xA77C, 2, 0xA779), (0xA77F, 0xA787, 2, 0xA77E),
   (0xA78C, 0xA78C, 1, 0xA78B), (0xA791, 0xA793, 2, 0xA790), (0xA794, 0xA794, 1, 0xA7C4),
   (0xA797, 0xA7A9, 2, 0xA796), (0xA7B5, 0xA7C3, 2, 0xA7B4), (0xA7C8, 0xA7CA, 2, 0xA7C7),
   (0xA7D1, 0xA7D1, 1, 0xA7D0), (0xA7D7, 0xA7D9, 2, 0xA7D6), (0xA7F6, 0xA7F6, 1, 0xA7F5),
   (0xAB53, 0xAB53, 1, 0xA7B3), (0xAB70, 0xABBF, 1, 0x13A0), (0xFF41, 0xFF5A, 1, 0xFF21),
   (0x10428, 0x1044F, 1, 0x10400), (0x104D8, 0x104FB, 1, 0x104B0),
   (0x10597, 0x105A1, 1, 0x10570), (0x105A3, 0x105B1, 1, 0x1057C),
   (0x105B3, 0x105B9, 1, 0x1058C), (0x105BB, 0x105BC, 1, 0x10594),
   (0x10CC0, 0x10CF2, 1, 0x10C80), (0x118C0, 0x118DF, 1, 0x118A0),
   (0x16E60, 0x16E7F, 1, 0x16E40), (0x1E922, 0x1E943, 1, 0x1E900)]

/-- Go's `unicode.ToLower`: ASCII is handled first, every other rune goes through the case
table. -/
def unicodeToLower (c : Char) : Char :=
  if c.toNat ≤ 0x7F then
    (if 'A' ≤ c && c ≤ 'Z' then Char.ofNat (c.toNat + 32) else c)
  else Char.ofNat (caseLookup lowerRanges c.toNat)

/-- Go's `unicode.ToUpper`. -/
def unicodeToUpper (c : Char) : Char :=
  if c.toNat ≤ 0x7F then
    (if 'a' ≤ c && c ≤ 'z' then Char.ofNat (c.toNat - 32) else c)
  else Char.ofNat (caseLookup upperRanges c.toNat)

/-! ## Library string functions -/

/-- Go's `strings.ToLower`. -/
def ToLower (s : List Char) : List Char := s.map unicodeToLower

/-- Go's `strings.ToUpper`. -/
def ToUpper (s : List Char) : List Char := s.map unicodeToUpper

/-- Go's `strings.TrimSpace`: leading and trailing Unicode white space removed. -/
def TrimSpace (s : List Char) : List Char :=
  (s.dropWhile IsSpace).rdropWhile IsSpace

/-- Go's `strings.HasPrefix`. -/
def HasPrefix (s pre : List Char) : Bool := pre.isPrefixOf s

/-- The loop of `spaceRegex.ReplaceAllString(s, " ")` for `\s+`: every maximal run of `\s`
runes is replaced by one space.  `inRun` tells whether the rune before was part of a run. -/
def replaceSpaceRuns : Bool → List Char → List Char
  | _, [] => []
  | inRun, c :: cs =>
    if isReSpace c then
      (if inRun then replaceSpaceRuns true cs else ' ' :: replaceSpaceRuns true cs)
    else c :: replaceSpaceRuns false cs

/-! ## The regular expressions of the validator -/

/-- The pieces the validator's patterns are made of. -/
inductive Atom where
  /-- The atom `\b`: an ASCII word boundary. -/
  | wordBoundary
  /-- A literal rune, matched under `(?i)`. -/
  | lit (c : Char)
  /-- The atom `\s+`. -/
  | spaces1
  /-- The atom `\s*`. -/
  | spaces0
  deriving DecidableEq, Repr

/-- A pattern is a sequence of atoms. -/
abbrev Pattern := List Atom

/-- A literal word, rune by rune. -/
def word (s : String) : Pattern := s.toList.map Atom.lit

/-- Whether the text rune `c` matches the pattern rune `p` under `(?i)`: Go folds with
`unicode.SimpleFold`, whose orbits join `K`, `k` with the Kelvin sign U+212A and `S`, `s`
with the long s U+017F. -/
def foldEq (p c : Char) : Bool :=
  c == p ||
  (('A' ≤ p && p ≤ 'Z') && c.toNat == p.toNat + 32) ||
  (('a' ≤ p && p ≤ 'z') && c.toNat + 32 == p.toNat) ||
  ((p == 'K' || p == 'k') && c.toNat == 0x212A) ||
  ((p == 'S' || p == 's') && c.toNat == 0x17F)

/-- Whether a rune that may be absent (start or end of text) is a word rune. -/
def isWordOpt : Option Char → Bool
  | none => false
  | some c => isWordChar c

/-- The test of `\b` between the rune before and the rune after the position. -/
def atBoundary (prev : Option Char) (rest : List Char) : Bool :=
  isWordOpt prev != isWordOpt rest.head?

/-- Tries the continuation `k` after zero or more further `\s` runes. -/
def skipSpaces (k : Option Char → List Char → Bool) : Option Char → List Char → Bool
  | prev, [] => k prev []
  | prev, c :: cs => k prev (c :: cs) || (isReSpace c && skipSpaces k (some c) cs)

/-- Whether the pattern matches a prefix of `rest`, `prev` being the rune before it. -/
def matchHere : Pattern → Option Char → List Char → Bool
  | [], _, _ => true
  | Atom.wordBoundary :: ps, prev, rest => atBoundary prev rest && matchHere ps prev rest
  | Atom.lit p :: ps, _, rest =>
    match rest with
    | [] => false
    | c :: cs => foldEq p c && matchHere ps (some c) cs
  | Atom.spaces1 :: ps, _, rest =>
    match rest with
    | [] => false
    | c :: cs => isReSpace c && skipSpaces (matchHere ps) (some c) cs
  | Atom.spaces0 :: ps, prev, rest => skipSpaces (matchHere ps) prev rest

/-- Whether the pattern matches at some position of `rest`. -/
def searchFrom (pat : Pattern) : Option Char → List Char → Bool
  | prev, [] => matchHere pat prev []
  | prev, c :: cs => matchHere pat prev (c :: cs) || searchFrom pat (some c) cs

/-- Go's `(*Regexp).MatchString`. -/
def MatchString (pat : Pattern) (s : List Char) : Bool := searchFrom pat none s

/-! ## `internal/domain/errors.go` -/

/-- The sentinel errors of the domain package. -/
inductive DomainError where
  | ErrEmptyQuery
  | ErrQueryTooLong
  | ErrDangerousCommand
  | ErrDropDatabase
  | ErrExecutionTimeout
  | ErrDatabaseCreation
  | ErrDatabaseCleanup
  | ErrDatabaseConnection
  deriving DecidableEq, Repr

/-- The message of a sentinel error. -/
def DomainError.Error : DomainError → String
  | .ErrEmptyQuery => "query cannot be empty"
  | .ErrQueryTooLong => "query exceeds maximum allowed length"
  | .ErrDangerousCommand => "query contains dangerous commands that are not allowed"
  | .ErrDropDatabase => "DROP DATABASE command is not allowed"
  | .ErrExecutionTimeout => "query execution timeout exceeded"
  | .ErrDatabaseCreation => "failed to create temporary database"
  | .ErrDatabaseCleanup => "failed to cleanup temporary database"
  | .ErrDatabaseConnection => "failed to connect to MySQL server"

/-! ## `internal/security/validator.go` -/

/-- The list `dangerousCommands` of `compileDangerousPatterns`, each compiled with `(?i)`. -/
def compileDangerousPatterns : List Pattern :=
  [ [Atom.wordBoundary] ++ word "SHUTDOWN" ++ [Atom.wordBoundary],
    [Atom.wordBoundary] ++ word "RESTART" ++ [Atom.wordBoundary],
    [Atom.wordBoundary] ++ word "LOAD_FILE" ++ [Atom.spaces0, Atom.lit '('],
    [Atom.wordBoundary] ++ word "INTO" ++ [Atom.spaces1] ++ word "OUTFILE" ++ [Atom.wordBoundary],
    [Atom.wordBoundary] ++ word "INTO" ++ [Atom.spaces1] ++ word "DUMPFILE" ++ [Atom.wordBoundary],
    [Atom.wordBoundary] ++ word "LOAD" ++ [Atom.spaces1] ++ word "DATA" ++ [Atom.spaces1] ++
      word "INFILE" ++ [Atom.wordBoundary],
    [Atom.wordBoundary] ++ word "CREATE" ++ [Atom.spaces1] ++ word "USER" ++ [Atom.wordBoundary],
    [Atom.wordBoundary] ++ word "DROP" ++ [Atom.spaces1] ++ word "USER" ++ [Atom.wordBoundary],
    [Atom.wordBoundary] ++ word "ALTER" ++ [Atom.spaces1] ++ word "USER" ++ [Atom.wordBoundary],
    [Atom.wordBoundary] ++ word "RENAME" ++ [Atom.spaces1] ++ word "USER" ++ [Atom.wordBoundary],
    [Atom.wordBoundary] ++ word "GRANT" ++ [Atom.wordBoundary],
    [Atom.wordBoundary] ++ word "REVOKE" ++ [Atom.wordBoundary],
    [Atom.wordBoundary] ++ word "SET" ++ [Atom.spaces1] ++ word "PASSWORD" ++ [Atom.wordBoundary],
    [Atom.wordBoundary] ++ word "SET" ++ [Atom.spaces1] ++ word "GLOBAL" ++ [Atom.wordBoundary],
    [Atom.wordBoundary] ++ word "SET" ++ [Atom.spaces1] ++ word "@@GLOBAL" ++ [Atom.wordBoundary],
    [Atom.wordBoundary] ++ word "KILL" ++ [Atom.wordBoundary],
    [Atom.wordBoundary] ++ word "INSTALL" ++ [Atom.spaces1] ++ word "PLUGIN" ++ [Atom.wordBoundary],
    [Atom.wordBoundary] ++ word "UNINSTALL" ++ [Atom.spaces1] ++ word "PLUGIN" ++
      [Atom.wordBoundary] ]

/-- The two patterns `dropDBPatterns` of `containsDropDatabase`. -/
def dropDBPatterns : List Pattern :=
  [ [Atom.wordBoundary] ++ word "DROP" ++ [Atom.spaces1] ++ word "DATABASE" ++ [Atom.wordBoundary],
    [Atom.wordBoundary] ++ word "DROP" ++ [Atom.spaces1] ++ word "SCHEMA" ++ [Atom.wordBoundary] ]

/-- The function `containsDropDatabase`. -/
def containsDropDatabase (query : List Char) : Bool :=
  dropDBPatterns.any (fun pattern => MatchString pattern query)

/-- The function `normalizeQuery`: lower-case, collapse white space, trim. -/
def normalizeQuery (query : List Char) : List Char :=
  TrimSpace (replaceSpaceRuns false (ToLower query))

/-- The type `Validator`: the compiled dangerous patterns. -/
structure Validator where
  dangerousPatterns : List Pattern

/-- The constructor `NewValidator`. -/
def NewValidator : Validator := { dangerousPatterns := compileDangerousPatterns }

/-- The method `Validator.Validate`; `none` is Go's `nil`. -/
def Validator.Validate (v : Validator) (query : List Char) : Option DomainError :=
  let normalizedQuery := normalizeQuery query
  if containsDropDatabase normalizedQuery then some DomainError.ErrDropDatabase
  else if v.dangerousPatterns.any (fun pattern => MatchString pattern normalizedQuery) then
    some DomainError.ErrDangerousCommand
  else none

/-- The method `Validator.IsSafeQuery`. -/
def Validator.IsSafeQuery (v : Validator) (query : List Char) : Bool :=
  v.Validate query == none

/-! ## `internal/domain/request.go`, `internal/domain/response.go` -/

/-- Go's `len` of a string: its length in bytes (UTF-8). -/
def len (s : String) : Nat := s.utf8ByteSize

/-- The constant `MaxQueryLength` (1 MB). -/
def MaxQueryLength : Nat := 1024 * 1024

/-- The request body of `POST /api/v1/execute`. -/
structure ExecuteRequest where
  Query : List Char
  deriving DecidableEq, Repr

/-- The method `ExecuteRequest.Validate`. -/
def ExecuteRequest.Validate (r : ExecuteRequest) : Option DomainError :=
  if r.Query == [] then some DomainError.ErrEmptyQuery
  else if len (String.mk r.Query) > MaxQueryLength then some DomainError.ErrQueryTooLong
  else none

/-- The response of a query execution. -/
structure ExecuteResponse where
  Success : Bool
  Output : String
  ExecutionTimeMs : Int
  Error : String
  deriving DecidableEq, Repr

/-- The constructor `NewSuccessResponse`. -/
def NewSuccessResponse (output : String) (executionTimeMs : Int) : ExecuteResponse :=
  { Success := true, Output := output, ExecutionTimeMs := executionTimeMs, Error := "" }

/-- The constructor `NewErrorResponse`. -/
def NewErrorResponse (errorMsg : String) : ExecuteResponse :=
  { Success := false, Output := "", ExecutionTimeMs := 0, Error := errorMsg }

/-! ## The database connection (`*sql.DB`) as a state machine -/

/-- The contexts under which the code calls the database: the caller's request context, the
context `execCtx` that `Execute` derives from it with `context.WithTimeout`, and
`context.Background()`. -/
inductive Ctx where
  | request
  | exec
  | background
  deriving DecidableEq, Repr

/-- What `sql.Result` reports: `RowsAffected()` and `LastInsertId()`. -/
structure SqlResult where
  rowsAffected : Int
  lastInsertId : Int
  deriving DecidableEq, Repr

/-- What a `*sql.Rows` delivers: the result of `Columns()`, then for every successful `Next()`
the outcome of `Scan` (the cells, `none` for SQL NULL, or the scan error), and the value of
`Err()` after the last `Next()`. -/
structure SqlRows where
  columns : Except String (List String)
  rows : List (Except String (List (Option String)))
  err : Option String

/-- A database server behind the connection pool: each call moves the server from one state
to the next and answers with a result or an error message.  `deadlineExceeded` is what
`execCtx.Err() == context.DeadlineExceeded` reads. -/
structure Database (σ : Type) where
  ExecContext : σ → Ctx → List Char → σ × Except String SqlResult
  QueryContext : σ → Ctx → List Char → σ × Except String SqlRows
  deadlineExceeded : σ → Bool

/-- The observable actions of a request: the calls on the database, in order, and the lines
written to the standard streams. -/
inductive Event where
  | dbExec (ctx : Ctx) (sql : List Char)
  | dbQuery (ctx : Ctx) (sql : List Char)
  | printed (line : String)
  | queryLog (success : Bool)
  deriving DecidableEq, Repr

/-- The state of the server together with the actions performed so far. -/
structure World (σ : Type) where
  state : σ
  trace : List Event

/-- The call `db.ExecContext(ctx, sql)`. -/
def World.execContext {σ : Type} (db : Database σ) (w : World σ) (ctx : Ctx) (sql : List Char) :
    Except String SqlResult × World σ :=
  let r := db.ExecContext w.state ctx sql
  (r.2, { state := r.1, trace := w.trace ++ [Event.dbExec ctx sql] })

/-- The call `db.QueryContext(ctx, sql)`. -/
def World.queryContext {σ : Type} (db : Database σ) (w : World σ) (ctx : Ctx) (sql : List Char) :
    Except String SqlRows × World σ :=
  let r := db.QueryContext w.state ctx sql
  (r.2, { state := r.1, trace := w.trace ++ [Event.dbQuery ctx sql] })

/-- The call `fmt.Printf` with the finished line. -/
def World.print {σ : Type} (w : World σ) (line : String) : World σ :=
  { w with trace := w.trace ++ [Event.printed line] }

/-- The outcome of Go code that returns `(string, error)` and may panic: the string with a
nil error, the error (the string is then `""`), or a panic. -/
inductive Outcome where
  | ok (output : String)
  | error (msg : String)
  | panic
  deriving DecidableEq, Repr

/-! ## `internal/executor/formatter.go` -/

/-- Go's `strings.Repeat`; a negative count panics (`none`). -/
def Repeat (s : String) (count : Int) : Option String :=
  if count < 0 then none else some (String.join (List.replicate count.toNat s))

/-- The function `buildBorder`. -/
def buildBorder (colWidths : List Nat) : String :=
  colWidths.foldl (fun border width => border ++ String.join (List.replicate (width + 2) "-") ++ "+")
    "+"

/-- The loop body of `buildRow` for cell `i`; `none` is a panic (index out of range, or a
negative count handed to `strings.Repeat`). -/
def buildRowStep (colWidths : List Nat) (row : Option String) (cell : Nat × String) :
    Option String :=
  match row, colWidths.get? cell.1 with
  | some r, some width =>
    match Repeat " " ((width : Int) - (len cell.2 : Int)) with
    | some pad => some (r ++ " " ++ cell.2 ++ pad ++ " |")
    | none => none
  | _, _ => none

/-- The function `buildRow`. -/
def buildRow (values : List String) (colWidths : List Nat) : Option String :=
  values.enum.foldl (buildRowStep colWidths) (some "|")

/-- The loop body of the width computation for cell `i` of a row; `none` is a panic (index
out of range). -/
def widenStep (colWidths : Option (List Nat)) (cell : Nat × String) : Option (List Nat) :=
  match colWidths with
  | none => none
  | some ws =>
    match ws.get? cell.1 with
    | none => none
    | some width => if len cell.2 > width then some (ws.set cell.1 (len cell.2)) else some ws

/-- The width computation of `formatResultSet`: header lengths first, then every cell. -/
def computeWidths (columns : List String) (results : List (List String)) : Option (List Nat) :=
  results.foldl (fun ws row => row.enum.foldl widenStep ws) (some (columns.map len))

/-- The scan loop of `formatResultSet`: every row is scanned into `columnCount` cells
(`Scan` refuses a row of another size) and turned into strings, NULL as `"NULL"`; the first
scan error ends the loop. -/
def scanRows (columnCount : Nat) :
    List (Except String (List (Option String))) → Except String (List (List String))
  | [] => .ok []
  | .error e :: _ => .error e
  | .ok cells :: rest =>
    if cells.length ≠ columnCount then
      .error ("sql: expected " ++ toString cells.length ++ " destination arguments in Scan, not " ++
        toString columnCount)
    else
      match scanRows columnCount rest with
      | .error e => .error e
      | .ok results => .ok (cells.map (fun val => val.getD "NULL") :: results)

/-- The table of `formatResultSet` once columns and rows are there; `none` is a panic. -/
def formatTable (columns : List String) (results : List (List String)) : Option String :=
  match computeWidths columns results with
  | none => none
  | some colWidths =>
    match buildRow columns colWidths with
    | none => none
    | some header =>
      let top := buildBorder colWidths ++ "\n" ++ header ++ "\n" ++ buildBorder colWidths ++ "\n"
      let body := results.foldl
        (fun out row => match out, buildRow row colWidths with
          | some o, some line => some (o ++ line ++ "\n")
          | _, _ => none) (some top)
      match body with
      | none => none
      | some b =>
        let rowCount := results.length
        some (b ++ buildBorder colWidths ++ "\n" ++
          (if rowCount == 1 then "1 row in set" else toString rowCount ++ " rows in set"))

/-- The function `formatResultSet`. -/
def formatResultSet (rows : SqlRows) : Outcome :=
  match rows.columns with
  | .error e => Outcome.error ("failed to get columns: " ++ e)
  | .ok columns =>
    if columns.length == 0 then Outcome.ok "Empty result set"
    else
      match scanRows columns.length rows.rows with
      | .error e => Outcome.error ("failed to scan row: " ++ e)
      | .ok results =>
        match rows.err with
        | some e => Outcome.error ("error iterating rows: " ++ e)
        | none =>
          if results.length == 0 then Outcome.ok "Empty set"
          else
            match formatTable columns results with
            | none => Outcome.panic
            | some table => Outcome.ok table

/-! ## `internal/executor/sandbox.go` -/

/-- Go's `strings.Split(s, sep)` for a separator of one rune. -/
def Split : List Char → Char → List (List Char)
  | [], _ => [[]]
  | c :: cs, sep =>
    if c == sep then [] :: Split cs sep
    else
      match Split cs sep with
      | [] => [[c]]
      | part :: parts => (c :: part) :: parts

/-- The function `splitSQLStatements`: the loop appends every non-empty trimmed part. -/
def splitSQLStatements (query : List Char) : List (List Char) :=
  (Split query ';').foldl
    (fun statements part =>
      let trimmed := TrimSpace part
      if trimmed != [] then statements ++ [trimmed] else statements)
    []

/-- The function `generateShortUUID`, given the text of `uuid.New().String()`: its first 13
characters without the hyphens. -/
def generateShortUUID (fullUUID : List Char) : List Char :=
  (fullUUID.take 13).filter (fun c => c != '-')

/-- A sandbox: the name of its temporary database (the executor is passed along). -/
structure Sandbox where
  dbName : List Char
  deriving DecidableEq, Repr

/-- The method `Sandbox.create`. -/
def Sandbox.create {σ : Type} (db : Database σ) (s : Sandbox) (ctx : Ctx) (w : World σ) :
    Option String × World σ :=
  let query := "CREATE DATABASE `".toList ++ s.dbName ++ "`".toList
  match w.execContext db ctx query with
  | (.error err, w1) =>
    (some ("failed to create database " ++ String.mk s.dbName ++ ": " ++ err), w1)
  | (.ok _, w1) => (none, w1)

/-- The function `NewSandbox`; the database is created under `context.Background()`. -/
def NewSandbox {σ : Type} (db : Database σ) (dbPrefix fullUUID : List Char) (w : World σ) :
    Except String Sandbox × World σ :=
  let dbName := dbPrefix ++ generateShortUUID fullUUID
  let sandbox : Sandbox := { dbName := dbName }
  match sandbox.create db Ctx.background w with
  | (some err, w1) => (.error err, w1)
  | (none, w1) => (.ok sandbox, w1)

/-- The method `Sandbox.Cleanup`. -/
def Sandbox.Cleanup {σ : Type} (db : Database σ) (s : Sandbox) (ctx : Ctx) (w : World σ) :
    Option String × World σ :=
  let query := "DROP DATABASE IF EXISTS `".toList ++ s.dbName ++ "`".toList
  match w.execContext db ctx query with
  | (.error err, w1) =>
    (some ("failed to drop database " ++ String.mk s.dbName ++ ": " ++ err), w1)
  | (.ok _, w1) => (none, w1)

/-- The test `isSelect` of `executeStatement`. -/
def isSelect (stmt : List Char) : Bool :=
  let trimmedStmt := TrimSpace (ToUpper stmt)
  HasPrefix trimmedStmt "SELECT".toList ||
  HasPrefix trimmedStmt "SHOW".toList ||
  HasPrefix trimmedStmt "DESCRIBE".toList ||
  HasPrefix trimmedStmt "DESC".toList ||
  HasPrefix trimmedStmt "EXPLAIN".toList

/-- The method `Sandbox.executeSelectStatement`. -/
def Sandbox.executeSelectStatement {σ : Type} (db : Database σ) (ctx : Ctx) (stmt : List Char)
    (w : World σ) : Outcome × World σ :=
  match w.queryContext db ctx stmt with
  | (.error err, w1) => (Outcome.error err, w1)
  | (.ok rows, w1) => (formatResultSet rows, w1)

/-- The method `Sandbox.executeNonSelectStatement`. -/
def Sandbox.executeNonSelectStatement {σ : Type} (db : Database σ) (ctx : Ctx)
    (stmt : List Char) (w : World σ) : Outcome × World σ :=
  match w.execContext db ctx stmt with
  | (.error err, w1) => (Outcome.error err, w1)
  | (.ok result, w1) =>
    let output := "Query OK, " ++ toString result.rowsAffected ++ " row(s) affected"
    let output :=
      if result.lastInsertId > 0 then
        output ++ " (last insert ID: " ++ toString result.lastInsertId ++ ")"
      else output
    (Outcome.ok output, w1)

/-- The method `Sandbox.executeStatement`. -/
def Sandbox.executeStatement {σ : Type} (db : Database σ) (ctx : Ctx) (stmt : List Char)
    (w : World σ) : Outcome × World σ :=
  if isSelect stmt then Sandbox.executeSelectStatement db ctx stmt w
  else Sandbox.executeNonSelectStatement db ctx stmt w

/-- The statement loop of `Sandbox.ExecuteQuery`, from index `i` on, `outputBuilder` holding
what was written so far. -/
def executeLoop {σ : Type} (db : Database σ) (ctx : Ctx) :
    Nat → List (List Char) → String → World σ → Outcome × World σ
  | _, [], outputBuilder, w => (Outcome.ok outputBuilder, w)
  | i, stmt :: rest, outputBuilder, w =>
    if TrimSpace stmt == [] then executeLoop db ctx (i + 1) rest outputBuilder w
    else
      match Sandbox.executeStatement db ctx stmt w with
      | (Outcome.panic, w1) => (Outcome.panic, w1)
      | (Outcome.error err, w1) =>
        (Outcome.error ("error in statement " ++ toString (i + 1) ++ ": " ++ err), w1)
      | (Outcome.ok result, w1) =>
        let outputBuilder := if i > 0 then outputBuilder ++ "\n\n" else outputBuilder
        executeLoop db ctx (i + 1) rest (outputBuilder ++ result) w1

/-- The method `Sandbox.ExecuteQuery`. -/
def Sandbox.ExecuteQuery {σ : Type} (db : Database σ) (s : Sandbox) (ctx : Ctx)
    (query : List Char) (w : World σ) : Outcome × World σ :=
  let useQuery := "USE `".toList ++ s.dbName ++ "`".toList
  match w.execContext db ctx useQuery with
  | (.error err, w1) =>
    (Outcome.error ("failed to switch to database " ++ String.mk s.dbName ++ ": " ++ err), w1)
  | (.ok _, w1) =>
    let statements := splitSQLStatements query
    if statements.length == 0 then (Outcome.error "no valid SQL statements found", w1)
    else executeLoop db ctx 0 statements "" w1

/-! ## `internal/executor/mysql.go` -/

/-- The executor: the prefix of sandbox names and the query timeout, kept as the text `%v`
prints for it. -/
structure MySQLExecutor where
  queryTimeout : String
  dbPrefix : List Char

/-- What the run of a request needs from outside the program: the text of the fresh UUID and
the milliseconds that `time.Since(startTime)` will report. -/
structure Env where
  fullUUID : List Char
  elapsedMs : Int

/-- The method `MySQLExecutor.Execute`: `none` is a panic that leaves the method after the
deferred cleanup; the Go error it returns is always nil. -/
def MySQLExecutor.Execute {σ : Type} (e : MySQLExecutor) (db : Database σ) (env : Env)
    (query : List Char) (w : World σ) : Option ExecuteResponse × World σ :=
  match NewSandbox db e.dbPrefix env.fullUUID w with
  | (.error err, w1) => (some (NewErrorResponse ("Failed to create sandbox: " ++ err)), w1)
  | (.ok sandbox, w1) =>
    let run := sandbox.ExecuteQuery db Ctx.exec query w1
    let response : Option ExecuteResponse :=
      match run.1 with
      | Outcome.panic => none
      | Outcome.error err =>
        if db.deadlineExceeded run.2.state then
          some (NewErrorResponse ("Query execution timeout exceeded (" ++ e.queryTimeout ++ ")"))
        else some (NewErrorResponse ("Query execution failed: " ++ err))
      | Outcome.ok output => some (NewSuccessResponse output env.elapsedMs)
    -- the deferred function
    match sandbox.Cleanup db Ctx.background run.2 with
    | (some cleanupErr, w3) =>
      (response, w3.print ("WARNING: Failed to cleanup sandbox " ++ String.mk sandbox.dbName ++
        ": " ++ cleanupErr ++ "\n"))
    | (none, w3) => (response, w3)

/-! ## `internal/api/handler.go` -/

/-- What the handler writes with `c.JSON`: the status code and the body. -/
structure HttpReply where
  status : Nat
  body : ExecuteResponse
  deriving DecidableEq, Repr

/-- The type `Handler`: the executor and the validator. -/
structure Handler where
  executor : MySQLExecutor
  validator : Validator

/-- The constructor `NewHandler`. -/
def NewHandler (executor : MySQLExecutor) (validator : Validator) : Handler :=
  { executor := executor, validator := validator }

/-- The method `Handler.ExecuteQuery`; `bound` is what `c.ShouldBindJSON` made of the body.
`none` is a panic handed on to the framework. -/
def Handler.ExecuteQuery {σ : Type} (db : Database σ) (h : Handler) (env : Env)
    (bound : Except String ExecuteRequest) (w : World σ) : Option HttpReply × World σ :=
  match bound with
  | .error err => (some ⟨400, NewErrorResponse ("Invalid request format: " ++ err)⟩, w)
  | .ok req =>
    match req.Validate with
    | some err => (some ⟨400, NewErrorResponse err.Error⟩, w)
    | none =>
      match h.validator.Validate req.Query with
      | some err =>
        (some ⟨403, NewErrorResponse ("Security validation failed: " ++ err.Error)⟩, w)
      | none =>
        match h.executor.Execute db env req.Query w with
        | (none, w1) => (none, w1)
        | (some response, w1) =>
          (some ⟨200, response⟩,
            { w1 with trace := w1.trace ++ [Event.queryLog response.Success] })

/-- Whether `w` is the word `kw` up to the case of its ASCII letters. -/
def isCaseVariantOf (w : List Char) (kw : String) : Bool :=
  w.map Char.toLower == kw.toList.map Char.toLower

/-- Whether a rune is a word rune in the text the validator inspects, that is after
lower-casing: the ASCII letters, digits and underscore, and the runes that lower-case to one
of them. -/
def isWordRune (c : Char) : Bool := isWordChar (unicodeToLower c)

/-- Queries that differ only in the case of ASCII letters, in the length of non-empty runs of
white space (`\s`: space, tab, newline, carriage return, form feed), or in leading or
trailing white space: the equivalence generated by changing the case of one letter, making
a run one rune longer, and putting a white-space rune in front or at the end. -/
inductive SameUpToCaseAndSpace : List Char → List Char → Prop where
  | refl (q : List Char) : SameUpToCaseAndSpace q q
  | symm {q1 q2 : List Char} : SameUpToCaseAndSpace q1 q2 → SameUpToCaseAndSpace q2 q1
  | trans {q1 q2 q3 : List Char} :
    SameUpToCaseAndSpace q1 q2 → SameUpToCaseAndSpace q2 q3 → SameUpToCaseAndSpace q1 q3
  | letterCase (a b : List Char) (c d : Char) :
    c.toLower = d.toLower → SameUpToCaseAndSpace (a ++ c :: b) (a ++ d :: b)
  | runAfter (a b : List Char) (c d : Char) :
    isReSpace c = true → isReSpace d = true →
    SameUpToCaseAndSpace (a ++ c :: b) (a ++ c :: d :: b)
  | runBefore (a b : List Char) (c d : Char) :
    isReSpace c = true → isReSpace d = true →
    SameUpToCaseAndSpace (a ++ c :: b) (a ++ d :: c :: b)
  | leading (q : List Char) (c : Char) :
    IsSpace c = true → SameUpToCaseAndSpace q (c :: q)
  | trailing (q : List Char) (c : Char) :
    IsSpace c = true → SameUpToCaseAndSpace q (q ++ [c])

/-- The leading keyword of a statement: its maximal initial run of ASCII letters after
trimming. -/
def leadingKeyword (stmt : List Char) : List Char :=
  (TrimSpace stmt).takeWhile Char.isAlpha

/-- The keywords of the statements that return rows. -/
def readKeywords : List String := ["SELECT", "SHOW", "DESCRIBE", "DESC", "EXPLAIN"]

/-- Whether the leading keyword of the statement is exactly one of the read keywords, without
regard to case. -/
def hasReadKeyword (stmt : List Char) : Bool :=
  readKeywords.any (fun kw => isCaseVariantOf (leadingKeyword stmt) kw)

/-- A small database for examples.  Its state counts the calls; a statement that begins with
`BAD` fails with a syntax error, every other `ExecContext` affects one row and every other
`QueryContext` answers with one row of one column. -/
def exampleDatabase : Database Nat where
  ExecContext := fun n _ sql =>
    (n + 1, if HasPrefix sql "BAD".toList then .error "syntax error" else .ok ⟨1, 0⟩)
  QueryContext := fun n _ sql =>
    (n + 1, if HasPrefix sql "BAD".toList then .error "syntax error"
      else .ok { columns := .ok ["x"], rows := [.ok [some "1"]], err := none })
  deadlineExceeded := fun _ => false

/-- The world before a request: a fresh example database and nothing done yet. -/
def exampleWorld : World Nat := { state := 0, trace := [] }

/-- The string a Go function returns next to its error: `""` unless the error is nil. -/
def Outcome.output : Outcome → String
  | Outcome.ok output => output
  | _ => ""

/-- The call on the database that `executeStatement` makes for a statement. -/
def statementEvent (ctx : Ctx) (stmt : List Char) : Event :=
  if isSelect stmt then Event.dbQuery ctx stmt else Event.dbExec ctx stmt

/-- The call on the database that `Sandbox.create` makes. -/
def createEvent (ctx : Ctx) (s : Sandbox) : Event :=
  Event.dbExec ctx ("CREATE DATABASE `".toList ++ s.dbName ++ "`".toList)

/-- The call on the database that `Sandbox.Cleanup` makes. -/
def cleanupEvent (ctx : Ctx) (s : Sandbox) : Event :=
  Event.dbExec ctx ("DROP DATABASE IF EXISTS `".toList ++ s.dbName ++ "`".toList)

/-- The call on the database with which `Sandbox.ExecuteQuery` begins. -/
def useEvent (ctx : Ctx) (s : Sandbox) : Event :=
  Event.dbExec ctx ("USE `".toList ++ s.dbName ++ "`".toList)

/-- Executes the statements in order as long as each of them succeeds: the outputs and the
world after the last one, or `none` when one of them fails or panics. -/
def runStatements {σ : Type} (db : Database σ) (ctx : Ctx) :
    List (List Char) → World σ → Option (List String × World σ)
  | [], w => some ([], w)
  | stmt :: rest, w =>
    match Sandbox.executeStatement db ctx stmt w with
    | (Outcome.ok output, w1) =>
      match runStatements db ctx rest w1 with
      | some (outputs, w2) => some (output :: outputs, w2)
      | none => none
    | _ => none

/-- An executor for examples. -/
def exampleExecutor : MySQLExecutor := { queryTimeout := "30s", dbPrefix := "sandbox_".toList }

/-- An environment for examples. -/
def exampleEnv : Env :=
  { fullUUID := "123e4567-e89b-12d3-a456-426614174000".toList, elapsedMs := 7 }

/-! ## Checks on the case tables, and the rune before a position -/

/-- The test that no image of run `r1` is a code point of run `r2`. -/
def imagesMiss (r1 r2 : CaseRange) : Bool :=
  r1.2.2.2 + (r1.2.1 - r1.1) < r2.1 || r2.2.1 < r1.2.2.2 ||
  (r1.2.2.1 == 2 && r2.2.2.1 == 2 && r1.2.2.2 % 2 != r2.1 % 2) ||
  (r1.1 == r1.2.1 && !r2.covers r1.2.2.2)

/-- The code points of `unicode.IsSpace`. -/
def spaceCodes : List Nat :=
  [0x09, 0x0A, 0x0B, 0x0C, 0x0D, 0x20, 0x85, 0xA0, 0x1680, 0x2000, 0x2001, 0x2002, 0x2003,
   0x2004, 0x2005, 0x2006, 0x2007, 0x2008, 0x2009, 0x200A, 0x2028, 0x2029, 0x202F, 0x205F,
   0x3000]

/-- The test that the images of a run are valid code points. -/
def imageValid (r : CaseRange) : Bool :=
  r.2.2.2 + (r.2.1 - r.1) < 0xD800 || (0xDFFF < r.2.2.2 && r.2.2.2 + (r.2.1 - r.1) < 0x110000)

/-- The test that a run neither covers nor produces a white-space code point. -/
def spaceFree (r : CaseRange) : Bool :=
  spaceCodes.all (fun s => !(r.covers s) && (s < r.2.2.2 || r.2.2.2 + (r.2.1 - r.1) < s))

/-- The test that a run beyond ASCII produces no ASCII upper-case letter. -/
def noUpperImage (r : CaseRange) : Bool :=
  r.2.1 < 128 || 0x5A < r.2.2.2 || r.2.2.2 + (r.2.1 - r.1) < 0x41

/-- The rune before the position that follows `A`, `prev` being the rune before `A`. -/
def lastRune (prev : Option Char) (A : List Char) : Option Char :=
  match A.getLast? with
  | some c => some c
  | none => prev

/-- The test that a run beyond ASCII produces no ASCII rune, except for the two runs that do:
the dotted capital I (U+0130, to `i`) and the Kelvin sign (U+212A, to `k`). -/
def asciiImageKnown (r : CaseRange) : Bool :=
  r.2.1 < 128 || 0x7F < r.2.2.2 || (r.1 == 0x130 && r.2.1 == 0x130) ||
  (r.1 == 0x212A && r.2.1 == 0x212A)

/-! ## The layout of the outputs, as the specification words it -/

/-- The texts joined by the separator: the separator stands between two texts, not before the
first and not after the last. -/
def joinWith (sep : String) : List String → String
  | [] => ""
  | [r] => r
  | r :: rest => r ++ sep ++ joinWith sep rest

/-- A database for examples that reports `rowsAffected` and `lastInsertId` for every
`ExecContext` and has no rows to deliver. -/
def reportingDatabase (rowsAffected lastInsertId : Int) : Database Unit where
  ExecContext := fun _ _ _ => ((), .ok ⟨rowsAffected, lastInsertId⟩)
  QueryContext := fun _ _ _ => ((), .ok { columns := .ok ["x"], rows := [], err := none })
  deadlineExceeded := fun _ => false

/-- The context under which an action calls the database, if it is such a call. -/
def Event.context : Event → Option Ctx
  | Event.dbExec ctx _ => some ctx
  | Event.dbQuery ctx _ => some ctx
  | _ => none

/-- The width of column `j`: the maximum of the length of its header and of the lengths of
its cells. -/
def columnWidth (columns : List String) (results : List (List String)) (j : Nat) : Nat :=
  (results.map (fun row => len (row.getD j ""))).foldl max (len (columns.getD j ""))

/-- The widths of the columns. -/
def tableWidths (columns : List String) (results : List (List String)) : List Nat :=
  (List.range columns.length).map (columnWidth columns results)

/-- A border: `+`, then for each column `width + 2` dashes and `+`. -/
def borderLine (widths : List Nat) : String :=
  "+" ++ String.join
    (widths.map (fun width => String.mk (List.replicate (width + 2) '-') ++ "+"))

/-- A cell padded on the right with spaces to the width. -/
def padRight (cell : String) (width : Nat) : String :=
  cell ++ String.mk (List.replicate (width - len cell) ' ')

/-- A row: `|`, then for each column a space, the padded cell, a space and `|`. -/
def rowLine (cells : List String) (widths : List Nat) : String :=
  "|" ++ String.join (List.zipWith (fun cell width => " " ++ padRight cell width ++ " |")
    cells widths)

/-- The row-count line. -/
def rowCountLine (n : Nat) : String :=
  if n = 1 then "1 row in set" else toString n ++ " rows in set"

/-- The lines of the table: a border, the header row, a border, one line per data row, a
border and the row-count line. -/
def tableLines (columns : List String) (results : List (List String)) : List String :=
  [borderLine (tableWidths columns results), rowLine columns (tableWidths columns results),
    borderLine (tableWidths columns results)] ++
  results.map (fun row => rowLine row (tableWidths columns results)) ++
  [borderLine (tableWidths columns results), rowCountLine results.length]

/-- The length every border and row of a table has: 1 and, for each column, its width
and 3. -/
def lineLength (widths : List Nat) : Nat := 1 + (widths.map (fun width => width + 3)).sum

/-! # Theorems -/

/-! ## Trimming -/

theorem dropWhile_append_of_not {α : Type} (p : α → Bool) (A : List α) (x : α) (R : List α)
    (hx : p x = false) : (A ++ x :: R).dropWhile p = A.dropWhile p ++ x :: R := by
  induction A with
  | nil => simp [List.dropWhile, hx]
  | cons a A ih =>
    by_cases ha : p a = true
    · simp [List.dropWhile, ha, ih]
    · simp [List.dropWhile, ha]

theorem rdropWhile_append_of_not {α : Type} (p : α → Bool) (L : List α) (y : α) (B : List α)
    (hy : p y = false) : (L ++ y :: B).rdropWhile p = L ++ y :: B.rdropWhile p := by
  unfold List.rdropWhile
  have h := dropWhile_append_of_not p B.reverse y L.reverse hy
  simp only [List.reverse_append, List.reverse_cons, List.append_assoc, List.singleton_append]
  rw [h]
  simp

theorem dropWhile_eq_self_of_head {α : Type} (p : α → Bool) (x : α) (R : List α)
    (hx : p x = false) : (x :: R).dropWhile p = x :: R := by
  simp [List.dropWhile, hx]

/-- Trimming a text whose core starts and ends with a rune that is no white space leaves the
core and trims what is around it. -/
theorem TrimSpace_around (A M B : List Char) (x y : Char)
    (hxM : M.head? = some x) (hyM : M.getLast? = some y)
    (hx : IsSpace x = false) (hy : IsSpace y = false) :
    TrimSpace (A ++ M ++ B) = A.dropWhile IsSpace ++ M ++ B.rdropWhile IsSpace := by
  have hMx : ∃ t, M = x :: t := by
    cases M with
    | nil => simp at hxM
    | cons a t => simp at hxM; exact ⟨t, by rw [hxM]⟩
  obtain ⟨t, rfl⟩ := hMx
  obtain ⟨u, hu⟩ : ∃ u, x :: t = u ++ [y] := by
    have hne : (x :: t) ≠ [] := by simp
    refine ⟨(x :: t).dropLast, ?_⟩
    have h1 := List.dropLast_append_getLast hne
    have h2 : (x :: t).getLast hne = y := by
      have := List.getLast?_eq_getLast (x :: t) hne
      rw [this] at hyM
      exact Option.some.inj hyM
    rw [← h2]; exact h1.symm
  unfold TrimSpace
  have e1 : (A ++ (x :: t) ++ B).dropWhile IsSpace = A.dropWhile IsSpace ++ x :: (t ++ B) := by
    have := dropWhile_append_of_not IsSpace A x (t ++ B) hx
    simpa using this
  rw [e1]
  have e2 : A.dropWhile IsSpace ++ x :: (t ++ B) = (A.dropWhile IsSpace ++ u) ++ y :: B := by
    have : x :: (t ++ B) = (x :: t) ++ B := rfl
    rw [this, hu]; simp
  rw [e2, rdropWhile_append_of_not IsSpace _ y B hy]
  simp [hu]


/-! ## Runes -/

theorem char_ofNat_toNat (c : Char) : Char.ofNat c.toNat = c := by
  simp [Char.ofNat_toNat]

/-- A property of all ASCII runes can be checked on the 128 code points. -/
theorem ascii_cases (P : Char → Prop) (h : ∀ n, n < 128 → P (Char.ofNat n)) (c : Char)
    (hc : c.toNat < 128) : P c := by
  have := h c.toNat hc
  rwa [char_ofNat_toNat] at this

theorem isReSpace_ascii (c : Char) (h : isReSpace c = true) : c.toNat < 128 := by
  simp only [isReSpace, Bool.or_eq_true, beq_iff_eq] at h
  rcases h with (((h | h) | h) | h) | h <;> subst h <;> decide

theorem isWordChar_ascii (c : Char) (h : isWordChar c = true) : c.toNat < 128 := by
  simp only [isWordChar, Bool.or_eq_true, Bool.and_eq_true, decide_eq_true_eq, beq_iff_eq] at h
  rcases h with ((h | h) | h) | h
  · have := h.2; have e : c.toNat ≤ ('9' : Char).toNat := this; simp at e; omega
  · have := h.2; have e : c.toNat ≤ ('Z' : Char).toNat := this; simp at e; omega
  · have := h.2; have e : c.toNat ≤ ('z' : Char).toNat := this; simp at e; omega
  · subst h; decide

theorem isReSpace_facts (c : Char) (h : isReSpace c = true) :
    IsSpace c = true ∧ unicodeToLower c = c ∧ isWordChar c = false := by
  have hc := isReSpace_ascii c h
  revert h
  refine ascii_cases (fun c => isReSpace c = true →
    IsSpace c = true ∧ unicodeToLower c = c ∧ isWordChar c = false) ?_ c hc
  decide


/-! ## The case tables -/

theorem caseLookup_cases (t : List CaseRange) (n : Nat) :
    (caseLookup t n = n ∧ ∀ r ∈ t, r.covers n = false) ∨
    ∃ r ∈ t, r.covers n = true ∧ caseLookup t n = r.image n := by
  induction t with
  | nil => left; simp [caseLookup]
  | cons r rs ih =>
    by_cases hr : r.covers n = true
    · right; exact ⟨r, by simp, hr, by simp [caseLookup, hr]⟩
    · rcases ih with ⟨h1, h2⟩ | ⟨r2, hmem, hcov, himg⟩
      · left
        refine ⟨by simp [caseLookup, hr, h1], ?_⟩
        intro q hq
        rcases List.mem_cons.mp hq with rfl | hq
        · simpa using hr
        · exact h2 q hq
      · right
        exact ⟨r2, List.mem_cons_of_mem _ hmem, hcov, by simp [caseLookup, hr, himg]⟩

theorem caseLookup_of_uncovered (t : List CaseRange) (n : Nat)
    (h : ∀ r ∈ t, r.covers n = false) : caseLookup t n = n := by
  rcases caseLookup_cases t n with ⟨h1, _⟩ | ⟨r, hmem, hcov, _⟩
  · exact h1
  · rw [h r hmem] at hcov; cases hcov

theorem imagesMiss_sound (r1 r2 : CaseRange) (n : Nat) (h : imagesMiss r1 r2 = true)
    (hc : r1.covers n = true) : r2.covers (r1.image n) = false := by
  obtain ⟨lo1, hi1, s1, t1⟩ := r1
  obtain ⟨lo2, hi2, s2, t2⟩ := r2
  simp only [imagesMiss, CaseRange.covers, CaseRange.image, Bool.or_eq_true, Bool.and_eq_true,
    decide_eq_true_eq, beq_iff_eq, bne_iff_ne, ne_eq, Bool.not_eq_true', Bool.and_eq_false_imp]
    at h hc ⊢
  by_contra hcon
  simp only [Bool.and_eq_false_imp, decide_eq_true_eq, beq_eq_false_iff_ne, ne_eq, not_forall,
    Classical.not_imp, Decidable.not_not, exists_prop] at hcon
  obtain ⟨⟨hlo, hhi⟩, hmod⟩ := hc
  rcases h with ((h | h) | h) | h
  · omega
  · omega
  · obtain ⟨⟨e1, e2⟩, e3⟩ := h
    subst e1; subst e2
    omega
  · obtain ⟨e1, e2⟩ := h
    have hn : n = lo1 := by omega
    subst hn
    simp only [Nat.sub_self, Nat.add_zero] at hcon
    have := e2 hcon.1
    simp [hcon.2] at this


theorem IsSpace_iff_mem (c : Char) : IsSpace c = true ↔ c.toNat ∈ spaceCodes := by
  simp only [IsSpace, spaceCodes, Bool.or_eq_true, Bool.and_eq_true, beq_iff_eq,
    decide_eq_true_eq, List.mem_cons, List.mem_singleton, List.not_mem_nil, or_false]
  omega

theorem toNat_ofNat_of_valid (m : Nat) (h : m.isValidChar) : (Char.ofNat m).toNat = m := by
  simp only [Char.ofNat, h, dite_true]
  rfl

theorem isValidChar_iff (m : Nat) : m.isValidChar ↔ (m < 0xD800 ∨ (0xDFFF < m ∧ m < 0x110000)) := by
  simp [Nat.isValidChar]

theorem lowerRanges_imagesMiss :
    lowerRanges.all (fun r1 => lowerRanges.all (imagesMiss r1)) = true := by decide!

theorem lowerRanges_checks :
    lowerRanges.all (fun r => imageValid r && spaceFree r && noUpperImage r) = true := by decide

theorem upperRanges_checks :
    upperRanges.all (fun r => imageValid r && spaceFree r) = true := by decide

theorem image_bounds (r : CaseRange) (n : Nat) (h : r.covers n = true) :
    r.2.2.2 ≤ r.image n ∧ r.image n ≤ r.2.2.2 + (r.2.1 - r.1) := by
  obtain ⟨lo, hi, s, t⟩ := r
  simp only [CaseRange.covers, CaseRange.image, Bool.and_eq_true, decide_eq_true_eq] at h ⊢
  omega

theorem image_toNat (r : CaseRange) (n : Nat) (h : r.covers n = true) (hv : imageValid r = true) :
    (Char.ofNat (r.image n)).toNat = r.image n := by
  apply toNat_ofNat_of_valid
  rw [isValidChar_iff]
  have hb := image_bounds r n h
  simp only [imageValid, Bool.or_eq_true, Bool.and_eq_true, decide_eq_true_eq] at hv
  omega

/-- A case table whose runs are free of white space maps white space to itself and nothing
else to white space. -/
theorem caseLookup_space (t : List CaseRange)
    (ht : t.all (fun r => imageValid r && spaceFree r) = true) (c : Char) :
    (IsSpace c = true → caseLookup t c.toNat = c.toNat) ∧
    (IsSpace (Char.ofNat (caseLookup t c.toNat)) = true → IsSpace c = true) := by
  rw [List.all_eq_true] at ht
  constructor
  · intro hs
    apply caseLookup_of_uncovered
    intro r hr
    have h1 := ht r hr
    simp only [Bool.and_eq_true, spaceFree, List.all_eq_true] at h1
    have h2 := h1.2 c.toNat ((IsSpace_iff_mem c).mp hs)
    simp only [Bool.and_eq_true, Bool.not_eq_true'] at h2
    exact h2.1
  · intro hs
    rcases caseLookup_cases t c.toNat with ⟨h1, _⟩ | ⟨r, hr, hcov, himg⟩
    · rw [h1, char_ofNat_toNat] at hs; exact hs
    · exfalso
      have h1 := ht r hr
      simp only [Bool.and_eq_true, spaceFree, List.all_eq_true] at h1
      rw [himg] at hs
      have hmem := (IsSpace_iff_mem _).mp hs
      rw [image_toNat r _ hcov h1.1] at hmem
      have h2 := h1.2 _ hmem
      have hb := image_bounds r _ hcov
      simp only [Bool.and_eq_true, Bool.not_eq_true', Bool.or_eq_true, decide_eq_true_eq] at h2
      omega

theorem unicodeToLower_of_not_ascii (c : Char) (h : ¬ c.toNat ≤ 0x7F) :
    unicodeToLower c = Char.ofNat (caseLookup lowerRanges c.toNat) := by
  simp [unicodeToLower, h]

theorem unicodeToUpper_of_not_ascii (c : Char) (h : ¬ c.toNat ≤ 0x7F) :
    unicodeToUpper c = Char.ofNat (caseLookup upperRanges c.toNat) := by
  simp [unicodeToUpper, h]

theorem IsSpace_unicodeToLower (c : Char) : IsSpace (unicodeToLower c) = IsSpace c := by
  by_cases hc : c.toNat ≤ 0x7F
  · revert c
    intro c hc
    exact ascii_cases (fun c => IsSpace (unicodeToLower c) = IsSpace c) (by decide) c (by omega)
  · rw [unicodeToLower_of_not_ascii c hc]
    have h := caseLookup_space lowerRanges
      (by have := lowerRanges_checks; simp only [List.all_eq_true, Bool.and_eq_true] at this ⊢
          intro r hr; exact (this r hr).1) c
    by_cases hs : IsSpace c = true
    · rw [h.1 hs, char_ofNat_toNat]
    · cases hl : IsSpace (Char.ofNat (caseLookup lowerRanges c.toNat)) with
      | true => exact absurd (h.2 hl) hs
      | false => simp at hs; rw [hs]

theorem IsSpace_unicodeToUpper (c : Char) : IsSpace (unicodeToUpper c) = IsSpace c := by
  by_cases hc : c.toNat ≤ 0x7F
  · exact ascii_cases (fun c => IsSpace (unicodeToUpper c) = IsSpace c) (by decide) c (by omega)
  · rw [unicodeToUpper_of_not_ascii c hc]
    have h := caseLookup_space upperRanges upperRanges_checks c
    by_cases hs : IsSpace c = true
    · rw [h.1 hs, char_ofNat_toNat]
    · cases hl : IsSpace (Char.ofNat (caseLookup upperRanges c.toNat)) with
      | true => exact absurd (h.2 hl) hs
      | false => simp at hs; rw [hs]

theorem unicodeToLower_of_IsSpace (c : Char) (h : IsSpace c = true) : unicodeToLower c = c := by
  by_cases hc : c.toNat ≤ 0x7F
  · revert h
    exact ascii_cases (fun c => IsSpace c = true → unicodeToLower c = c) (by decide) c (by omega)
  · rw [unicodeToLower_of_not_ascii c hc]
    have h1 := caseLookup_space lowerRanges
      (by have := lowerRanges_checks; simp only [List.all_eq_true, Bool.and_eq_true] at this ⊢
          intro r hr; exact (this r hr).1) c
    rw [h1.1 h, char_ofNat_toNat]

theorem unicodeToLower_idem (c : Char) :
    unicodeToLower (unicodeToLower c) = unicodeToLower c := by
  by_cases hc : c.toNat ≤ 0x7F
  · exact ascii_cases (fun c => unicodeToLower (unicodeToLower c) = unicodeToLower c)
      (by decide) c (by omega)
  · rw [unicodeToLower_of_not_ascii c hc]
    rcases caseLookup_cases lowerRanges c.toNat with ⟨h1, _⟩ | ⟨r, hr, hcov, himg⟩
    · rw [h1, char_ofNat_toNat, unicodeToLower_of_not_ascii c hc, h1, char_ofNat_toNat]
    · have hch := lowerRanges_checks
      rw [List.all_eq_true] at hch
      have h1 := hch r hr
      simp only [Bool.and_eq_true] at h1
      obtain ⟨⟨hv, _⟩, hup⟩ := h1
      rw [himg]
      have htn := image_toNat r _ hcov hv
      by_cases hm : r.image c.toNat ≤ 0x7F
      · have hb := image_bounds r _ hcov
        have hhi : c.toNat ≤ r.2.1 := by
          simp only [CaseRange.covers, Bool.and_eq_true, decide_eq_true_eq] at hcov
          exact hcov.1.2
        simp only [noUpperImage, Bool.or_eq_true, decide_eq_true_eq] at hup
        have hnot : ¬ (0x41 ≤ (Char.ofNat (r.image c.toNat)).toNat ∧
            (Char.ofNat (r.image c.toNat)).toNat ≤ 0x5A) := by
          rw [htn]; omega
        have hlt : (Char.ofNat (r.image c.toNat)).toNat < 128 := by rw [htn]; omega
        revert hnot
        exact ascii_cases (fun d => ¬ (0x41 ≤ d.toNat ∧ d.toNat ≤ 0x5A) → unicodeToLower d = d)
          (by decide) _ hlt
      · have hm2 : ¬ (Char.ofNat (r.image c.toNat)).toNat ≤ 0x7F := by rw [htn]; exact hm
        rw [unicodeToLower_of_not_ascii _ hm2, htn]
        have hmiss := lowerRanges_imagesMiss
        rw [List.all_eq_true] at hmiss
        have := hmiss r hr
        rw [List.all_eq_true] at this
        rw [caseLookup_of_uncovered]
        intro r2 hr2
        exact imagesMiss_sound r r2 _ (this r2 hr2) hcov


theorem lowerRanges_asciiImageKnown : lowerRanges.all asciiImageKnown = true := by decide

/-- The word runes of the validator are the ASCII word characters and the two runes that
lower-case to an ASCII letter: the dotted capital I and the Kelvin sign. -/
theorem isWordRune_iff (c : Char) :
    isWordRune c = true ↔ isWordChar c = true ∨ c.toNat = 0x130 ∨ c.toNat = 0x212A := by
  by_cases hc : c.toNat ≤ 0x7F
  · exact ascii_cases
      (fun c => isWordRune c = true ↔ isWordChar c = true ∨ c.toNat = 0x130 ∨ c.toNat = 0x212A)
      (by decide) c (by omega)
  · have hnw : isWordChar c = false := by
      cases h : isWordChar c with
      | false => rfl
      | true => have := isWordChar_ascii c h; omega
    constructor
    · intro h
      right
      unfold isWordRune at h
      rw [unicodeToLower_of_not_ascii c hc] at h
      rcases caseLookup_cases lowerRanges c.toNat with ⟨h1, _⟩ | ⟨r, hr, hcov, himg⟩
      · rw [h1, char_ofNat_toNat, hnw] at h; cases h
      · rw [himg] at h
        have hch := lowerRanges_checks
        rw [List.all_eq_true] at hch
        have h1 := hch r hr
        simp only [Bool.and_eq_true] at h1
        have htn := image_toNat r _ hcov h1.1.1
        have hlt := isWordChar_ascii _ h
        rw [htn] at hlt
        have hk := lowerRanges_asciiImageKnown
        rw [List.all_eq_true] at hk
        have h2 := hk r hr
        have hb := image_bounds r _ hcov
        simp only [CaseRange.covers, Bool.and_eq_true, decide_eq_true_eq] at hcov
        simp only [asciiImageKnown, Bool.or_eq_true, Bool.and_eq_true, decide_eq_true_eq,
          beq_iff_eq] at h2
        omega
    · intro h
      rcases h with h | h | h
      · rw [hnw] at h; cases h
      · have : c = Char.ofNat 0x130 := by rw [← h, char_ofNat_toNat]
        subst this; decide
      · have : c = Char.ofNat 0x212A := by rw [← h, char_ofNat_toNat]
        subst this; decide


/-! ## Collapsing runs of white space -/

theorem replaceSpaceRuns_append_cons (b : Bool) (A : List Char) (x : Char) (B : List Char)
    (hx : isReSpace x = false) :
    replaceSpaceRuns b (A ++ x :: B) = replaceSpaceRuns b A ++ x :: replaceSpaceRuns false B := by
  induction A generalizing b with
  | nil => simp [replaceSpaceRuns, hx]
  | cons a A ih =>
    by_cases ha : isReSpace a = true
    · cases b <;> simp [replaceSpaceRuns, ha, ih]
    · simp [replaceSpaceRuns, ha, ih]

theorem replaceSpaceRuns_append_of_last (b : Bool) (S : List Char) (y : Char) (B : List Char)
    (hy : isReSpace y = false) :
    replaceSpaceRuns b ((S ++ [y]) ++ B) =
      replaceSpaceRuns b (S ++ [y]) ++ replaceSpaceRuns false B := by
  have h1 := replaceSpaceRuns_append_cons b S y B hy
  have h2 := replaceSpaceRuns_append_cons b S y [] hy
  simp only [List.append_assoc, List.singleton_append]
  rw [h1, h2]
  simp [replaceSpaceRuns]

theorem replaceSpaceRuns_spaces_append (b : Bool) (c : Char) (ws R : List Char)
    (hc : isReSpace c = true) (hws : ∀ x ∈ ws, isReSpace x = true) :
    replaceSpaceRuns b (c :: ws ++ R) =
      (if b then [] else [' ']) ++ replaceSpaceRuns true R := by
  induction ws generalizing c with
  | nil => cases b <;> simp [replaceSpaceRuns, hc]
  | cons w ws ih =>
    have hw : isReSpace w = true := hws w (by simp)
    have key : replaceSpaceRuns true (w :: ws ++ R) = replaceSpaceRuns true R := by
      have := ih w hw (fun x hx => hws x (by simp [hx]))
      cases b
      · simp only [replaceSpaceRuns, hw, if_true, Bool.false_eq_true, if_false,
          List.cons_append, List.singleton_append, List.cons.injEq, true_and] at this
        simp only [replaceSpaceRuns, hw, if_true, List.cons_append]
        exact this
      · simpa using this
    cases b
    · simp only [replaceSpaceRuns, hc, if_true, Bool.false_eq_true, if_false, List.cons_append,
        List.singleton_append, List.cons.injEq, true_and]
      exact key
    · simp only [replaceSpaceRuns, hc, if_true, List.cons_append, List.nil_append]
      exact key

theorem replaceSpaceRuns_mem (b : Bool) (L : List Char) :
    ∀ x ∈ replaceSpaceRuns b L, x = ' ' ∨ x ∈ L := by
  induction L generalizing b with
  | nil => simp [replaceSpaceRuns]
  | cons a L ih =>
    intro x hx
    by_cases ha : isReSpace a = true
    · cases b
      · simp only [replaceSpaceRuns, ha, if_true, Bool.false_eq_true, if_false,
          List.mem_cons] at hx
        rcases hx with h | h
        · exact Or.inl h
        · rcases ih true x h with h | h
          · exact Or.inl h
          · exact Or.inr (List.mem_cons_of_mem _ h)
      · simp only [replaceSpaceRuns, ha, if_true] at hx
        rcases ih true x hx with h | h
        · exact Or.inl h
        · exact Or.inr (List.mem_cons_of_mem _ h)
    · simp only [replaceSpaceRuns, ha, if_false, List.mem_cons, Bool.false_eq_true] at hx
      rcases hx with h | h
      · exact Or.inr (by simp [h])
      · rcases ih false x h with h | h
        · exact Or.inl h
        · exact Or.inr (List.mem_cons_of_mem _ h)

theorem replaceSpaceRuns_length (b : Bool) (L : List Char) :
    (replaceSpaceRuns b L).length ≤ L.length := by
  induction L generalizing b with
  | nil => simp [replaceSpaceRuns]
  | cons a L ih =>
    by_cases ha : isReSpace a = true
    · cases b
      · simp only [replaceSpaceRuns, ha, if_true, Bool.false_eq_true, if_false, List.length_cons]
        have := ih true; omega
      · simp only [replaceSpaceRuns, ha, if_true, List.length_cons]
        have := ih true; omega
    · simp only [replaceSpaceRuns, ha, if_false, List.length_cons, Bool.false_eq_true]
      have := ih false; omega

theorem replaceSpaceRuns_false_eq_nil (L : List Char) (h : replaceSpaceRuns false L = []) :
    L = [] := by
  cases L with
  | nil => rfl
  | cons a L =>
    by_cases ha : isReSpace a = true
    · simp [replaceSpaceRuns, ha] at h
    · simp [replaceSpaceRuns, ha] at h

/-- What is at the end of a collapsed text. -/
theorem replaceSpaceRuns_getLast (b : Bool) (L : List Char) (c : Char)
    (h : (replaceSpaceRuns b L).getLast? = some c) :
    c = ' ' ∨ (L.getLast? = some c ∧ isReSpace c = false) := by
  induction L generalizing b with
  | nil => simp [replaceSpaceRuns] at h
  | cons a L ih =>
    by_cases ha : isReSpace a = true
    · have key : ∀ b2, (replaceSpaceRuns b2 L).getLast? = some c →
          c = ' ' ∨ ((a :: L).getLast? = some c ∧ isReSpace c = false) := by
        intro b2 h2
        rcases ih b2 h2 with h3 | ⟨h3, h4⟩
        · exact Or.inl h3
        · right
          refine ⟨?_, h4⟩
          cases L with
          | nil => simp at h3
          | cons x L => simpa [List.getLast?_cons_cons] using h3
      cases b
      · simp only [replaceSpaceRuns, ha, if_true, Bool.false_eq_true, if_false] at h
        cases hX : replaceSpaceRuns true L with
        | nil => rw [hX] at h; simp at h; exact Or.inl h.symm
        | cons x X =>
          rw [hX, List.getLast?_cons_cons] at h
          exact key true (by rw [hX]; exact h)
      · simp only [replaceSpaceRuns, ha, if_true] at h
        exact key true h
    · simp only [replaceSpaceRuns, ha, if_false, Bool.false_eq_true] at h
      cases hX : replaceSpaceRuns false L with
      | nil =>
        have hL := replaceSpaceRuns_false_eq_nil L hX
        subst hL
        rw [hX] at h
        simp at h
        subst h
        right
        simp [ha]
      | cons x X =>
        rw [hX, List.getLast?_cons_cons] at h
        rcases ih false (by rw [hX]; exact h) with h3 | ⟨h3, h4⟩
        · exact Or.inl h3
        · right
          refine ⟨?_, h4⟩
          cases L with
          | nil => simp at h3
          | cons y L => simpa [List.getLast?_cons_cons] using h3


/-! ## Matching -/

theorem lastRune_nil (prev : Option Char) : lastRune prev [] = prev := rfl

theorem lastRune_cons (prev : Option Char) (a : Char) (A : List Char) :
    lastRune prev (a :: A) = lastRune (some a) A := by
  cases A with
  | nil => simp [lastRune]
  | cons b A =>
    have h : (b :: A).getLast? = some ((b :: A).getLast (by simp)) :=
      List.getLast?_eq_getLast _ _
    simp only [lastRune, List.getLast?_cons_cons, h]

theorem lastRune_append (prev : Option Char) (A B : List Char) :
    lastRune prev (A ++ B) = lastRune (lastRune prev A) B := by
  induction A generalizing prev with
  | nil => simp [lastRune_nil]
  | cons a A ih => rw [List.cons_append, lastRune_cons, lastRune_cons, ih]

theorem skipSpaces_of_cont (k : Option Char → List Char → Bool) (prev : Option Char)
    (s : List Char) (h : k prev s = true) : skipSpaces k prev s = true := by
  cases s with
  | nil => simpa [skipSpaces] using h
  | cons c cs => simp [skipSpaces, h]

theorem skipSpaces_congr (k1 k2 : Option Char → List Char → Bool) (p1 p2 : Option Char)
    (hk : ∀ s, k1 p1 s = k2 p2 s) (hk2 : ∀ p s, k1 p s = k2 p s) (s : List Char) :
    skipSpaces k1 p1 s = skipSpaces k2 p2 s := by
  have h2 : ∀ p s, skipSpaces k1 p s = skipSpaces k2 p s := by
    intro p s
    induction s generalizing p with
    | nil => simp [skipSpaces, hk2]
    | cons c cs ih => simp [skipSpaces, hk2, ih]
  cases s with
  | nil => simp [skipSpaces, hk]
  | cons c cs => simp [skipSpaces, hk, h2]

/-- A match looks at the rune before it only to ask whether it is a word rune. -/
theorem matchHere_prev (pat : Pattern) (p1 p2 : Option Char) (h : isWordOpt p1 = isWordOpt p2)
    (s : List Char) : matchHere pat p1 s = matchHere pat p2 s := by
  induction pat generalizing s with
  | nil => simp [matchHere]
  | cons a ps ih =>
    cases a with
    | wordBoundary => simp [matchHere, atBoundary, h, ih]
    | lit p => cases s <;> simp [matchHere]
    | spaces1 => cases s <;> simp [matchHere]
    | spaces0 =>
      simp only [matchHere]
      exact skipSpaces_congr _ _ p1 p2 ih (fun _ _ => rfl) s

theorem skipSpaces_append (k : Option Char → List Char → Bool) (B : List Char)
    (hk : ∀ prev X, k prev X = true → k prev (X ++ B) = true) (prev : Option Char)
    (X : List Char) (h : skipSpaces k prev X = true) : skipSpaces k prev (X ++ B) = true := by
  induction X generalizing prev with
  | nil =>
    simp only [skipSpaces] at h
    exact skipSpaces_of_cont k prev _ (by simpa using hk prev [] h)
  | cons c cs ih =>
    simp only [skipSpaces, Bool.or_eq_true, Bool.and_eq_true] at h
    simp only [List.cons_append, skipSpaces, Bool.or_eq_true, Bool.and_eq_true]
    rcases h with h | ⟨h1, h2⟩
    · left; simpa using hk prev (c :: cs) h
    · right; exact ⟨h1, ih (some c) h2⟩

/-- A match stays a match when text that does not begin with a word rune is appended. -/
theorem matchHere_append (pat : Pattern) (B : List Char) (hB : isWordOpt B.head? = false)
    (prev : Option Char) (X : List Char) (h : matchHere pat prev X = true) :
    matchHere pat prev (X ++ B) = true := by
  induction pat generalizing prev X with
  | nil => simp [matchHere]
  | cons a ps ih =>
    cases a with
    | wordBoundary =>
      simp only [matchHere, Bool.and_eq_true] at h ⊢
      refine ⟨?_, ih prev X h.2⟩
      have h1 := h.1
      cases X with
      | nil =>
        simp only [atBoundary, List.head?_nil, List.nil_append, hB] at h1 ⊢
        simpa [isWordOpt] using h1
      | cons x X => simpa [atBoundary] using h1
    | lit p =>
      cases X with
      | nil => simp [matchHere] at h
      | cons x X =>
        simp only [matchHere, Bool.and_eq_true, List.cons_append] at h ⊢
        exact ⟨h.1, ih (some x) X h.2⟩
    | spaces1 =>
      cases X with
      | nil => simp [matchHere] at h
      | cons x X =>
        simp only [matchHere, Bool.and_eq_true, List.cons_append] at h ⊢
        exact ⟨h.1, skipSpaces_append _ B (fun p Y hY => ih p Y hY) (some x) X h.2⟩
    | spaces0 =>
      simp only [matchHere] at h ⊢
      exact skipSpaces_append _ B (fun p Y hY => ih p Y hY) prev X h

theorem searchFrom_of_matchHere (pat : Pattern) (prev : Option Char) (s : List Char)
    (h : matchHere pat prev s = true) : searchFrom pat prev s = true := by
  cases s with
  | nil => simpa [searchFrom] using h
  | cons c cs => simp [searchFrom, h]

/-- A match after the prefix `A` is found by the search. -/
theorem searchFrom_append (pat : Pattern) (prev : Option Char) (A R : List Char)
    (h : matchHere pat (lastRune prev A) R = true) : searchFrom pat prev (A ++ R) = true := by
  induction A generalizing prev with
  | nil => exact searchFrom_of_matchHere pat prev R (by simpa [lastRune_nil] using h)
  | cons a A ih =>
    rw [lastRune_cons] at h
    simp only [List.cons_append, searchFrom, Bool.or_eq_true]
    right
    exact ih (some a) h

/-- A successful search has found a match at some position. -/
theorem searchFrom_split (pat : Pattern) (prev : Option Char) (s : List Char)
    (h : searchFrom pat prev s = true) :
    ∃ A R, s = A ++ R ∧ matchHere pat (lastRune prev A) R = true := by
  induction s generalizing prev with
  | nil => exact ⟨[], [], rfl, by simpa [searchFrom, lastRune_nil] using h⟩
  | cons c cs ih =>
    simp only [searchFrom, Bool.or_eq_true] at h
    rcases h with h | h
    · exact ⟨[], c :: cs, rfl, by simpa [lastRune_nil] using h⟩
    · obtain ⟨A, R, e, hm⟩ := ih (some c) h
      exact ⟨c :: A, R, by simp [e], by rw [lastRune_cons]; exact hm⟩

/-- A pattern that matches a text also matches the text set between a part that does not end
with a word rune and a part that does not begin with one. -/
theorem MatchString_embed (pat : Pattern) (A X B : List Char)
    (hA : isWordOpt A.getLast? = false) (hB : isWordOpt B.head? = false)
    (h : MatchString pat X = true) : MatchString pat (A ++ X ++ B) = true := by
  obtain ⟨A1, R, e, hm⟩ := searchFrom_split pat none X h
  subst e
  have e2 : A ++ (A1 ++ R) ++ B = (A ++ A1) ++ (R ++ B) := by simp
  rw [e2]
  apply searchFrom_append
  apply matchHere_append pat B hB
  rw [← hm]
  apply matchHere_prev
  rw [lastRune_append]
  cases hA1 : A1.getLast? with
  | some c => simp [lastRune, hA1]
  | none =>
    simp only [lastRune, hA1]
    cases hAl : A.getLast? with
    | some c => rw [hAl] at hA; simpa [isWordOpt] using hA
    | none => rfl


/-! ## Normalisation of a text around a core -/

theorem replaceSpaceRuns_false_head (L : List Char) (c : Char)
    (h : (replaceSpaceRuns false L).head? = some c) : c = ' ' ∨ L.head? = some c := by
  cases L with
  | nil => simp [replaceSpaceRuns] at h
  | cons a L =>
    by_cases ha : isReSpace a = true
    · simp [replaceSpaceRuns, ha] at h; exact Or.inl h.symm
    · simp [replaceSpaceRuns, ha] at h; exact Or.inr (by simp [h])

theorem dropWhile_getLast {α : Type} (p : α → Bool) (L : List α) (c : α)
    (h : (L.dropWhile p).getLast? = some c) : L.getLast? = some c := by
  induction L with
  | nil => simp at h
  | cons a L ih =>
    by_cases ha : p a = true
    · simp only [List.dropWhile, ha] at h
      have := ih h
      cases L with
      | nil => simp at this
      | cons b L => simpa [List.getLast?_cons_cons] using this
    · simp only [List.dropWhile, ha] at h
      exact h

theorem rdropWhile_head {α : Type} (p : α → Bool) (L : List α) (c : α)
    (h : (L.rdropWhile p).head? = some c) : L.head? = some c := by
  obtain ⟨t, ht⟩ := List.rdropWhile_prefix p (l := L)
  cases hL : L.rdropWhile p with
  | nil => rw [hL] at h; simp at h
  | cons x X =>
    rw [hL] at h ht
    simp at h
    subst h
    rw [← ht]; simp

theorem isReSpace_false_of_not_IsSpace (c : Char) (h : IsSpace c = false) :
    isReSpace c = false := by
  cases hr : isReSpace c with
  | false => rfl
  | true => rw [(isReSpace_facts c hr).1] at h; cases h

/-- The text the validator inspects when a core `S`, which begins and ends with a rune that
is no white space, stands between `P` and `Q`: the normalised core, between what is left of
the normalised `P` and `Q`. -/
theorem normalizeQuery_around (P S Q : List Char) (x y : Char)
    (hx : S.head? = some x) (hy : S.getLast? = some y)
    (hxs : IsSpace x = false) (hys : IsSpace y = false) :
    normalizeQuery (P ++ S ++ Q) =
      (replaceSpaceRuns false (ToLower P)).dropWhile IsSpace ++
        replaceSpaceRuns false (ToLower S) ++
        (replaceSpaceRuns false (ToLower Q)).rdropWhile IsSpace ∧
    (replaceSpaceRuns false (ToLower S)).head? = some (unicodeToLower x) ∧
    (replaceSpaceRuns false (ToLower S)).getLast? = some (unicodeToLower y) := by
  have hx2 : IsSpace (unicodeToLower x) = false := by rw [IsSpace_unicodeToLower]; exact hxs
  have hy2 : IsSpace (unicodeToLower y) = false := by rw [IsSpace_unicodeToLower]; exact hys
  have hx3 := isReSpace_false_of_not_IsSpace _ hx2
  have hy3 := isReSpace_false_of_not_IsSpace _ hy2
  obtain ⟨t, ht⟩ : ∃ t, S = x :: t := by
    cases S with
    | nil => simp at hx
    | cons a t => simp at hx; exact ⟨t, by rw [hx]⟩
  obtain ⟨u, hu⟩ : ∃ u, S = u ++ [y] := by
    have hne : S ≠ [] := by rw [ht]; simp
    refine ⟨S.dropLast, ?_⟩
    have h1 := List.dropLast_append_getLast hne
    have h2 : S.getLast hne = y := by
      have := List.getLast?_eq_getLast S hne
      rw [this] at hy
      exact Option.some.inj hy
    rw [← h2]; exact h1.symm
  have eS1 : replaceSpaceRuns false (ToLower S) =
      unicodeToLower x :: replaceSpaceRuns false (ToLower t) := by
    rw [ht]; simp [ToLower, replaceSpaceRuns, hx3]
  have eS2 : replaceSpaceRuns false (ToLower S) =
      replaceSpaceRuns false (ToLower u) ++ [unicodeToLower y] := by
    rw [hu]
    have := replaceSpaceRuns_append_cons false (ToLower u) (unicodeToLower y) [] hy3
    simpa [ToLower, replaceSpaceRuns] using this
  have hhead : (replaceSpaceRuns false (ToLower S)).head? = some (unicodeToLower x) := by
    rw [eS1]; rfl
  have hlast : (replaceSpaceRuns false (ToLower S)).getLast? = some (unicodeToLower y) := by
    rw [eS2]; simp
  refine ⟨?_, hhead, hlast⟩
  have e1 : replaceSpaceRuns false (ToLower (P ++ S ++ Q)) =
      replaceSpaceRuns false (ToLower P) ++ replaceSpaceRuns false (ToLower S) ++
        replaceSpaceRuns false (ToLower Q) := by
    have a1 : ToLower (P ++ S ++ Q) = ToLower P ++ (ToLower S ++ ToLower Q) := by
      simp [ToLower]
    rw [a1]
    have a2 : ToLower S ++ ToLower Q = unicodeToLower x :: (ToLower t ++ ToLower Q) := by
      rw [ht]; simp [ToLower]
    rw [a2, replaceSpaceRuns_append_cons false _ _ _ hx3]
    have a3 : unicodeToLower x :: replaceSpaceRuns false (ToLower t ++ ToLower Q) =
        replaceSpaceRuns false (ToLower S ++ ToLower Q) := by
      rw [a2]; simp [replaceSpaceRuns, hx3]
    rw [a3]
    have a4 : ToLower S = ToLower u ++ [unicodeToLower y] := by rw [hu]; simp [ToLower]
    have a5 := replaceSpaceRuns_append_of_last false (ToLower u) (unicodeToLower y)
      (ToLower Q) hy3
    rw [a4, a5]
    simp
  unfold normalizeQuery
  rw [e1]
  exact TrimSpace_around _ _ _ (unicodeToLower x) (unicodeToLower y) hhead hlast hx2 hy2

/-- The normalised core alone. -/
theorem normalizeQuery_core (S : List Char) (x y : Char)
    (hx : S.head? = some x) (hy : S.getLast? = some y)
    (hxs : IsSpace x = false) (hys : IsSpace y = false) :
    normalizeQuery S = replaceSpaceRuns false (ToLower S) := by
  have h := (normalizeQuery_around [] S [] x y hx hy hxs hys).1
  simpa [ToLower, replaceSpaceRuns] using h

/-- A pattern that matches the normalised core matches the normalised whole, when the runes
next to the core are not word runes in lower case. -/
theorem MatchString_normalizeQuery_around (pat : Pattern) (P S Q : List Char) (x y : Char)
    (hx : S.head? = some x) (hy : S.getLast? = some y)
    (hxs : IsSpace x = false) (hys : IsSpace y = false)
    (hP : ∀ c, P.getLast? = some c → isWordChar (unicodeToLower c) = false)
    (hQ : ∀ c, Q.head? = some c → isWordChar (unicodeToLower c) = false)
    (h : MatchString pat (normalizeQuery S) = true) :
    MatchString pat (normalizeQuery (P ++ S ++ Q)) = true := by
  rw [(normalizeQuery_around P S Q x y hx hy hxs hys).1]
  rw [normalizeQuery_core S x y hx hy hxs hys] at h
  apply MatchString_embed _ _ _ _ _ _ h
  · cases hl : ((replaceSpaceRuns false (ToLower P)).dropWhile IsSpace).getLast? with
    | none => rfl
    | some c =>
      have h1 := dropWhile_getLast _ _ _ hl
      rcases replaceSpaceRuns_getLast _ _ _ h1 with h2 | ⟨h2, _⟩
      · subst h2; rfl
      · simp only [ToLower, List.getLast?_map, Option.map_eq_some'] at h2
        obtain ⟨c0, hc0, rfl⟩ := h2
        simpa [isWordOpt] using hP c0 hc0
  · cases hl : ((replaceSpaceRuns false (ToLower Q)).rdropWhile IsSpace).head? with
    | none => rfl
    | some c =>
      have h1 := rdropWhile_head _ _ _ hl
      rcases replaceSpaceRuns_false_head _ _ h1 with h2 | h2
      · subst h2; rfl
      · simp only [ToLower, List.head?_map, Option.map_eq_some'] at h2
        obtain ⟨c0, hc0, rfl⟩ := h2
        simpa [isWordOpt] using hQ c0 hc0


/-! ## C1: DROP DATABASE and DROP SCHEMA -/

theorem toLower_ascii (c : Char) (h : c.toLower.toNat < 128) : c.toNat < 128 := by
  by_cases hc : c.toNat < 128
  · exact hc
  · have : c.toLower = c := by
      simp only [Char.toLower]
      have h2 : ¬ (c.toNat ≥ 65 ∧ c.toNat ≤ 90) := by omega
      simp [h2]
    rw [this] at h
    exact h

theorem unicodeToLower_eq_toLower (c : Char) (h : c.toLower.toNat < 128) :
    unicodeToLower c = c.toLower ∧ IsSpace c = IsSpace c.toLower := by
  exact ascii_cases (fun c => unicodeToLower c = c.toLower ∧ IsSpace c = IsSpace c.toLower)
    (by decide) c (toLower_ascii c h)

theorem ToLower_of_toLower (w kw : List Char) (h : w.map Char.toLower = kw)
    (hk : ∀ c ∈ kw, c.toNat < 128) : ToLower w = kw := by
  subst h
  simp only [ToLower]
  apply List.map_congr_left
  intro c hc
  exact (unicodeToLower_eq_toLower c (hk _ (List.mem_map_of_mem _ hc))).1

theorem normalizeQuery_two_words (w1 ws w2 k1 k2 : List Char) (a a2 b2 : Char)
    (t1 t2 u2 : List Char)
    (h1 : w1.map Char.toLower = k1) (h2 : w2.map Char.toLower = k2)
    (hk1 : k1 = a :: t1) (hk2 : k2 = a2 :: t2) (hk2l : k2 = u2 ++ [b2])
    (hA1 : ∀ c ∈ k1, c.toNat < 128 ∧ isReSpace c = false)
    (hA2 : ∀ c ∈ k2, c.toNat < 128 ∧ isReSpace c = false)
    (ha : IsSpace a = false) (hb2 : IsSpace b2 = false)
    (hws : ws ≠ []) (hws2 : ∀ c ∈ ws, isReSpace c = true) :
    normalizeQuery (w1 ++ ws ++ w2) = k1 ++ ' ' :: k2 ∧
    ∃ x y, (w1 ++ ws ++ w2).head? = some x ∧ (w1 ++ ws ++ w2).getLast? = some y ∧
      IsSpace x = false ∧ IsSpace y = false := by
  have e1 := ToLower_of_toLower w1 k1 h1 (fun c hc => (hA1 c hc).1)
  have e2 := ToLower_of_toLower w2 k2 h2 (fun c hc => (hA2 c hc).1)
  -- the first rune of w1 and the last rune of w2
  obtain ⟨x, r1, hw1⟩ : ∃ x r1, w1 = x :: r1 := by
    cases w1 with
    | nil => rw [hk1] at h1; simp at h1
    | cons x r1 => exact ⟨x, r1, rfl⟩
  have hxa : x.toLower = a := by
    rw [hw1, hk1] at h1; simp at h1; exact h1.1
  have hxs : IsSpace x = false := by
    have := (unicodeToLower_eq_toLower x (by rw [hxa]; exact (hA1 a (by rw [hk1]; simp)).1)).2
    rw [this, hxa]; exact ha
  obtain ⟨r2, y, hw2⟩ : ∃ r2 y, w2 = r2 ++ [y] := by
    rcases List.eq_nil_or_concat w2 with h | ⟨r2, y, h⟩
    · rw [h, hk2] at h2; simp at h2
    · exact ⟨r2, y, by simpa using h⟩
  have hyb : y.toLower = b2 := by
    rw [hw2, hk2l] at h2
    simp only [List.map_append, List.map_cons, List.map_nil] at h2
    have := List.append_inj' h2 (by simp)
    simpa using this.2
  have hys : IsSpace y = false := by
    have := (unicodeToLower_eq_toLower y
      (by rw [hyb]; exact (hA2 b2 (by rw [hk2l]; simp)).1)).2
    rw [this, hyb]; exact hb2
  have hhead : (w1 ++ ws ++ w2).head? = some x := by rw [hw1]; simp
  have hlast : (w1 ++ ws ++ w2).getLast? = some y := by rw [hw2]; simp
  refine ⟨?_, x, y, hhead, hlast, hxs, hys⟩
  rw [normalizeQuery_core _ x y hhead hlast hxs hys]
  have e3 : ToLower (w1 ++ ws ++ w2) = k1 ++ (ToLower ws ++ k2) := by
    simp only [ToLower, List.map_append] at e1 e2 ⊢
    rw [e1, e2]; simp
  have e4 : ToLower ws = ws := by
    simp only [ToLower]
    conv_rhs => rw [← List.map_id ws]
    apply List.map_congr_left
    intro c hc
    exact (isReSpace_facts c (hws2 c hc)).2.1
  rw [e3, e4]
  -- the words hold no white space, so the collapse only touches the run between them
  have key : ∀ (k : List Char) (R : List Char), (∀ c ∈ k, isReSpace c = false) →
      replaceSpaceRuns false (k ++ R) = k ++ replaceSpaceRuns false R := by
    intro k R hk
    induction k with
    | nil => rfl
    | cons c k ih =>
      have hc := hk c (by simp)
      have := ih (fun d hd => hk d (by simp [hd]))
      simp only [List.cons_append, replaceSpaceRuns, hc, Bool.false_eq_true, if_false]
      exact congrArg (c :: ·) this
  rw [key k1 _ (fun c hc => (hA1 c hc).2)]
  obtain ⟨c, ws', rfl⟩ : ∃ c ws', ws = c :: ws' := by
    cases ws with
    | nil => exact absurd rfl hws
    | cons c ws' => exact ⟨c, ws', rfl⟩
  rw [replaceSpaceRuns_spaces_append false c ws' k2 (hws2 c (by simp))
    (fun d hd => hws2 d (by simp [hd]))]
  have e5 : replaceSpaceRuns true k2 = k2 := by
    have := key k2 [] (fun c hc => (hA2 c hc).2)
    simp only [List.append_nil, replaceSpaceRuns] at this
    rw [hk2] at this ⊢
    have ha2 := (hA2 a2 (by rw [hk2]; simp)).2
    simp only [replaceSpaceRuns, ha2, Bool.false_eq_true, if_false] at this ⊢
    exact this
  rw [e5]
  simp

/-- The rejection that the code achieves, for the white space of the regexp class `\s`.
Every query that contains DROP DATABASE or DROP SCHEMA as whole words, in any mix of upper
and lower case and with one or more of the runes space, tab, newline, carriage return, form
feed between the two words, is rejected with `ErrDropDatabase`, wherever the phrase stands:
`query = pre ++ w1 ++ ws ++ w2 ++ post`, where `w1` is DROP and `w2` is DATABASE or SCHEMA
up to case, `ws` is the white space, and the runes next to the phrase are not word runes.
White space outside `\s`, such as a vertical tab, is not covered. -/
theorem validate_rejects_drop_database (pre w1 ws w2 post : List Char)
    (hw1 : isCaseVariantOf w1 "DROP" = true)
    (hw2 : isCaseVariantOf w2 "DATABASE" = true ∨ isCaseVariantOf w2 "SCHEMA" = true)
    (hws : ws ≠ [] ∧ ∀ c ∈ ws, isReSpace c = true)
    (hpre : ∀ c, pre.getLast? = some c → isWordRune c = false)
    (hpost : ∀ c, post.head? = some c → isWordRune c = false) :
    NewValidator.Validate (pre ++ w1 ++ ws ++ w2 ++ post) =
      some DomainError.ErrDropDatabase := by
  have hw1' : w1.map Char.toLower = "drop".toList := by
    simpa [isCaseVariantOf] using hw1
  have assoc : pre ++ w1 ++ ws ++ w2 ++ post = pre ++ (w1 ++ ws ++ w2) ++ post := by simp
  rw [assoc]
  have main : ∀ (k2 : List Char) (a2 b2 : Char) (t2 u2 : List Char),
      w2.map Char.toLower = k2 → k2 = a2 :: t2 → k2 = u2 ++ [b2] →
      (∀ c ∈ k2, c.toNat < 128 ∧ isReSpace c = false) → IsSpace b2 = false →
      containsDropDatabase ("drop".toList ++ ' ' :: k2) = true →
      NewValidator.Validate (pre ++ (w1 ++ ws ++ w2) ++ post) =
        some DomainError.ErrDropDatabase := by
    intro k2 a2 b2 t2 u2 h2 hk2 hk2l hA2 hb2 hmatch
    obtain ⟨hn, x, y, hx, hy, hxs, hys⟩ :=
      normalizeQuery_two_words w1 ws w2 "drop".toList k2 'd' a2 b2 "rop".toList t2 u2
        hw1' h2 rfl hk2 hk2l (by decide) hA2 (by decide) hb2 hws.1 hws.2
    simp only [containsDropDatabase, List.any_eq_true] at hmatch
    obtain ⟨pat, hpat, hm⟩ := hmatch
    have := MatchString_normalizeQuery_around pat pre (w1 ++ ws ++ w2) post x y hx hy hxs hys
      hpre hpost (by rw [hn]; exact hm)
    have hc : containsDropDatabase (normalizeQuery (pre ++ (w1 ++ ws ++ w2) ++ post)) = true := by
      simp only [containsDropDatabase, List.any_eq_true]
      exact ⟨pat, hpat, this⟩
    unfold Validator.Validate
    simp only [NewValidator]
    simp only [hc, if_true]
  rcases hw2 with h | h
  · have h2 : w2.map Char.toLower = "database".toList := by simpa [isCaseVariantOf] using h
    exact main "database".toList 'd' 'e' "atabase".toList "databas".toList h2 rfl rfl
      (by decide) (by decide) (by decide)
  · have h2 : w2.map Char.toLower = "schema".toList := by simpa [isCaseVariantOf] using h
    exact main "schema".toList 's' 'a' "chema".toList "schem".toList h2 rfl rfl
      (by decide) (by decide) (by decide)

/-- The query of the validator's test, with the phrase after another statement. -/
theorem validate_rejects_drop_database_witness :
    NewValidator.Validate "SELECT * FROM users; DROP DATABASE test;".toList =
      some DomainError.ErrDropDatabase :=
  validate_rejects_drop_database "SELECT * FROM users; ".toList "DROP".toList " ".toList
    "DATABASE".toList " test;".toList (by decide) (by decide) (by decide) (by decide) (by decide)

/-- Claim C1 at a failing input. In the query `DROP<VT>DATABASE x` the two words are whole
words separated by one vertical tab, U+000B: white space for `unicode.IsSpace`, which
`strings.TrimSpace` in `normalizeQuery` trims at the ends, but outside the regexp class `\s`.
`normalizeQuery` leaves the vertical tab between the words, neither pattern of
`containsDropDatabase` matches, and `Validate` returns nil, so `IsSafeQuery` is true; the
same holds with a no-break space before SCHEMA and with two vertical tabs. With a space in
its place the query is rejected with `ErrDropDatabase`, as the claim says of both. -/
theorem validate_admits_drop_database_vertical_tab :
    IsSpace '\x0b' = true ∧ isReSpace '\x0b' = false ∧
    TrimSpace "\x0bDROP DATABASE x\x0b".toList = "DROP DATABASE x".toList ∧
    normalizeQuery "DROP\x0bDATABASE x".toList = "drop\x0bdatabase x".toList ∧
    containsDropDatabase (normalizeQuery "DROP\x0bDATABASE x".toList) = false ∧
    NewValidator.Validate "DROP\x0bDATABASE x".toList = none ∧
    NewValidator.IsSafeQuery "DROP\x0bDATABASE x".toList = true ∧
    NewValidator.Validate "DROP\x0b\x0bDATABASE x".toList = none ∧
    NewValidator.Validate "drop\xa0schema x".toList = none ∧
    NewValidator.Validate "DROP DATABASE x".toList = some DomainError.ErrDropDatabase ∧
    NewValidator.Validate "drop schema x".toList = some DomainError.ErrDropDatabase := by
  decide


/-! ## C2, C3: the generic dangerous patterns and the admitted queries -/

/-- Claim C2 as stated fails. The query `KILL 5; DROP DATABASE x` matches the generic
pattern `\bKILL\b` (as submitted and as normalised), yet it is rejected with
`ErrDropDatabase` and not with `ErrDangerousCommand`: the schema-destruction test comes
first. -/
theorem validate_dangerous_with_drop_counterexample :
    compileDangerousPatterns.any
      (fun pattern => MatchString pattern "KILL 5; DROP DATABASE x".toList) = true ∧
    compileDangerousPatterns.any
      (fun pattern => MatchString pattern (normalizeQuery "KILL 5; DROP DATABASE x".toList))
        = true ∧
    NewValidator.Validate "KILL 5; DROP DATABASE x".toList = some DomainError.ErrDropDatabase ∧
    NewValidator.Validate "KILL 5; DROP DATABASE x".toList ≠
      some DomainError.ErrDangerousCommand := by
  decide

/-- Claim C2, amended. Every query whose normalised text matches one of the generic dangerous
patterns is rejected; the reason is `ErrDangerousCommand` when the normalised text does not
also match DROP DATABASE or DROP SCHEMA, and `ErrDropDatabase` when it does. -/
theorem validate_rejects_dangerous (query : List Char)
    (h : compileDangerousPatterns.any
      (fun pattern => MatchString pattern (normalizeQuery query)) = true) :
    NewValidator.Validate query ≠ none ∧
    (containsDropDatabase (normalizeQuery query) = false →
      NewValidator.Validate query = some DomainError.ErrDangerousCommand) ∧
    (containsDropDatabase (normalizeQuery query) = true →
      NewValidator.Validate query = some DomainError.ErrDropDatabase) := by
  unfold Validator.Validate
  simp only [NewValidator]
  cases hd : containsDropDatabase (normalizeQuery query) <;> simp [h, hd]

/-- The examples of the specification: GRANT, KILL and SHUTDOWN are rejected with
`ErrDangerousCommand`. -/
theorem validate_rejects_dangerous_witness :
    NewValidator.Validate "GRANT ALL PRIVILEGES ON *.* TO root;".toList =
      some DomainError.ErrDangerousCommand ∧
    NewValidator.Validate "KILL 5".toList = some DomainError.ErrDangerousCommand ∧
    NewValidator.Validate "SHUTDOWN".toList = some DomainError.ErrDangerousCommand :=
  ⟨(validate_rejects_dangerous "GRANT ALL PRIVILEGES ON *.* TO root;".toList (by decide)).2.1
      (by decide),
    (validate_rejects_dangerous "KILL 5".toList (by decide)).2.1 (by decide),
    (validate_rejects_dangerous "SHUTDOWN".toList (by decide)).2.1 (by decide)⟩

/-- Claim C3. A query whose normalised text matches none of the blocklisted patterns (neither
DROP DATABASE / DROP SCHEMA nor any of the 18 generic dangerous patterns) is admitted:
`Validate` returns nil and `IsSafeQuery` returns true.  In particular `DROP TABLE users;`,
`SELECT * FROM users;` and `ALTER TABLE users ADD COLUMN email VARCHAR(255);` are admitted. -/
theorem validate_admits_unmatched (query : List Char)
    (hDrop : ∀ pattern ∈ dropDBPatterns, MatchString pattern (normalizeQuery query) = false)
    (hDanger : ∀ pattern ∈ compileDangerousPatterns,
      MatchString pattern (normalizeQuery query) = false) :
    (NewValidator.Validate query = none ∧ NewValidator.IsSafeQuery query = true) ∧
    compileDangerousPatterns.length = 18 ∧
    NewValidator.Validate "DROP TABLE users;".toList = none ∧
    NewValidator.Validate "SELECT * FROM users;".toList = none ∧
    NewValidator.Validate "ALTER TABLE users ADD COLUMN email VARCHAR(255);".toList =
      none := by
  have h1 : containsDropDatabase (normalizeQuery query) = false := by
    simp only [containsDropDatabase, List.any_eq_false]
    intro p hp; simp [hDrop p hp]
  have h2 : compileDangerousPatterns.any
      (fun pattern => MatchString pattern (normalizeQuery query)) = false := by
    simp only [List.any_eq_false]
    intro p hp; simp [hDanger p hp]
  have h3 : NewValidator.Validate query = none := by
    unfold Validator.Validate
    simp only [NewValidator]
    simp [h1, h2]
  refine ⟨⟨h3, by simp [Validator.IsSafeQuery, h3]⟩, by decide, by decide, by decide, by decide⟩

/-- The theorem at `DROP TABLE users;`. -/
theorem validate_admits_unmatched_witness :
    NewValidator.Validate "DROP TABLE users;".toList = none ∧
    NewValidator.IsSafeQuery "DROP TABLE users;".toList = true :=
  (validate_admits_unmatched "DROP TABLE users;".toList (by decide) (by decide)).1


/-! ## C10: the statement splitter -/

theorem Split_ne_nil (s : List Char) (sep : Char) : Split s sep ≠ [] := by
  cases s with
  | nil => simp [Split]
  | cons c cs =>
    simp only [Split]
    split
    · simp
    · split <;> simp

theorem Split_intercalate (s : List Char) (sep : Char) :
    List.intercalate [sep] (Split s sep) = s := by
  induction s with
  | nil => simp [Split, List.intercalate]
  | cons c cs ih =>
    simp only [Split]
    by_cases hc : (c == sep) = true
    · have e : c = sep := by simpa using hc
      simp only [hc, if_true]
      cases hS : Split cs sep with
      | nil => exact absurd hS (Split_ne_nil cs sep)
      | cons p ps =>
        rw [hS] at ih
        rw [← ih, e]
        simp [List.intercalate, List.intersperse]
    · simp only [hc, if_false, Bool.false_eq_true]
      cases hS : Split cs sep with
      | nil => exact absurd hS (Split_ne_nil cs sep)
      | cons p ps =>
        rw [hS] at ih
        rw [← ih]
        cases ps <;> simp [List.intercalate, List.intersperse]

theorem Split_no_sep (s : List Char) (sep : Char) : ∀ part ∈ Split s sep, sep ∉ part := by
  induction s with
  | nil => simp [Split]
  | cons c cs ih =>
    intro part hpart
    simp only [Split] at hpart
    by_cases hc : (c == sep) = true
    · simp only [hc, if_true, List.mem_cons] at hpart
      rcases hpart with h | h
      · subst h; simp
      · exact ih part h
    · simp only [hc, if_false, Bool.false_eq_true] at hpart
      cases hS : Split cs sep with
      | nil => exact absurd hS (Split_ne_nil cs sep)
      | cons p ps =>
        rw [hS] at hpart ih
        simp only [List.mem_cons] at hpart
        rcases hpart with h | h
        · subst h
          have := ih p (by simp)
          simp only [List.mem_cons, not_or]
          refine ⟨?_, this⟩
          intro e; apply hc; simp [e]
        · exact ih part (by simp [h])

/-- The shape of a split: the first part ends the text or stands before the first
separator, and the other parts are the split of what follows that separator. -/
theorem Split_form (s : List Char) (sep : Char) :
    ∃ p ps, Split s sep = p :: ps ∧ sep ∉ p ∧
      ((ps = [] ∧ s = p) ∨ ∃ rest, s = p ++ sep :: rest ∧ ps = Split rest sep) := by
  induction s with
  | nil => exact ⟨[], [], by simp [Split], by simp, Or.inl ⟨rfl, rfl⟩⟩
  | cons c cs ih =>
    by_cases hc : (c == sep) = true
    · have e : c = sep := by simpa using hc
      exact ⟨[], Split cs sep, by simp [Split, hc], by simp, Or.inr ⟨cs, by simp [e], rfl⟩⟩
    · obtain ⟨p, ps, e1, hp, h⟩ := ih
      have hne : sep ∉ c :: p := by
        simp only [List.mem_cons, not_or]
        exact ⟨fun e => hc (by simp [e]), hp⟩
      refine ⟨c :: p, ps, by simp [Split, hc, e1], hne, ?_⟩
      rcases h with ⟨h1, h2⟩ | ⟨rest, h1, h2⟩
      · exact Or.inl ⟨h1, by rw [h2]⟩
      · exact Or.inr ⟨rest, by simp [h1], h2⟩

/-- Every part of a split stands in the text between separators (or the ends). -/
theorem Split_mem (sep : Char) (n : Nat) : ∀ (s : List Char), s.length ≤ n →
    ∀ part ∈ Split s sep, ∃ P Q, s = P ++ part ++ Q ∧ (∀ c, P.getLast? = some c → c = sep) ∧
      (∀ c, Q.head? = some c → c = sep) := by
  induction n with
  | zero =>
    intro s hs part hpart
    have : s = [] := List.eq_nil_of_length_eq_zero (by omega)
    subst this
    simp only [Split, List.mem_singleton] at hpart
    subst hpart
    exact ⟨[], [], rfl, by simp, by simp⟩
  | succ n ih =>
    intro s hs part hpart
    obtain ⟨p, ps, e1, _, h⟩ := Split_form s sep
    rw [e1, List.mem_cons] at hpart
    rcases h with ⟨h1, h2⟩ | ⟨rest, h1, h2⟩
    · subst h1
      simp only [List.not_mem_nil, or_false] at hpart
      subst hpart
      exact ⟨[], [], by simp [h2], by simp, by simp⟩
    · rcases hpart with hpart | hpart
      · subst hpart
        exact ⟨[], sep :: rest, by simp [h1], by simp, by simp⟩
      · rw [h2] at hpart
        have hlen : rest.length ≤ n := by
          have := congrArg List.length h1
          simp at this
          omega
        obtain ⟨P, Q, e2, hP, hQ⟩ := ih rest hlen part hpart
        refine ⟨p ++ sep :: P, Q, by rw [h1, e2]; simp, ?_, hQ⟩
        intro c hc
        cases P with
        | nil => simp at hc; exact hc.symm
        | cons x P =>
          have : (p ++ sep :: x :: P).getLast? = (x :: P).getLast? := by
            rw [show p ++ sep :: x :: P = (p ++ [sep]) ++ (x :: P) by simp]
            rw [List.getLast?_append]
            simp [List.getLast?_eq_getLast]
          rw [this] at hc
          exact hP c hc

/-! ### Trimmed texts -/

theorem rdropWhile_decomp {α : Type} (p : α → Bool) (L : List α) :
    ∃ t, L = L.rdropWhile p ++ t ∧ ∀ c ∈ t, p c = true := by
  induction L using List.reverseRecOn with
  | nil => exact ⟨[], by simp, by simp⟩
  | append_singleton L x ih =>
    by_cases hx : p x = true
    · obtain ⟨t, e, ht⟩ := ih
      refine ⟨t ++ [x], ?_, ?_⟩
      · rw [List.rdropWhile_concat_pos _ _ _ hx, ← List.append_assoc, ← e]
      · intro c hc
        rcases List.mem_append.mp hc with h | h
        · exact ht c h
        · simp at h; rw [h]; exact hx
    · exact ⟨[], by rw [List.rdropWhile_concat_neg _ _ _ hx]; simp, by simp⟩

/-- A text is its trimmed form between two stretches of white space. -/
theorem TrimSpace_decomp (s : List Char) :
    ∃ l r, s = l ++ TrimSpace s ++ r ∧ (∀ c ∈ l, IsSpace c = true) ∧
      (∀ c ∈ r, IsSpace c = true) := by
  obtain ⟨t, e, ht⟩ := rdropWhile_decomp IsSpace (s.dropWhile IsSpace)
  refine ⟨s.takeWhile IsSpace, t, ?_, fun c hc => List.mem_takeWhile_imp hc, ht⟩
  unfold TrimSpace
  rw [List.append_assoc, ← e, List.takeWhile_append_dropWhile]

/-- A trimmed text that is not empty begins and ends with a rune that is no white space. -/
theorem TrimSpace_ends (s : List Char) (h : TrimSpace s ≠ []) :
    ∃ x y, (TrimSpace s).head? = some x ∧ (TrimSpace s).getLast? = some y ∧
      IsSpace x = false ∧ IsSpace y = false := by
  cases hT : TrimSpace s with
  | nil => exact absurd hT h
  | cons x T =>
    have hne : (x :: T) ≠ [] := by simp
    refine ⟨x, (x :: T).getLast hne, rfl, List.getLast?_eq_getLast _ _, ?_, ?_⟩
    · have h1 : (TrimSpace s).head? = some x := by rw [hT]; rfl
      unfold TrimSpace at h1
      have h2 := rdropWhile_head _ _ _ h1
      have h3 := List.head?_dropWhile_not IsSpace s
      rw [h2] at h3
      simpa using h3
    · have h1 := List.rdropWhile_last_not (p := IsSpace) (l := s.dropWhile IsSpace)
        (by unfold TrimSpace at h; exact h)
      have h2 : (List.rdropWhile IsSpace (s.dropWhile IsSpace)).getLast
          (by unfold TrimSpace at h; exact h) = (x :: T).getLast hne := by
        congr 1
      rw [h2] at h1
      simpa using h1

theorem TrimSpace_of_ends (s : List Char) (x y : Char) (hx : s.head? = some x)
    (hy : s.getLast? = some y) (hxs : IsSpace x = false) (hys : IsSpace y = false) :
    TrimSpace s = s := by
  have := TrimSpace_around [] s [] x y hx hy hxs hys
  simpa using this

/-- Trimming twice is trimming once. -/
theorem TrimSpace_idem (s : List Char) : TrimSpace (TrimSpace s) = TrimSpace s := by
  by_cases h : TrimSpace s = []
  · rw [h]; rfl
  · obtain ⟨x, y, hx, hy, hxs, hys⟩ := TrimSpace_ends s h
    exact TrimSpace_of_ends _ x y hx hy hxs hys

theorem TrimSpace_sublist (s : List Char) : (TrimSpace s).Sublist s := by
  unfold TrimSpace
  exact (List.rdropWhile_prefix IsSpace _).sublist.trans (List.dropWhile_sublist IsSpace)

theorem splitLoop_eq (parts init : List (List Char)) :
    parts.foldl
      (fun statements part =>
        let trimmed := TrimSpace part
        if trimmed != [] then statements ++ [trimmed] else statements) init =
    init ++ (parts.map TrimSpace).filter (fun s => s != []) := by
  induction parts generalizing init with
  | nil => simp
  | cons p ps ih =>
    simp only [List.foldl_cons, List.map_cons, List.filter_cons]
    rw [ih]
    by_cases hp : (TrimSpace p != []) = true
    · simp [hp]
    · simp [hp]

/-- The statements of a query are the trimmed, non-empty parts of its split. -/
theorem splitSQLStatements_eq (query : List Char) :
    splitSQLStatements query = ((Split query ';').map TrimSpace).filter (fun s => s != []) := by
  unfold splitSQLStatements
  rw [splitLoop_eq]
  simp

/-- Where a statement stands in the query: between separators or the ends of the query, with
white space around it. -/
theorem splitSQLStatements_mem (query s : List Char) (h : s ∈ splitSQLStatements query) :
    ∃ P frag Q, query = P ++ frag ++ Q ∧ s = TrimSpace frag ∧ s ≠ [] ∧ ';' ∉ frag ∧
      (∀ c, P.getLast? = some c → c = ';') ∧ (∀ c, Q.head? = some c → c = ';') := by
  rw [splitSQLStatements_eq, List.mem_filter, List.mem_map] at h
  obtain ⟨⟨frag, hfrag, e⟩, hne⟩ := h
  obtain ⟨P, Q, e1, hP, hQ⟩ := Split_mem ';' query.length query (le_refl _) frag hfrag
  exact ⟨P, frag, Q, e1, e.symm, by simpa using hne, Split_no_sep query ';' frag hfrag, hP, hQ⟩

/-- Claim C10. `splitSQLStatements` returns exactly the fragments between the `;` characters
(the parts of `Split`, which joined with `;` give the query back and hold no `;`), each
trimmed, in their order and without the empty ones; so every statement is non-empty, holds
no `;` and neither begins nor ends with white space; and `SELECT 1; ; SELECT 2;` yields
`SELECT 1` and `SELECT 2`. -/
theorem splitSQLStatements_spec (query : List Char) :
    splitSQLStatements query =
      ((Split query ';').map TrimSpace).filter (fun s => s != []) ∧
    List.intercalate [';'] (Split query ';') = query ∧
    (∀ part ∈ Split query ';', ';' ∉ part) ∧
    (∀ s ∈ splitSQLStatements query, s ≠ [] ∧ ';' ∉ s ∧
      (∀ c, s.head? = some c → IsSpace c = false) ∧
      (∀ c, s.getLast? = some c → IsSpace c = false)) ∧
    splitSQLStatements "SELECT 1; ; SELECT 2;".toList =
      ["SELECT 1".toList, "SELECT 2".toList] := by
  refine ⟨splitSQLStatements_eq query, Split_intercalate query ';', Split_no_sep query ';',
    ?_, by decide⟩
  intro s hs
  obtain ⟨P, frag, Q, _, e, hne, hsep, _, _⟩ := splitSQLStatements_mem query s hs
  refine ⟨hne, ?_, ?_, ?_⟩
  · intro hc
    rw [e] at hc
    exact hsep ((TrimSpace_sublist frag).subset hc)
  · obtain ⟨x, y, hx, hy, hxs, hys⟩ := TrimSpace_ends frag (by rw [← e]; exact hne)
    intro c hc
    rw [e, hx] at hc
    cases hc; exact hxs
  · obtain ⟨x, y, hx, hy, hxs, hys⟩ := TrimSpace_ends frag (by rw [← e]; exact hne)
    intro c hc
    rw [e, hy] at hc
    cases hc; exact hys


/-! ## C4: a query is judged as a whole -/

theorem Validate_eq_none_iff (query : List Char) :
    NewValidator.Validate query = none ↔
      ∀ pattern ∈ dropDBPatterns ++ compileDangerousPatterns,
        MatchString pattern (normalizeQuery query) = false := by
  unfold Validator.Validate containsDropDatabase
  simp only [NewValidator]
  constructor
  · intro h pattern hp
    cases h1 : dropDBPatterns.any (fun pattern => MatchString pattern (normalizeQuery query)) with
    | true => simp [h1] at h
    | false =>
      cases h2 : compileDangerousPatterns.any
          (fun pattern => MatchString pattern (normalizeQuery query)) with
      | true => simp [h1, h2] at h
      | false =>
        rw [List.any_eq_false] at h1 h2
        rcases List.mem_append.mp hp with hp | hp
        · simpa using h1 pattern hp
        · simpa using h2 pattern hp
  · intro h
    have h1 : dropDBPatterns.any (fun pattern => MatchString pattern (normalizeQuery query))
        = false := by
      rw [List.any_eq_false]
      intro p hp; simp [h p (List.mem_append_left _ hp)]
    have h2 : compileDangerousPatterns.any
        (fun pattern => MatchString pattern (normalizeQuery query)) = false := by
      rw [List.any_eq_false]
      intro p hp; simp [h p (List.mem_append_right _ hp)]
    simp [h1, h2]

theorem isWordRune_of_IsSpace (c : Char) (h : IsSpace c = true) : isWordRune c = false := by
  unfold isWordRune
  rw [unicodeToLower_of_IsSpace c h]
  cases hw : isWordChar c with
  | false => rfl
  | true =>
    have hc := isWordChar_ascii c hw
    revert h hw
    exact ascii_cases (fun c => IsSpace c = true → isWordChar c = true → true = false)
      (by decide) c hc

/-- Claim C4. If `Validate` admits a query, it admits every statement that
`splitSQLStatements` returns for it; put the other way round, a query one of whose
statements would be rejected on its own is rejected as a whole, whatever stands before or
after that statement. -/
theorem validate_admits_statements (query s : List Char)
    (h : NewValidator.Validate query = none) (hs : s ∈ splitSQLStatements query) :
    NewValidator.Validate s = none := by
  obtain ⟨P, frag, Q, e, es, hne, _, hP, hQ⟩ := splitSQLStatements_mem query s hs
  obtain ⟨l, r, ef, hl, hr⟩ := TrimSpace_decomp frag
  rw [← es] at ef
  obtain ⟨x, y, hx, hy, hxs, hys⟩ := TrimSpace_ends frag (by rw [← es]; exact hne)
  rw [← es] at hx hy
  have eq : query = (P ++ l) ++ s ++ (r ++ Q) := by rw [e, ef]; simp
  have hPl : ∀ c, (P ++ l).getLast? = some c → isWordChar (unicodeToLower c) = false := by
    intro c hc
    rcases List.eq_nil_or_concat l with h0 | ⟨l', z, h0⟩
    · subst h0
      rw [List.append_nil] at hc
      rw [hP c hc]; decide
    · subst h0
      have : c = z := by simpa [← List.append_assoc] using hc.symm
      subst this
      exact isWordRune_of_IsSpace c (hl c (by simp))
  have hrQ : ∀ c, (r ++ Q).head? = some c → isWordChar (unicodeToLower c) = false := by
    intro c hc
    cases r with
    | nil => rw [List.nil_append] at hc; rw [hQ c hc]; decide
    | cons z r' =>
      have : c = z := by simpa using hc.symm
      subst this
      exact isWordRune_of_IsSpace c (hr c (by simp))
  rw [Validate_eq_none_iff] at h ⊢
  intro pattern hp
  cases hm : MatchString pattern (normalizeQuery s) with
  | false => rfl
  | true =>
    have := MatchString_normalizeQuery_around pattern (P ++ l) s (r ++ Q) x y hx hy hxs hys
      hPl hrQ hm
    rw [← eq, h pattern hp] at this
    cases this

/-- The theorem at a query of two statements. -/
theorem validate_admits_statements_witness :
    NewValidator.Validate "SELECT 1; DROP TABLE t".toList = none ∧
    "DROP TABLE t".toList ∈ splitSQLStatements "SELECT 1; DROP TABLE t".toList ∧
    NewValidator.Validate "DROP TABLE t".toList = none :=
  ⟨by decide, by decide,
    validate_admits_statements "SELECT 1; DROP TABLE t".toList "DROP TABLE t".toList
      (by decide) (by decide)⟩


/-! ## C5: case and white space do not matter -/

theorem unicodeToLower_congr (c d : Char) (h : c.toLower = d.toLower) :
    unicodeToLower c = unicodeToLower d := by
  have hasc : ∀ e : Char, e.toNat < 128 → e.toLower.toNat < 128 := fun e he =>
    ascii_cases (fun e => e.toLower.toNat < 128) (by decide) e he
  have hnon : ∀ e : Char, ¬ e.toNat < 128 → e.toLower = e := by
    intro e he
    simp only [Char.toLower]
    have h2 : ¬ (e.toNat ≥ 65 ∧ e.toNat ≤ 90) := by omega
    simp [h2]
  by_cases hc : c.toNat < 128
  · have h1 := hasc c hc
    have h2 : d.toLower.toNat < 128 := by rw [← h]; exact h1
    rw [(unicodeToLower_eq_toLower c h1).1, (unicodeToLower_eq_toLower d h2).1, h]
  · have h1 := hnon c hc
    by_cases hd : d.toNat < 128
    · have := hasc d hd
      rw [← h, h1] at this
      exact absurd this hc
    · rw [hnon d hd, h1] at h
      rw [h]

theorem replaceSpaceRuns_append_congr (A R1 R2 : List Char)
    (h : ∀ b, replaceSpaceRuns b R1 = replaceSpaceRuns b R2) (b : Bool) :
    replaceSpaceRuns b (A ++ R1) = replaceSpaceRuns b (A ++ R2) := by
  induction A generalizing b with
  | nil => exact h b
  | cons a A ih =>
    have h1 := ih true
    have h2 := ih false
    simp only [List.cons_append, replaceSpaceRuns, List.append_eq, h1, h2]

theorem replaceSpaceRuns_false_or (L : List Char) :
    replaceSpaceRuns false L = replaceSpaceRuns true L ∨
    replaceSpaceRuns false L = ' ' :: replaceSpaceRuns true L := by
  cases L with
  | nil => left; rfl
  | cons a L =>
    by_cases ha : isReSpace a = true
    · right; simp [replaceSpaceRuns, ha]
    · left; simp [replaceSpaceRuns, ha]

theorem replaceSpaceRuns_concat_space (b : Bool) (L : List Char) (c : Char)
    (hc : isReSpace c = true) :
    replaceSpaceRuns b (L ++ [c]) = replaceSpaceRuns b L ++ [' '] ∨
    replaceSpaceRuns b (L ++ [c]) = replaceSpaceRuns b L := by
  induction L generalizing b with
  | nil => cases b <;> simp [replaceSpaceRuns, hc]
  | cons a L ih =>
    by_cases ha : isReSpace a = true
    · cases b
      · rcases ih true with h | h
        · left; simp [replaceSpaceRuns, ha, h]
        · right; simp [replaceSpaceRuns, ha, h]
      · rcases ih true with h | h
        · left; simp [replaceSpaceRuns, ha, h]
        · right; simp [replaceSpaceRuns, ha, h]
    · rcases ih false with h | h
      · left; simp [replaceSpaceRuns, ha, h]
      · right; simp [replaceSpaceRuns, ha, h]

theorem TrimSpace_cons_space (c : Char) (X : List Char) (hc : IsSpace c = true) :
    TrimSpace (c :: X) = TrimSpace X := by
  simp [TrimSpace, List.dropWhile, hc]

theorem TrimSpace_concat_space (X : List Char) (c : Char) (hc : IsSpace c = true) :
    TrimSpace (X ++ [c]) = TrimSpace X := by
  induction X with
  | nil => simp [TrimSpace, List.dropWhile, hc]
  | cons a X ih =>
    by_cases ha : IsSpace a = true
    · rw [List.cons_append, TrimSpace_cons_space a _ ha, TrimSpace_cons_space a _ ha, ih]
    · have ha2 : IsSpace a = false := by simpa using ha
      unfold TrimSpace
      rw [List.cons_append, dropWhile_eq_self_of_head IsSpace a _ ha2,
        dropWhile_eq_self_of_head IsSpace a _ ha2]
      exact List.rdropWhile_concat_pos IsSpace (a :: X) c hc

theorem normalizeQuery_of_same (q1 q2 : List Char) (h : SameUpToCaseAndSpace q1 q2) :
    normalizeQuery q1 = normalizeQuery q2 := by
  induction h with
  | refl q => rfl
  | symm _ ih => exact ih.symm
  | trans _ _ ih1 ih2 => exact ih1.trans ih2
  | letterCase a b c d hcd =>
    have : ToLower (a ++ c :: b) = ToLower (a ++ d :: b) := by
      simp [ToLower, unicodeToLower_congr c d hcd]
    unfold normalizeQuery
    rw [this]
  | runAfter a b c d hc hd =>
    have hc2 := (isReSpace_facts c hc).2.1
    have hd2 := (isReSpace_facts d hd).2.1
    unfold normalizeQuery
    have e1 : ToLower (a ++ c :: b) = ToLower a ++ c :: ToLower b := by simp [ToLower, hc2]
    have e2 : ToLower (a ++ c :: d :: b) = ToLower a ++ c :: d :: ToLower b := by
      simp [ToLower, hc2, hd2]
    rw [e1, e2]
    congr 1
    apply replaceSpaceRuns_append_congr
    intro b0
    cases b0 <;> simp [replaceSpaceRuns, hc, hd]
  | runBefore a b c d hc hd =>
    have hc2 := (isReSpace_facts c hc).2.1
    have hd2 := (isReSpace_facts d hd).2.1
    unfold normalizeQuery
    have e1 : ToLower (a ++ c :: b) = ToLower a ++ c :: ToLower b := by simp [ToLower, hc2]
    have e2 : ToLower (a ++ d :: c :: b) = ToLower a ++ d :: c :: ToLower b := by
      simp [ToLower, hc2, hd2]
    rw [e1, e2]
    congr 1
    apply replaceSpaceRuns_append_congr
    intro b0
    cases b0 <;> simp [replaceSpaceRuns, hc, hd]
  | leading q c hc =>
    unfold normalizeQuery
    have e1 : ToLower (c :: q) = c :: ToLower q := by
      simp [ToLower, unicodeToLower_of_IsSpace c hc]
    rw [e1]
    by_cases hr : isReSpace c = true
    · simp only [replaceSpaceRuns, hr, if_true, Bool.false_eq_true, if_false]
      rw [TrimSpace_cons_space ' ' _ (by decide)]
      rcases replaceSpaceRuns_false_or (ToLower q) with h | h
      · rw [h]
      · rw [h, TrimSpace_cons_space ' ' _ (by decide)]
    · simp only [replaceSpaceRuns, hr, if_false, Bool.false_eq_true]
      rw [TrimSpace_cons_space c _ hc]
  | trailing q c hc =>
    unfold normalizeQuery
    have e1 : ToLower (q ++ [c]) = ToLower q ++ [c] := by
      simp [ToLower, unicodeToLower_of_IsSpace c hc]
    rw [e1]
    by_cases hr : isReSpace c = true
    · rcases replaceSpaceRuns_concat_space false (ToLower q) c hr with h | h
      · rw [h, TrimSpace_concat_space _ ' ' (by decide)]
      · rw [h]
    · have := replaceSpaceRuns_append_cons false (ToLower q) c [] (by simpa using hr)
      rw [this]
      simp only [replaceSpaceRuns]
      rw [TrimSpace_concat_space _ c hc]


/-! ### Normalising a normalised text -/

theorem replaceSpaceRuns_idem (L : List Char) :
    (∀ b, replaceSpaceRuns false (replaceSpaceRuns b L) = replaceSpaceRuns b L) ∧
    replaceSpaceRuns true (replaceSpaceRuns true L) = replaceSpaceRuns true L := by
  induction L with
  | nil => simp [replaceSpaceRuns]
  | cons a L ih =>
    by_cases ha : isReSpace a = true
    · refine ⟨?_, ?_⟩
      · intro b
        cases b
        · have hsp : isReSpace ' ' = true := by decide
          simp only [replaceSpaceRuns, ha, if_true, Bool.false_eq_true, if_false, hsp]
          rw [ih.2]
        · simp only [replaceSpaceRuns, ha, if_true]
          exact ih.1 true
      · simp only [replaceSpaceRuns, ha, if_true]
        exact ih.2
    · refine ⟨?_, ?_⟩
      · intro b
        simp only [replaceSpaceRuns, ha, if_false, Bool.false_eq_true]
        rw [ih.1 false]
      · simp only [replaceSpaceRuns, ha, if_false, Bool.false_eq_true]
        rw [ih.1 false]

theorem replaceSpaceRuns_fix_tail (a : Char) (L : List Char)
    (h : replaceSpaceRuns false (a :: L) = a :: L) : replaceSpaceRuns false L = L := by
  by_cases ha : isReSpace a = true
  · simp only [replaceSpaceRuns, ha, if_true, Bool.false_eq_true, if_false, List.cons.injEq] at h
    have h2 := h.2
    cases L with
    | nil => rfl
    | cons x L' =>
      by_cases hx : isReSpace x = true
      · exfalso
        simp only [replaceSpaceRuns, hx, if_true] at h2
        have := replaceSpaceRuns_length true L'
        rw [h2] at this
        simp at this
      · simp only [replaceSpaceRuns, hx, if_false, Bool.false_eq_true] at h2 ⊢
        exact h2
  · simp only [replaceSpaceRuns, ha, if_false, Bool.false_eq_true, List.cons.injEq, true_and] at h
    exact h

theorem replaceSpaceRuns_fix_dropWhile (p : Char → Bool) (L : List Char)
    (h : replaceSpaceRuns false L = L) :
    replaceSpaceRuns false (L.dropWhile p) = L.dropWhile p := by
  induction L with
  | nil => exact h
  | cons a L ih =>
    by_cases ha : p a = true
    · simp only [List.dropWhile, ha]
      exact ih (replaceSpaceRuns_fix_tail a L h)
    · simp only [List.dropWhile, ha]
      exact h

theorem replaceSpaceRuns_fix_dropLast (L : List Char) (a : Char)
    (h : replaceSpaceRuns false (L ++ [a]) = L ++ [a]) : replaceSpaceRuns false L = L := by
  by_cases ha : isReSpace a = true
  · rcases replaceSpaceRuns_concat_space false L a ha with h1 | h1
    · rw [h1] at h
      exact (List.append_inj' h rfl).1
    · exfalso
      rw [h1] at h
      have := replaceSpaceRuns_length false L
      rw [h] at this
      simp at this
  · have h1 := replaceSpaceRuns_append_cons false L a [] (by simpa using ha)
    rw [h1] at h
    simp only [replaceSpaceRuns] at h
    exact (List.append_inj' h rfl).1

theorem replaceSpaceRuns_fix_rdropWhile (p : Char → Bool) (L : List Char)
    (h : replaceSpaceRuns false L = L) :
    replaceSpaceRuns false (L.rdropWhile p) = L.rdropWhile p := by
  induction L using List.reverseRecOn with
  | nil => exact h
  | append_singleton L a ih =>
    by_cases ha : p a = true
    · rw [List.rdropWhile_concat_pos _ _ _ ha]
      exact ih (replaceSpaceRuns_fix_dropLast L a h)
    · rw [List.rdropWhile_concat_neg _ _ _ ha]
      exact h

/-- The normalised text is its own normal form. -/
theorem normalizeQuery_idem (q : List Char) :
    normalizeQuery (normalizeQuery q) = normalizeQuery q := by
  have hfix : replaceSpaceRuns false (normalizeQuery q) = normalizeQuery q := by
    unfold normalizeQuery TrimSpace
    apply replaceSpaceRuns_fix_rdropWhile
    apply replaceSpaceRuns_fix_dropWhile
    exact (replaceSpaceRuns_idem _).1 false
  have hlow : ToLower (normalizeQuery q) = normalizeQuery q := by
    simp only [ToLower]
    conv_rhs => rw [← List.map_id (normalizeQuery q)]
    apply List.map_congr_left
    intro c hc
    have h1 : c ∈ replaceSpaceRuns false (ToLower q) := (TrimSpace_sublist _).subset hc
    rcases replaceSpaceRuns_mem _ _ c h1 with h2 | h2
    · subst h2; decide
    · simp only [ToLower, List.mem_map] at h2
      obtain ⟨c0, _, rfl⟩ := h2
      exact unicodeToLower_idem c0
  have : normalizeQuery (normalizeQuery q) = TrimSpace (normalizeQuery q) := by
    show TrimSpace (replaceSpaceRuns false (ToLower (normalizeQuery q))) = _
    rw [hlow, hfix]
  rw [this]
  unfold normalizeQuery
  exact TrimSpace_idem _

theorem Validate_congr (q1 q2 : List Char) (h : normalizeQuery q1 = normalizeQuery q2) :
    NewValidator.Validate q1 = NewValidator.Validate q2 := by
  unfold Validator.Validate
  simp only [NewValidator]
  simp only [h]

/-- Texts that agree up to the case of ASCII letters are the same up to case and space. -/
theorem same_of_map_toLower (a q1 q2 : List Char)
    (h : q1.map Char.toLower = q2.map Char.toLower) :
    SameUpToCaseAndSpace (a ++ q1) (a ++ q2) := by
  induction q1 generalizing a q2 with
  | nil =>
    cases q2 with
    | nil => exact SameUpToCaseAndSpace.refl _
    | cons d q2 => simp at h
  | cons c q1 ih =>
    cases q2 with
    | nil => simp at h
    | cons d q2 =>
      simp only [List.map_cons, List.cons.injEq] at h
      have s1 := SameUpToCaseAndSpace.letterCase a q1 c d h.1
      have s2 := ih (a ++ [d]) q2 h.2
      simp only [List.append_assoc, List.singleton_append] at s2
      exact SameUpToCaseAndSpace.trans s1 s2

/-- The two queries of the specification's example are the same up to case and space. -/
theorem same_example :
    SameUpToCaseAndSpace "dRoP   DaTaBaSe x".toList "DROP DATABASE x".toList := by
  have s1 : SameUpToCaseAndSpace "dRoP   DaTaBaSe x".toList "DROP   DATABASE x".toList :=
    same_of_map_toLower [] _ _ (by decide)
  have s2 : SameUpToCaseAndSpace "DROP  DATABASE x".toList "DROP   DATABASE x".toList :=
    SameUpToCaseAndSpace.runAfter "DROP".toList " DATABASE x".toList ' ' ' ' (by decide)
      (by decide)
  have s3 : SameUpToCaseAndSpace "DROP DATABASE x".toList "DROP  DATABASE x".toList :=
    SameUpToCaseAndSpace.runAfter "DROP".toList "DATABASE x".toList ' ' ' ' (by decide)
      (by decide)
  exact s1.trans (s2.symm.trans s3.symm)

/-- Claim C5. Validation is case-insensitive and whitespace-insensitive: two queries that
differ only in the case of ASCII letters, in the length of non-empty runs of white space
(space, tab, newline, carriage return, form feed) or in leading or trailing white space get
the same verdict, and the verdict on a query is the verdict on its normalised text. -/
theorem validate_case_space_insensitive (q1 q2 : List Char)
    (h : SameUpToCaseAndSpace q1 q2) :
    NewValidator.Validate q1 = NewValidator.Validate q2 ∧
    NewValidator.Validate q1 = NewValidator.Validate (normalizeQuery q1) :=
  ⟨Validate_congr q1 q2 (normalizeQuery_of_same q1 q2 h),
    Validate_congr q1 _ (normalizeQuery_idem q1).symm⟩

/-- The example of the specification: `dRoP   DaTaBaSe x` is rejected like
`DROP DATABASE x`. -/
theorem validate_case_space_insensitive_witness :
    NewValidator.Validate "dRoP   DaTaBaSe x".toList =
      NewValidator.Validate "DROP DATABASE x".toList ∧
    NewValidator.Validate "DROP DATABASE x".toList = some DomainError.ErrDropDatabase :=
  ⟨(validate_case_space_insensitive "dRoP   DaTaBaSe x".toList "DROP DATABASE x".toList
      same_example).1, by decide⟩


/-! ## C9: the dispatch of a statement -/

theorem TrimSpace_map (f : Char → Char) (hf : ∀ c, IsSpace (f c) = IsSpace c) (s : List Char) :
    TrimSpace (s.map f) = (TrimSpace s).map f := by
  have hcomp : (IsSpace ∘ f) = IsSpace := funext hf
  unfold TrimSpace List.rdropWhile
  rw [List.dropWhile_map, hcomp, ← List.map_reverse, List.dropWhile_map, hcomp,
    List.map_reverse]

theorem HasPrefix_append (k rest : List Char) : HasPrefix (k ++ rest) k = true := by
  simp [HasPrefix]

theorem HasPrefix_trans (s a b : List Char) (h : HasPrefix s a = true)
    (hab : HasPrefix a b = true) : HasPrefix s b = true := by
  simp only [HasPrefix, List.isPrefixOf_iff_prefix] at *
  exact hab.trans h

/-- Claim C9 as stated fails. The leading keyword of `SELECTALL FROM t` is SELECTALL, none of
the five read keywords, yet `executeStatement` takes the row-set path for it (it calls
`QueryContext`): the test is a prefix test. -/
theorem executeStatement_prefix_counterexample :
    hasReadKeyword "SELECTALL FROM t".toList = false ∧
    isSelect "SELECTALL FROM t".toList = true ∧
    (Sandbox.executeStatement exampleDatabase Ctx.exec "SELECTALL FROM t".toList
      exampleWorld).2.trace = [Event.dbQuery Ctx.exec "SELECTALL FROM t".toList] := by
  decide

/-- Claim C9, amended. `executeStatement` takes the row-set path exactly when the statement,
upper-cased and trimmed, begins with SELECT, SHOW, DESC or EXPLAIN (a prefix test, which
DESCRIBE passes through DESC), and the mutation path otherwise; in particular every
statement whose leading keyword is one of SELECT, SHOW, DESCRIBE, DESC, EXPLAIN, in any
case, takes the row-set path. -/
theorem executeStatement_dispatch {σ : Type} (db : Database σ) (ctx : Ctx) (stmt : List Char)
    (w : World σ) :
    (isSelect stmt = true ↔
      ∃ kw ∈ ["SELECT", "SHOW", "DESC", "EXPLAIN"],
        HasPrefix (TrimSpace (ToUpper stmt)) (String.toList kw) = true) ∧
    (isSelect stmt = true →
      Sandbox.executeStatement db ctx stmt w = Sandbox.executeSelectStatement db ctx stmt w) ∧
    (isSelect stmt = false →
      Sandbox.executeStatement db ctx stmt w =
        Sandbox.executeNonSelectStatement db ctx stmt w) ∧
    (hasReadKeyword stmt = true → isSelect stmt = true) := by
  have hiff : isSelect stmt = true ↔
      ∃ kw ∈ ["SELECT", "SHOW", "DESC", "EXPLAIN"],
        HasPrefix (TrimSpace (ToUpper stmt)) (String.toList kw) = true := by
    simp only [isSelect, Bool.or_eq_true, List.mem_cons, List.mem_singleton, List.not_mem_nil,
      or_false, exists_eq_or_imp, exists_eq_left]
    constructor
    · rintro ((((h | h) | h) | h) | h)
      · exact Or.inl h
      · exact Or.inr (Or.inl h)
      · exact Or.inr (Or.inr (Or.inl
          (HasPrefix_trans _ "DESCRIBE".toList "DESC".toList h (by decide))))
      · exact Or.inr (Or.inr (Or.inl h))
      · exact Or.inr (Or.inr (Or.inr h))
    · rintro (h | h | h | h)
      · exact Or.inl (Or.inl (Or.inl (Or.inl h)))
      · exact Or.inl (Or.inl (Or.inl (Or.inr h)))
      · exact Or.inl (Or.inr h)
      · exact Or.inr h
  refine ⟨hiff, ?_, ?_, ?_⟩
  · intro h; simp [Sandbox.executeStatement, h]
  · intro h; simp [Sandbox.executeStatement, h]
  · intro h
    simp only [hasReadKeyword, readKeywords, List.any_eq_true] at h
    obtain ⟨kw, hkw, hk⟩ := h
    have hk2 : (leadingKeyword stmt).map Char.toLower = kw.toList.map Char.toLower := by
      simpa [isCaseVariantOf] using hk
    -- the upper-cased leading keyword is the keyword
    have hup : ToUpper (leadingKeyword stmt) = (kw.toList.map Char.toLower).map Char.toUpper := by
      rw [← hk2, List.map_map]
      simp only [ToUpper]
      apply List.map_congr_left
      intro c hc
      have hmem : c.toLower ∈ kw.toList.map Char.toLower := by
        rw [← hk2]; exact List.mem_map_of_mem _ hc
      have hall : ∀ kw ∈ ["SELECT", "SHOW", "DESCRIBE", "DESC", "EXPLAIN"],
          ∀ x ∈ (String.toList kw).map Char.toLower, x.toNat < 128 := by decide
      have hasc : c.toLower.toNat < 128 := hall kw hkw _ hmem
      exact ascii_cases (fun c => unicodeToUpper c = (Char.toUpper ∘ Char.toLower) c)
        (by decide) c (toLower_ascii c hasc)
    have hsplit : TrimSpace stmt = leadingKeyword stmt ++ (TrimSpace stmt).dropWhile Char.isAlpha :=
      (List.takeWhile_append_dropWhile _ _).symm
    have e : TrimSpace (ToUpper stmt) =
        (kw.toList.map Char.toLower).map Char.toUpper ++
          ToUpper ((TrimSpace stmt).dropWhile Char.isAlpha) := by
      unfold ToUpper
      rw [TrimSpace_map unicodeToUpper IsSpace_unicodeToUpper]
      conv_lhs => rw [hsplit]
      rw [List.map_append]
      exact congrArg (· ++ _) hup
    have hpre : HasPrefix (TrimSpace (ToUpper stmt))
        ((kw.toList.map Char.toLower).map Char.toUpper) = true := by
      rw [e]; exact HasPrefix_append _ _
    rw [hiff]
    simp only [List.mem_cons, List.mem_singleton, List.not_mem_nil, or_false] at hkw
    rcases hkw with rfl | rfl | rfl | rfl | rfl
    · exact ⟨"SELECT", by simp, hpre⟩
    · exact ⟨"SHOW", by simp, hpre⟩
    · exact ⟨"DESC", by simp, HasPrefix_trans _ _ "DESC".toList hpre (by decide)⟩
    · exact ⟨"DESC", by simp, hpre⟩
    · exact ⟨"EXPLAIN", by simp, hpre⟩


/-! ## The calls on the database -/

theorem execContext_trace {σ : Type} (db : Database σ) (w : World σ) (ctx : Ctx)
    (sql : List Char) :
    (w.execContext db ctx sql).2.trace = w.trace ++ [Event.dbExec ctx sql] := rfl

theorem queryContext_trace {σ : Type} (db : Database σ) (w : World σ) (ctx : Ctx)
    (sql : List Char) :
    (w.queryContext db ctx sql).2.trace = w.trace ++ [Event.dbQuery ctx sql] := rfl

/-- A statement costs exactly one call on the database. -/
theorem executeStatement_trace {σ : Type} (db : Database σ) (ctx : Ctx) (stmt : List Char)
    (w : World σ) :
    (Sandbox.executeStatement db ctx stmt w).2.trace = w.trace ++ [statementEvent ctx stmt] := by
  unfold Sandbox.executeStatement statementEvent
  by_cases h : isSelect stmt = true
  · simp only [h, if_true]
    unfold Sandbox.executeSelectStatement
    have := queryContext_trace db w ctx stmt
    split <;> simp_all
  · simp only [h, if_false, Bool.false_eq_true]
    unfold Sandbox.executeNonSelectStatement
    have := execContext_trace db w ctx stmt
    split <;> simp_all

theorem runStatements_trace {σ : Type} (db : Database σ) (ctx : Ctx) (stmts : List (List Char))
    (w w1 : World σ) (outs : List String) (h : runStatements db ctx stmts w = some (outs, w1)) :
    w1.trace = w.trace ++ stmts.map (statementEvent ctx) ∧ outs.length = stmts.length := by
  induction stmts generalizing w outs with
  | nil =>
    simp only [runStatements, Option.some.injEq, Prod.mk.injEq] at h
    obtain ⟨rfl, rfl⟩ := h
    simp
  | cons stmt rest ih =>
    simp only [runStatements] at h
    have ht := executeStatement_trace db ctx stmt w
    cases hs : Sandbox.executeStatement db ctx stmt w with
    | mk o wa =>
      rw [hs] at h ht
      cases o with
      | ok output =>
        simp only at h
        cases hr : runStatements db ctx rest wa with
        | none => rw [hr] at h; simp at h
        | some r =>
          obtain ⟨outputs, w2⟩ := r
          rw [hr] at h
          simp only [Option.some.injEq, Prod.mk.injEq] at h
          obtain ⟨rfl, rfl⟩ := h
          have := ih wa outputs hr
          simp only at ht
          rw [this.1, ht]
          simp [this.2]
      | error msg => simp at h
      | panic => simp at h

/-- The loop of `ExecuteQuery` on statements that are not blank: the calls it makes are the
calls of a prefix of the statements, in order. -/
theorem executeLoop_trace {σ : Type} (db : Database σ) (ctx : Ctx) (stmts : List (List Char))
    (i : Nat) (b : String) (w : World σ) :
    ∃ done, done <+: stmts.filter (fun s => TrimSpace s != []) ∧
      (executeLoop db ctx i stmts b w).2.trace = w.trace ++ done.map (statementEvent ctx) := by
  induction stmts generalizing i b w with
  | nil => exact ⟨[], by simp, by simp [executeLoop]⟩
  | cons stmt rest ih =>
    by_cases hb : (TrimSpace stmt == []) = true
    · obtain ⟨done, hd, ht⟩ := ih (i + 1) b w
      refine ⟨done, ?_, ?_⟩
      · have : (TrimSpace stmt != []) = false := by simp [bne, hb]
        simpa [List.filter_cons, this] using hd
      · simp only [executeLoop, hb, if_true]
        exact ht
    · have hne : (TrimSpace stmt != []) = true := by simpa [bne] using hb
      have ht := executeStatement_trace db ctx stmt w
      simp only [executeLoop, hb, if_false, Bool.false_eq_true]
      cases hs : Sandbox.executeStatement db ctx stmt w with
      | mk o wa =>
        rw [hs] at ht
        simp only at ht
        cases o with
        | ok output =>
          simp only
          obtain ⟨done, hd, ht2⟩ := ih (i + 1)
            ((if i > 0 then b ++ "\n\n" else b) ++ output) wa
          refine ⟨stmt :: done, ?_, ?_⟩
          · simp only [List.filter_cons, hne, if_true]
            exact (List.prefix_cons_inj stmt).mpr hd
          · rw [ht2, ht]; simp
        | error msg =>
          refine ⟨[stmt], ?_, by simp [ht]⟩
          simp only [List.filter_cons, hne, if_true]
          exact (List.prefix_cons_inj stmt).mpr (List.nil_prefix)
        | panic =>
          refine ⟨[stmt], ?_, by simp [ht]⟩
          simp only [List.filter_cons, hne, if_true]
          exact (List.prefix_cons_inj stmt).mpr (List.nil_prefix)

theorem splitSQLStatements_trimmed (query s : List Char) (h : s ∈ splitSQLStatements query) :
    TrimSpace s = s ∧ s ≠ [] := by
  obtain ⟨_, frag, _, _, e, hne, _, _, _⟩ := splitSQLStatements_mem query s h
  exact ⟨by rw [e, TrimSpace_idem], hne⟩

theorem splitSQLStatements_filter (query : List Char) :
    (splitSQLStatements query).filter (fun s => TrimSpace s != []) =
      splitSQLStatements query := by
  rw [List.filter_eq_self]
  intro s hs
  have := splitSQLStatements_trimmed query s hs
  rw [this.1]
  simpa using this.2

theorem ExecuteQuery_unfold {σ : Type} (db : Database σ) (s : Sandbox) (ctx : Ctx)
    (query : List Char) (w : World σ) :
    s.ExecuteQuery db ctx query w =
      match w.execContext db ctx ("USE `".toList ++ s.dbName ++ "`".toList) with
      | (.error err, w1) =>
        (Outcome.error ("failed to switch to database " ++ String.mk s.dbName ++ ": " ++ err),
          w1)
      | (.ok _, w1) =>
        if (splitSQLStatements query).length == 0 then
          (Outcome.error "no valid SQL statements found", w1)
        else executeLoop db ctx 0 (splitSQLStatements query) "" w1 := rfl

/-- The calls of `ExecuteQuery`: `USE`, then statements of the query, all under the context
it was given. -/
theorem ExecuteQuery_trace {σ : Type} (db : Database σ) (s : Sandbox) (ctx : Ctx)
    (query : List Char) (w : World σ) :
    ∃ done, done <+: splitSQLStatements query ∧
      (s.ExecuteQuery db ctx query w).2.trace =
        w.trace ++ useEvent ctx s :: done.map (statementEvent ctx) := by
  have ht := execContext_trace db w ctx ("USE `".toList ++ s.dbName ++ "`".toList)
  rw [ExecuteQuery_unfold]
  cases hu : w.execContext db ctx ("USE `".toList ++ s.dbName ++ "`".toList) with
  | mk r w1 =>
    rw [hu] at ht
    simp only at ht
    cases r with
    | error err => exact ⟨[], List.nil_prefix, by simp [ht, useEvent]⟩
    | ok res =>
      simp only
      by_cases hl : ((splitSQLStatements query).length == 0) = true
      · rw [if_pos hl]
        exact ⟨[], List.nil_prefix, by simp [ht, useEvent]⟩
      · rw [if_neg hl]
        obtain ⟨done, hd, ht2⟩ := executeLoop_trace db ctx (splitSQLStatements query) 0 "" w1
        rw [splitSQLStatements_filter] at hd
        exact ⟨done, hd, by rw [ht2, ht]; simp [useEvent]⟩


/-! ## C8: the first failing statement -/

theorem executeLoop_stops {σ : Type} (db : Database σ) (ctx : Ctx) (pre post : List (List Char))
    (sk : List Char) (i : Nat) (b : String) (w w1 w2 : World σ) (outs : List String)
    (err : String) (hblank : ∀ s ∈ pre ++ [sk], TrimSpace s ≠ [])
    (hPre : runStatements db ctx pre w = some (outs, w1))
    (hFail : Sandbox.executeStatement db ctx sk w1 = (Outcome.error err, w2)) :
    executeLoop db ctx i (pre ++ sk :: post) b w =
      (Outcome.error ("error in statement " ++ toString (i + pre.length + 1) ++ ": " ++ err),
        w2) := by
  induction pre generalizing i b w outs with
  | nil =>
    simp only [runStatements, Option.some.injEq, Prod.mk.injEq] at hPre
    obtain ⟨_, rfl⟩ := hPre
    have hb : (TrimSpace sk == []) = false := by
      have := hblank sk (by simp)
      simpa using this
    simp [executeLoop, hb, hFail]
  | cons stmt rest ih =>
    have hb : (TrimSpace stmt == []) = false := by
      have := hblank stmt (by simp)
      simpa using this
    simp only [runStatements] at hPre
    cases hs : Sandbox.executeStatement db ctx stmt w with
    | mk o wa =>
      rw [hs] at hPre
      cases o with
      | ok output =>
        simp only at hPre
        cases hr : runStatements db ctx rest wa with
        | none => rw [hr] at hPre; simp at hPre
        | some r =>
          obtain ⟨outputs, w3⟩ := r
          rw [hr] at hPre
          simp only [Option.some.injEq, Prod.mk.injEq] at hPre
          obtain ⟨_, rfl⟩ := hPre
          have := ih (i + 1) ((if i > 0 then b ++ "\n\n" else b) ++ output) wa outputs
            (fun s hs => hblank s (by simp at hs ⊢; tauto)) hr
          simp only [List.cons_append, executeLoop, hb, hs, Bool.false_eq_true, if_false,
            List.append_eq]
          rw [this]
          simp only [List.length_cons]
          have e : i + 1 + rest.length + 1 = i + (rest.length + 1) + 1 := by omega
          rw [e]
      | error msg => simp at hPre
      | panic => simp at hPre

/-- Claim C8. When the statements of a query are `pre ++ sk :: post` and `sk` is the first one
whose execution fails (the `USE` and every statement of `pre` having succeeded),
`ExecuteQuery` executes the statements of `pre` and `sk` in that order and no statement of
`post`, and returns the empty string together with the error `error in statement k: `
followed by the error of `sk`, where `k` is the 1-based position of `sk`. -/
theorem executeQuery_stops_at_first_failure {σ : Type} (db : Database σ) (s : Sandbox)
    (ctx : Ctx) (query : List Char) (w w0 w1 w2 : World σ) (pre post : List (List Char))
    (sk : List Char) (useResult : SqlResult) (outs : List String) (err : String)
    (hUse : w.execContext db ctx ("USE `".toList ++ s.dbName ++ "`".toList) =
      (.ok useResult, w0))
    (hSplit : splitSQLStatements query = pre ++ sk :: post)
    (hPre : runStatements db ctx pre w0 = some (outs, w1))
    (hFail : Sandbox.executeStatement db ctx sk w1 = (Outcome.error err, w2)) :
    s.ExecuteQuery db ctx query w =
      (Outcome.error ("error in statement " ++ toString (pre.length + 1) ++ ": " ++ err), w2) ∧
    (s.ExecuteQuery db ctx query w).1.output = "" ∧
    w2.trace = w.trace ++ useEvent ctx s :: (pre ++ [sk]).map (statementEvent ctx) := by
  have hblank : ∀ t ∈ pre ++ [sk], TrimSpace t ≠ [] := by
    intro t ht
    have hmem : t ∈ splitSQLStatements query := by
      rw [hSplit]
      simp only [List.mem_append, List.mem_singleton, List.mem_cons] at ht ⊢
      tauto
    have := splitSQLStatements_trimmed query t hmem
    rw [this.1]; exact this.2
  have hrun : s.ExecuteQuery db ctx query w =
      (Outcome.error ("error in statement " ++ toString (pre.length + 1) ++ ": " ++ err),
        w2) := by
    rw [ExecuteQuery_unfold, hUse]
    simp only
    have hl : ((splitSQLStatements query).length == 0) = false := by
      rw [hSplit]; simp
    rw [hl]
    simp only [Bool.false_eq_true, if_false]
    rw [hSplit, executeLoop_stops db ctx pre post sk 0 "" w0 w1 w2 outs err hblank hPre hFail]
    simp
  refine ⟨hrun, by rw [hrun]; rfl, ?_⟩
  have t0 : w0.trace = w.trace ++ [useEvent ctx s] := by
    have := execContext_trace db w ctx ("USE `".toList ++ s.dbName ++ "`".toList)
    rw [hUse] at this
    exact this
  have t1 := (runStatements_trace db ctx pre w0 w1 outs hPre).1
  have t2 := executeStatement_trace db ctx sk w1
  rw [hFail] at t2
  simp only at t2
  rw [t2, t1, t0]
  simp

/-- The theorem on the example database: the second of three statements fails. -/
theorem executeQuery_stops_at_first_failure_witness :
    (Sandbox.ExecuteQuery exampleDatabase { dbName := "sb".toList } Ctx.exec
      "SELECT 1; BAD; SELECT 2".toList exampleWorld).1 =
      Outcome.error "error in statement 2: syntax error" ∧
    (Sandbox.ExecuteQuery exampleDatabase { dbName := "sb".toList } Ctx.exec
      "SELECT 1; BAD; SELECT 2".toList exampleWorld).2.trace =
      [Event.dbExec Ctx.exec "USE `sb`".toList, Event.dbQuery Ctx.exec "SELECT 1".toList,
        Event.dbExec Ctx.exec "BAD".toList] := by
  have h := executeQuery_stops_at_first_failure exampleDatabase { dbName := "sb".toList }
    Ctx.exec "SELECT 1; BAD; SELECT 2".toList exampleWorld
    { state := 1, trace := [Event.dbExec Ctx.exec "USE `sb`".toList] }
    { state := 2, trace := [Event.dbExec Ctx.exec "USE `sb`".toList,
        Event.dbQuery Ctx.exec "SELECT 1".toList] }
    { state := 3, trace := [Event.dbExec Ctx.exec "USE `sb`".toList,
        Event.dbQuery Ctx.exec "SELECT 1".toList, Event.dbExec Ctx.exec "BAD".toList] }
    ["SELECT 1".toList] ["SELECT 2".toList] "BAD".toList ⟨1, 0⟩
    ["+---+\n| x |\n+---+\n| 1 |\n+---+\n1 row in set"] "syntax error"
    rfl (by decide) rfl rfl
  exact ⟨by rw [h.1]; rfl, by rw [h.1]⟩


/-! ## C7: the cleanup of the sandbox -/

theorem NewSandbox_trace {σ : Type} (db : Database σ) (dbPrefix fullUUID : List Char)
    (w : World σ) :
    (NewSandbox db dbPrefix fullUUID w).2.trace =
      w.trace ++ [createEvent Ctx.background ⟨dbPrefix ++ generateShortUUID fullUUID⟩] ∧
    ∀ sandbox, (NewSandbox db dbPrefix fullUUID w).1 = .ok sandbox →
      sandbox = ⟨dbPrefix ++ generateShortUUID fullUUID⟩ := by
  have ht := execContext_trace db w Ctx.background
    ("CREATE DATABASE `".toList ++ (dbPrefix ++ generateShortUUID fullUUID) ++ "`".toList)
  unfold NewSandbox Sandbox.create
  simp only
  cases hc : w.execContext db Ctx.background
      ("CREATE DATABASE `".toList ++ (dbPrefix ++ generateShortUUID fullUUID) ++ "`".toList) with
  | mk r w1 =>
    rw [hc] at ht
    simp only at ht
    cases r with
    | error err => exact ⟨by simp [ht, createEvent], by intro s hs; simp at hs⟩
    | ok res =>
      refine ⟨by simp [ht, createEvent], ?_⟩
      intro s hs
      simp only [Except.ok.injEq] at hs
      exact hs.symm

theorem Cleanup_trace {σ : Type} (db : Database σ) (s : Sandbox) (ctx : Ctx) (w : World σ) :
    (s.Cleanup db ctx w).2.trace = w.trace ++ [cleanupEvent ctx s] := by
  have ht := execContext_trace db w ctx
    ("DROP DATABASE IF EXISTS `".toList ++ s.dbName ++ "`".toList)
  unfold Sandbox.Cleanup
  simp only
  cases hc : w.execContext db ctx
      ("DROP DATABASE IF EXISTS `".toList ++ s.dbName ++ "`".toList) with
  | mk r w1 =>
    rw [hc] at ht
    simp only at ht
    cases r <;> simp [ht, cleanupEvent]

theorem Execute_unfold {σ : Type} (db : Database σ) (e : MySQLExecutor) (env : Env)
    (query : List Char) (w : World σ) :
    MySQLExecutor.Execute e db env query w =
      match NewSandbox db e.dbPrefix env.fullUUID w with
      | (.error err, w1) => (some (NewErrorResponse ("Failed to create sandbox: " ++ err)), w1)
      | (.ok sandbox, w1) =>
        let run := sandbox.ExecuteQuery db Ctx.exec query w1
        let response : Option ExecuteResponse :=
          match run.1 with
          | Outcome.panic => none
          | Outcome.error err =>
            if db.deadlineExceeded run.2.state then
              some (NewErrorResponse
                ("Query execution timeout exceeded (" ++ e.queryTimeout ++ ")"))
            else some (NewErrorResponse ("Query execution failed: " ++ err))
          | Outcome.ok output => some (NewSuccessResponse output env.elapsedMs)
        match sandbox.Cleanup db Ctx.background run.2 with
        | (some cleanupErr, w3) =>
          (response, w3.print ("WARNING: Failed to cleanup sandbox " ++
            String.mk sandbox.dbName ++ ": " ++ cleanupErr ++ "\n"))
        | (none, w3) => (response, w3) := rfl

/-- The calls of a run of `Execute` in which the sandbox was created: after the calls of
`ExecuteQuery` comes the cleanup, and after it at most the warning. -/
theorem Execute_trace_ok {σ : Type} (db : Database σ) (e : MySQLExecutor) (env : Env)
    (query : List Char) (w w1 : World σ) (sandbox : Sandbox)
    (h : NewSandbox db e.dbPrefix env.fullUUID w = (.ok sandbox, w1)) :
    ∃ tail, (MySQLExecutor.Execute e db env query w).2.trace =
        (sandbox.ExecuteQuery db Ctx.exec query w1).2.trace ++
          cleanupEvent Ctx.background sandbox :: tail ∧
      (tail = [] ∨ ∃ line, tail = [Event.printed line]) := by
  rw [Execute_unfold, h]
  simp only
  have ht := Cleanup_trace db sandbox Ctx.background
    (sandbox.ExecuteQuery db Ctx.exec query w1).2
  cases hc : sandbox.Cleanup db Ctx.background (sandbox.ExecuteQuery db Ctx.exec query w1).2 with
  | mk r w3 =>
    rw [hc] at ht
    simp only at ht
    cases r with
    | none => exact ⟨[], by simp [ht], Or.inl rfl⟩
    | some cleanupErr =>
      exact ⟨[Event.printed ("WARNING: Failed to cleanup sandbox " ++
        String.mk sandbox.dbName ++ ": " ++ cleanupErr ++ "\n")],
        by simp [World.print, ht], Or.inr ⟨_, rfl⟩⟩

theorem execute_cleanup_helper {σ : Type} (db : Database σ) (e : MySQLExecutor) (env : Env)
    (query : List Char) (w : World σ) (err : String) (w1 : World σ)
    (h : NewSandbox db e.dbPrefix env.fullUUID w = (.error err, w1)) :
    (MySQLExecutor.Execute e db env query w).2.trace =
      w.trace ++ [createEvent Ctx.background ⟨e.dbPrefix ++ generateShortUUID env.fullUUID⟩] := by
  have hnew := NewSandbox_trace db e.dbPrefix env.fullUUID w
  rw [h] at hnew
  rw [Execute_unfold, h]
  exact hnew.1

theorem statementEvent_ne_cleanup (stmt : List Char) (s : Sandbox) :
    statementEvent Ctx.exec stmt ≠ cleanupEvent Ctx.background s := by
  unfold statementEvent cleanupEvent
  split <;> simp

/-- Claim C7. In every run of `Execute` in which `NewSandbox` succeeds, `Sandbox.Cleanup` (the
call `DROP DATABASE IF EXISTS` on the sandbox's name, under `context.Background()`) is made
exactly once, after the last call of `ExecuteQuery`, whatever the outcome of `ExecuteQuery`
(success, failure of a statement, timeout, panic); when `NewSandbox` fails, the only call of
the run is the `CREATE DATABASE` and no cleanup is made. -/
theorem execute_cleanup_exactly_once {σ : Type} (db : Database σ) (e : MySQLExecutor)
    (env : Env) (query : List Char) (w : World σ) :
    (∀ sandbox w1, NewSandbox db e.dbPrefix env.fullUUID w = (.ok sandbox, w1) →
      ∃ done tail,
        done <+: splitSQLStatements query ∧
        (sandbox.ExecuteQuery db Ctx.exec query w1).2.trace =
          w.trace ++ createEvent Ctx.background sandbox :: useEvent Ctx.exec sandbox ::
            done.map (statementEvent Ctx.exec) ∧
        (MySQLExecutor.Execute e db env query w).2.trace =
          (sandbox.ExecuteQuery db Ctx.exec query w1).2.trace ++
            cleanupEvent Ctx.background sandbox :: tail ∧
        (tail = [] ∨ ∃ line, tail = [Event.printed line]) ∧
        (((MySQLExecutor.Execute e db env query w).2.trace.drop w.trace.length).count
          (cleanupEvent Ctx.background sandbox) = 1)) ∧
    (∀ err w1, NewSandbox db e.dbPrefix env.fullUUID w = (.error err, w1) →
      (MySQLExecutor.Execute e db env query w).2.trace =
        w.trace ++ [createEvent Ctx.background ⟨e.dbPrefix ++ generateShortUUID env.fullUUID⟩] ∧
      ∀ s, cleanupEvent Ctx.background s ∉
        (MySQLExecutor.Execute e db env query w).2.trace.drop w.trace.length) := by
  have hnew := NewSandbox_trace db e.dbPrefix env.fullUUID w
  constructor
  · intro sandbox w1 h
    rw [h] at hnew
    have hsb := hnew.2 sandbox rfl
    have ht1 : w1.trace = w.trace ++ [createEvent Ctx.background sandbox] := by
      rw [hsb]; exact hnew.1
    obtain ⟨done, hd, hq⟩ := ExecuteQuery_trace db sandbox Ctx.exec query w1
    obtain ⟨tail, hx, htail⟩ := Execute_trace_ok db e env query w w1 sandbox h
    have hq2 : (sandbox.ExecuteQuery db Ctx.exec query w1).2.trace =
        w.trace ++ createEvent Ctx.background sandbox :: useEvent Ctx.exec sandbox ::
          done.map (statementEvent Ctx.exec) := by
      rw [hq, ht1]; simp
    refine ⟨done, tail, hd, hq2, hx, htail, ?_⟩
    rw [hx, hq2]
    have e1 : (w.trace ++ createEvent Ctx.background sandbox :: useEvent Ctx.exec sandbox ::
        done.map (statementEvent Ctx.exec) ++ cleanupEvent Ctx.background sandbox :: tail)
        = w.trace ++ (createEvent Ctx.background sandbox :: useEvent Ctx.exec sandbox ::
        done.map (statementEvent Ctx.exec) ++ cleanupEvent Ctx.background sandbox :: tail) := by
      simp
    rw [e1, List.drop_left]
    have c1 : createEvent Ctx.background sandbox ≠ cleanupEvent Ctx.background sandbox := by
      simp [createEvent, cleanupEvent]
    have c2 : useEvent Ctx.exec sandbox ≠ cleanupEvent Ctx.background sandbox := by
      simp [useEvent, cleanupEvent]
    have c3 : (done.map (statementEvent Ctx.exec)).count
        (cleanupEvent Ctx.background sandbox) = 0 := by
      rw [List.count_eq_zero]
      intro hmem
      obtain ⟨stmt, _, hs⟩ := List.mem_map.mp hmem
      exact statementEvent_ne_cleanup stmt sandbox hs
    have c4 : tail.count (cleanupEvent Ctx.background sandbox) = 0 := by
      rcases htail with rfl | ⟨line, rfl⟩
      · rfl
      · rw [List.count_eq_zero]; simp [cleanupEvent]
    simp only [List.cons_append, List.count_cons, List.count_append, c3, c4]
    simp [c1, c2]
  · intro err w1 h
    rw [h] at hnew
    have hx : (MySQLExecutor.Execute e db env query w).2.trace = w1.trace := by
      rw [Execute_unfold, h]
    rw [hx, hnew.1, List.drop_left]
    refine ⟨rfl, ?_⟩
    intro s
    simp [createEvent, cleanupEvent]

/-- The theorem on the example database, for a query whose second statement fails: the
calls of the whole run. -/
theorem execute_cleanup_exactly_once_witness :
    (MySQLExecutor.Execute exampleExecutor exampleDatabase exampleEnv
      "SELECT 1; BAD; SELECT 2".toList exampleWorld).2.trace =
    [Event.dbExec Ctx.background "CREATE DATABASE `sandbox_123e4567e89b`".toList,
      Event.dbExec Ctx.exec "USE `sandbox_123e4567e89b`".toList,
      Event.dbQuery Ctx.exec "SELECT 1".toList,
      Event.dbExec Ctx.exec "BAD".toList,
      Event.dbExec Ctx.background "DROP DATABASE IF EXISTS `sandbox_123e4567e89b`".toList] ∧
    ((MySQLExecutor.Execute exampleExecutor exampleDatabase exampleEnv
      "SELECT 1; BAD; SELECT 2".toList exampleWorld).2.trace.drop
        exampleWorld.trace.length).count
      (cleanupEvent Ctx.background ⟨"sandbox_123e4567e89b".toList⟩) = 1 := by
  obtain ⟨_, _, _, _, _, _, hcount⟩ :=
    (execute_cleanup_exactly_once exampleDatabase exampleExecutor exampleEnv
      "SELECT 1; BAD; SELECT 2".toList exampleWorld).1 ⟨"sandbox_123e4567e89b".toList⟩
      { state := 1, trace := [Event.dbExec Ctx.background
          "CREATE DATABASE `sandbox_123e4567e89b`".toList] } rfl
  exact ⟨by decide, hcount⟩

/-! ## C6: validation comes before the database -/

theorem Handler_ok_unfold {σ : Type} (db : Database σ) (h : Handler) (env : Env)
    (req : ExecuteRequest) (w : World σ) :
    h.ExecuteQuery db env (.ok req) w =
      match req.Validate with
      | some err => (some ⟨400, NewErrorResponse err.Error⟩, w)
      | none =>
        match h.validator.Validate req.Query with
        | some err =>
          (some ⟨403, NewErrorResponse ("Security validation failed: " ++ err.Error)⟩, w)
        | none =>
          match h.executor.Execute db env req.Query w with
          | (none, w1) => (none, w1)
          | (some response, w1) =>
            (some ⟨200, response⟩,
              { w1 with trace := w1.trace ++ [Event.queryLog response.Success] }) := rfl

/-- Claim C6. In `Handler.ExecuteQuery` nothing reaches the database before the query has
passed validation: when `ExecuteRequest.Validate` or `Validator.Validate` returns an error,
the handler answers with an error response (status 400 or 403, `success` false) and leaves
the world as it was, without any call on the database; a run that makes a call is a run in
which both validations returned nil; and when both return nil, `MySQLExecutor.Execute` is
invoked, whose first call creates the sandbox. -/
theorem handler_validates_before_database {σ : Type} (db : Database σ) (h : Handler)
    (env : Env) (bound : Except String ExecuteRequest) (w : World σ) :
    (∀ req, bound = .ok req → (req.Validate ≠ none ∨ h.validator.Validate req.Query ≠ none) →
      (h.ExecuteQuery db env bound w).2 = w ∧
      ∃ status msg, (h.ExecuteQuery db env bound w).1 = some ⟨status, NewErrorResponse msg⟩ ∧
        (status = 400 ∨ status = 403)) ∧
    (∀ req err, bound = .ok req → h.validator.Validate req.Query = some err →
      (h.ExecuteQuery db env bound w).2 = w ∧
      ((h.ExecuteQuery db env bound w).1 =
          some ⟨403, NewErrorResponse ("Security validation failed: " ++ err.Error)⟩ ∨
        ∃ err2, req.Validate = some err2 ∧
          (h.ExecuteQuery db env bound w).1 = some ⟨400, NewErrorResponse err2.Error⟩)) ∧
    ((h.ExecuteQuery db env bound w).2.trace ≠ w.trace →
      ∃ req, bound = .ok req ∧ req.Validate = none ∧ h.validator.Validate req.Query = none) ∧
    (∀ req, bound = .ok req → req.Validate = none → h.validator.Validate req.Query = none →
      ∃ rest, (h.ExecuteQuery db env bound w).2.trace =
        (h.executor.Execute db env req.Query w).2.trace ++ rest ∧
        (h.executor.Execute db env req.Query w).2.trace ≠ w.trace) := by
  refine ⟨?_, ?_, ?_, ?_⟩
  · intro req hb hv
    subst hb
    rw [Handler_ok_unfold]
    cases h1 : req.Validate with
    | some err1 => exact ⟨rfl, 400, _, rfl, Or.inl rfl⟩
    | none =>
      cases h2 : h.validator.Validate req.Query with
      | some err2 => exact ⟨rfl, 403, _, rfl, Or.inr rfl⟩
      | none => rcases hv with hv | hv <;> [exact absurd h1 hv; exact absurd h2 hv]
  · intro req err hb hv
    subst hb
    rw [Handler_ok_unfold]
    cases h1 : req.Validate with
    | some err1 => exact ⟨rfl, Or.inr ⟨err1, rfl, rfl⟩⟩
    | none => rw [hv]; exact ⟨rfl, Or.inl rfl⟩
  · intro hne
    cases bound with
    | error err => exact absurd rfl hne
    | ok req =>
      refine ⟨req, rfl, ?_⟩
      rw [Handler_ok_unfold] at hne
      cases h1 : req.Validate with
      | some err1 => rw [h1] at hne; exact absurd rfl hne
      | none =>
        cases h2 : h.validator.Validate req.Query with
        | some err2 => simp only [h1, h2] at hne; exact absurd rfl hne
        | none => exact ⟨rfl, rfl⟩
  · intro req hb h1 h2
    subst hb
    have hnew := NewSandbox_trace db h.executor.dbPrefix env.fullUUID w
    have hex : ∃ rest, (h.executor.Execute db env req.Query w).2.trace =
        w.trace ++ createEvent Ctx.background
          ⟨h.executor.dbPrefix ++ generateShortUUID env.fullUUID⟩ :: rest := by
      cases hn : NewSandbox db h.executor.dbPrefix env.fullUUID w with
      | mk r w1 =>
        rw [hn] at hnew
        cases r with
        | error err =>
          exact ⟨[], execute_cleanup_helper db h.executor env req.Query w err w1 hn⟩
        | ok sandbox =>
          obtain ⟨tail, hx, _⟩ := Execute_trace_ok db h.executor env req.Query w w1 sandbox hn
          obtain ⟨done, _, hq⟩ := ExecuteQuery_trace db sandbox Ctx.exec req.Query w1
          refine ⟨useEvent Ctx.exec sandbox :: done.map (statementEvent Ctx.exec) ++
            cleanupEvent Ctx.background sandbox :: tail, ?_⟩
          rw [hx, hq, hnew.1]
          simp
    obtain ⟨rest, hrest⟩ := hex
    have hne : (h.executor.Execute db env req.Query w).2.trace ≠ w.trace := by
      rw [hrest]
      intro hcon
      have := congrArg List.length hcon
      simp at this
    rw [Handler_ok_unfold]
    simp only [h1, h2]
    cases hE : h.executor.Execute db env req.Query w with
    | mk r w1 =>
      rw [hE] at hne
      cases r with
      | none => exact ⟨[], by simp, hne⟩
      | some response => exact ⟨[Event.queryLog response.Success], rfl, hne⟩

/-- The request `DROP DATABASE production` on the example database: answered with 403, and
no call on the database. -/
theorem handler_validates_before_database_witness :
    (NewHandler exampleExecutor NewValidator).ExecuteQuery exampleDatabase exampleEnv
      (.ok { Query := "DROP DATABASE production".toList }) exampleWorld =
    (some ⟨403, NewErrorResponse
      "Security validation failed: DROP DATABASE command is not allowed"⟩, exampleWorld) := by
  have h := (handler_validates_before_database exampleDatabase
    (NewHandler exampleExecutor NewValidator) exampleEnv
    (.ok { Query := "DROP DATABASE production".toList }) exampleWorld).2.1
    { Query := "DROP DATABASE production".toList } DomainError.ErrDropDatabase rfl (by decide)
  have hv : ExecuteRequest.Validate { Query := "DROP DATABASE production".toList } = none := by
    decide
  rcases h.2 with h2 | ⟨err2, h2, _⟩
  · exact Prod.ext h2 h.1
  · rw [hv] at h2; cases h2


/-! ## C11: the output of a query whose statements all succeed -/

theorem joinWith_cons_cons (sep a b : String) (l : List String) :
    joinWith sep (a :: b :: l) = a ++ sep ++ joinWith sep (b :: l) := by
  simp [joinWith]

theorem foldl_sep_append (sep p q : String) (l : List String) :
    l.foldl (fun acc o => acc ++ sep ++ o) (p ++ q) =
      p ++ l.foldl (fun acc o => acc ++ sep ++ o) q := by
  induction l generalizing q with
  | nil => rfl
  | cons o l ih =>
    simp only [List.foldl_cons]
    rw [String.append_assoc p q sep, String.append_assoc p (q ++ sep) o, ih]

theorem joinWith_eq_foldl (sep a : String) (l : List String) :
    joinWith sep (a :: l) = l.foldl (fun acc o => acc ++ sep ++ o) a := by
  induction l generalizing a with
  | nil => rfl
  | cons b l ih =>
    rw [joinWith_cons_cons, ih b, List.foldl_cons, String.append_assoc a sep b,
      foldl_sep_append, foldl_sep_append, ← String.append_assoc]

/-- The join is the library's `String.intercalate`. -/
theorem joinWith_eq_intercalate (sep : String) (l : List String) :
    joinWith sep l = String.intercalate sep l := by
  have hgo : ∀ (l : List String) (acc : String),
      String.intercalate.go acc sep l = l.foldl (fun acc o => acc ++ sep ++ o) acc := by
    intro l
    induction l with
    | nil => intro acc; rfl
    | cons o l ih => intro acc; simp only [String.intercalate.go, List.foldl_cons, ih]
  cases l with
  | nil => rfl
  | cons a l => rw [joinWith_eq_foldl]; simp only [String.intercalate, hgo]

/-- The loop of `ExecuteQuery` past the first statement: every result is appended after a
blank line. -/
theorem executeLoop_succ_ok {σ : Type} (db : Database σ) (ctx : Ctx) (stmts : List (List Char))
    (i : Nat) (b : String) (w w1 : World σ) (outs : List String)
    (hblank : ∀ s ∈ stmts, TrimSpace s ≠ [])
    (hRun : runStatements db ctx stmts w = some (outs, w1)) :
    executeLoop db ctx (i + 1) stmts b w =
      (Outcome.ok (outs.foldl (fun acc o => acc ++ "\n\n" ++ o) b), w1) := by
  induction stmts generalizing i b w outs with
  | nil =>
    simp only [runStatements, Option.some.injEq, Prod.mk.injEq] at hRun
    obtain ⟨rfl, rfl⟩ := hRun
    rfl
  | cons stmt rest ih =>
    have hb : (TrimSpace stmt == []) = false := by
      have := hblank stmt (by simp)
      simpa using this
    simp only [runStatements] at hRun
    cases hs : Sandbox.executeStatement db ctx stmt w with
    | mk o wa =>
      rw [hs] at hRun
      cases o with
      | ok output =>
        simp only at hRun
        cases hr : runStatements db ctx rest wa with
        | none => rw [hr] at hRun; simp at hRun
        | some r =>
          obtain ⟨outputs, w3⟩ := r
          rw [hr] at hRun
          simp only [Option.some.injEq, Prod.mk.injEq] at hRun
          obtain ⟨rfl, rfl⟩ := hRun
          have := ih (i + 1) (b ++ "\n\n" ++ output) wa outputs
            (fun s hs => hblank s (by simp [hs])) hr
          simp only [executeLoop, hb, hs, Bool.false_eq_true, if_false]
          have hi : i + 1 > 0 := by omega
          simp only [hi, if_true]
          rw [this]
          rfl
      | error msg => simp at hRun
      | panic => simp at hRun

/-- Claim C11. When the `USE` and every statement of a query succeed, the output of
`Sandbox.ExecuteQuery` is the results of the statements (of `executeStatement`: the rendered
table for a read statement, the mutation summary for any other) in statement order, joined
by exactly one blank line, with no separator before the first or after the last; with at
least one statement the error is nil. -/
theorem executeQuery_joins_results {σ : Type} (db : Database σ) (s : Sandbox) (ctx : Ctx)
    (query : List Char) (w w0 w1 : World σ) (useResult : SqlResult) (outs : List String)
    (hUse : w.execContext db ctx ("USE `".toList ++ s.dbName ++ "`".toList) =
      (.ok useResult, w0))
    (hRun : runStatements db ctx (splitSQLStatements query) w0 = some (outs, w1)) :
    (s.ExecuteQuery db ctx query w).1.output = joinWith "\n\n" outs ∧
    joinWith "\n\n" outs = String.intercalate "\n\n" outs ∧
    outs.length = (splitSQLStatements query).length ∧
    (splitSQLStatements query ≠ [] →
      s.ExecuteQuery db ctx query w = (Outcome.ok (joinWith "\n\n" outs), w1)) := by
  have hlen := (runStatements_trace db ctx _ w0 w1 outs hRun).2
  have hblank : ∀ t ∈ splitSQLStatements query, TrimSpace t ≠ [] := by
    intro t ht
    have := splitSQLStatements_trimmed query t ht
    rw [this.1]; exact this.2
  have hmain : splitSQLStatements query ≠ [] →
      s.ExecuteQuery db ctx query w = (Outcome.ok (joinWith "\n\n" outs), w1) := by
    intro hne
    rw [ExecuteQuery_unfold, hUse]
    simp only
    have hl : ((splitSQLStatements query).length == 0) = false := by
      cases hS : splitSQLStatements query with
      | nil => exact absurd hS hne
      | cons a l => simp
    rw [hl]
    simp only [Bool.false_eq_true, if_false]
    cases hS : splitSQLStatements query with
    | nil => exact absurd hS hne
    | cons stmt rest =>
      rw [hS] at hRun hblank
      have hb : (TrimSpace stmt == []) = false := by
        have := hblank stmt (by simp)
        simpa using this
      simp only [runStatements] at hRun
      cases hs : Sandbox.executeStatement db ctx stmt w0 with
      | mk o wa =>
        rw [hs] at hRun
        cases o with
        | ok output =>
          simp only at hRun
          cases hr : runStatements db ctx rest wa with
          | none => rw [hr] at hRun; simp at hRun
          | some r =>
            obtain ⟨outputs, w3⟩ := r
            rw [hr] at hRun
            simp only [Option.some.injEq, Prod.mk.injEq] at hRun
            obtain ⟨rfl, rfl⟩ := hRun
            have := executeLoop_succ_ok db ctx rest 0 ("" ++ output) wa w3 outputs
              (fun s hs => hblank s (by simp [hs])) hr
            simp only [executeLoop, hb, hs, Bool.false_eq_true, if_false]
            have hi : ¬ (0 > 0) := by omega
            simp only [hi, if_false]
            rw [this, joinWith_eq_foldl, String.empty_append]
        | error msg => simp at hRun
        | panic => simp at hRun
  refine ⟨?_, joinWith_eq_intercalate _ _, hlen, hmain⟩
  by_cases hne : splitSQLStatements query = []
  · rw [hne] at hlen
    have : outs = [] := List.eq_nil_of_length_eq_zero hlen
    subst this
    rw [ExecuteQuery_unfold, hUse]
    simp [hne, Outcome.output, joinWith]
  · rw [hmain hne]; rfl

/-- The theorem on the example database: a table and a mutation summary, one blank line
between them. -/
theorem executeQuery_joins_results_witness :
    (Sandbox.ExecuteQuery exampleDatabase { dbName := "sb".toList } Ctx.exec
      "SELECT 1; INSERT INTO t VALUES (1)".toList exampleWorld).1 =
    Outcome.ok
      "+---+\n| x |\n+---+\n| 1 |\n+---+\n1 row in set\n\nQuery OK, 1 row(s) affected" := by
  have h := (executeQuery_joins_results exampleDatabase { dbName := "sb".toList } Ctx.exec
    "SELECT 1; INSERT INTO t VALUES (1)".toList exampleWorld
    { state := 1, trace := [Event.dbExec Ctx.exec "USE `sb`".toList] }
    { state := 3, trace := [Event.dbExec Ctx.exec "USE `sb`".toList,
        Event.dbQuery Ctx.exec "SELECT 1".toList,
        Event.dbExec Ctx.exec "INSERT INTO t VALUES (1)".toList] }
    ⟨1, 0⟩
    ["+---+\n| x |\n+---+\n| 1 |\n+---+\n1 row in set", "Query OK, 1 row(s) affected"]
    rfl rfl).2.2.2 (by decide)
  rw [h]
  rfl


/-! ## C13, C14: empty results and mutation summaries -/

/-- Claim C13. `formatResultSet` returns exactly `Empty result set` for every result with
zero columns, and exactly `Empty set` for every result with at least one column and zero
rows (read to its end without error); the output is the literal alone, without border,
header or row-count line. -/
theorem formatResultSet_empty (rows : SqlRows) :
    (rows.columns = .ok [] → formatResultSet rows = Outcome.ok "Empty result set") ∧
    (∀ columns, rows.columns = .ok columns → columns ≠ [] → rows.rows = [] →
      rows.err = none → formatResultSet rows = Outcome.ok "Empty set") := by
  constructor
  · intro h
    unfold formatResultSet
    rw [h]
    rfl
  · intro columns h hne hrows herr
    unfold formatResultSet
    rw [h]
    have hl : (columns.length == 0) = false := by
      cases columns with
      | nil => exact absurd rfl hne
      | cons c cs => simp
    simp only [hl, Bool.false_eq_true, if_false, hrows, scanRows, herr]
    rfl

/-- The two literals on concrete results: no columns (whatever the rows), and one column
without rows. -/
theorem formatResultSet_empty_witness :
    formatResultSet { columns := .ok [], rows := [.ok [some "1"]], err := none } =
      Outcome.ok "Empty result set" ∧
    formatResultSet { columns := .ok ["id"], rows := [], err := none } =
      Outcome.ok "Empty set" :=
  ⟨(formatResultSet_empty { columns := .ok [], rows := [.ok [some "1"]], err := none }).1 rfl,
    (formatResultSet_empty { columns := .ok ["id"], rows := [], err := none }).2 ["id"] rfl
      (by decide) rfl rfl⟩

/-- Claim C14. For the affected-row count `n` and the generated identifier `i` that the
database reports, the summary of `executeNonSelectStatement` is
`Query OK, <n> row(s) affected`, followed by ` (last insert ID: <i>)` exactly when `i > 0`. -/
theorem executeNonSelectStatement_summary {σ : Type} (db : Database σ) (ctx : Ctx)
    (stmt : List Char) (w w1 : World σ) (n i : Int)
    (h : w.execContext db ctx stmt = (.ok ⟨n, i⟩, w1)) :
    Sandbox.executeNonSelectStatement db ctx stmt w =
      (Outcome.ok ("Query OK, " ++ toString n ++ " row(s) affected" ++
        (if i > 0 then " (last insert ID: " ++ toString i ++ ")" else "")), w1) := by
  unfold Sandbox.executeNonSelectStatement
  rw [h]
  simp only
  by_cases hi : i > 0
  · simp only [hi, if_true]
    simp only [String.append_assoc]
  · simp only [hi, if_false, String.append_empty]

/-- The examples of the specification: 3 rows and no generated identifier; 1 row and the
generated identifier 42. -/
theorem executeNonSelectStatement_summary_witness :
    (Sandbox.executeNonSelectStatement (reportingDatabase 3 0) Ctx.exec
      "DELETE FROM t".toList { state := (), trace := [] }).1 =
      Outcome.ok "Query OK, 3 row(s) affected" ∧
    (Sandbox.executeNonSelectStatement (reportingDatabase 1 42) Ctx.exec
      "INSERT INTO t VALUES (1)".toList { state := (), trace := [] }).1 =
      Outcome.ok "Query OK, 1 row(s) affected (last insert ID: 42)" := by
  constructor
  · rw [executeNonSelectStatement_summary (reportingDatabase 3 0) Ctx.exec
      "DELETE FROM t".toList { state := (), trace := [] }
      { state := (), trace := [Event.dbExec Ctx.exec "DELETE FROM t".toList] } 3 0 rfl]
    decide
  · rw [executeNonSelectStatement_summary (reportingDatabase 1 42) Ctx.exec
      "INSERT INTO t VALUES (1)".toList { state := (), trace := [] }
      { state := (), trace := [Event.dbExec Ctx.exec "INSERT INTO t VALUES (1)".toList] }
      1 42 rfl]
    decide

/-! ## C16: the validation of the request -/

theorem len_append (a b : String) : len (a ++ b) = len a + len b := by
  have hgo : ∀ (x y : List Char),
      String.utf8ByteSize.go (x ++ y) = String.utf8ByteSize.go x + String.utf8ByteSize.go y := by
    intro x y
    induction x with
    | nil => simp [String.utf8ByteSize.go]
    | cons c cs ih =>
      show String.utf8ByteSize.go (cs ++ y) + c.utf8Size =
        String.utf8ByteSize.go cs + c.utf8Size + String.utf8ByteSize.go y
      rw [ih]; omega
  show (a ++ b).utf8ByteSize = a.utf8ByteSize + b.utf8ByteSize
  cases a with
  | mk x =>
    cases b with
    | mk y => exact hgo x y

theorem len_replicate (n : Nat) (c : Char) :
    len (String.mk (List.replicate n c)) = n * c.utf8Size := by
  show String.utf8ByteSize.go (List.replicate n c) = n * c.utf8Size
  induction n with
  | zero => simp [String.utf8ByteSize.go]
  | succ n ih =>
    rw [List.replicate_succ]
    simp only [String.utf8ByteSize.go, ih]
    rw [Nat.succ_mul]

/-- Claim C16. `ExecuteRequest.Validate` returns `ErrEmptyQuery` for the empty query,
`ErrQueryTooLong` for a query longer than `MaxQueryLength` = 1,048,576 bytes, and nil for
every other query; a query of exactly 1,048,576 bytes is accepted, one of 1,048,577 bytes is
not. -/
theorem executeRequest_validate (r : ExecuteRequest) :
    MaxQueryLength = 1048576 ∧
    (r.Query = [] → r.Validate = some DomainError.ErrEmptyQuery) ∧
    (len (String.mk r.Query) > 1048576 → r.Validate = some DomainError.ErrQueryTooLong) ∧
    (r.Query ≠ [] → len (String.mk r.Query) ≤ 1048576 → r.Validate = none) ∧
    (len (String.mk r.Query) = 1048576 → r.Validate = none) ∧
    len (String.mk (List.replicate 1048576 'a')) = 1048576 ∧
    ExecuteRequest.Validate { Query := List.replicate 1048576 'a' } = none ∧
    ExecuteRequest.Validate { Query := List.replicate 1048577 'a' } =
      some DomainError.ErrQueryTooLong := by
  have hmax : MaxQueryLength = 1048576 := by decide
  have hempty : r.Query = [] → r.Validate = some DomainError.ErrEmptyQuery := by
    intro h
    simp [ExecuteRequest.Validate, h]
  have hlong : ∀ q : ExecuteRequest, len (String.mk q.Query) > 1048576 →
      q.Validate = some DomainError.ErrQueryTooLong := by
    intro q h
    have hne : q.Query ≠ [] := by
      intro h0
      rw [h0] at h
      have : len (String.mk []) = 0 := rfl
      omega
    unfold ExecuteRequest.Validate
    have h1 : (q.Query == []) = false := by simpa using hne
    rw [hmax]
    simp only [h1, Bool.false_eq_true, if_false, h, if_true]
  have hok : ∀ q : ExecuteRequest, q.Query ≠ [] → len (String.mk q.Query) ≤ 1048576 →
      q.Validate = none := by
    intro q hne h
    unfold ExecuteRequest.Validate
    have h1 : (q.Query == []) = false := by simpa using hne
    have h2 : ¬ len (String.mk q.Query) > 1048576 := by omega
    rw [hmax]
    simp only [h1, Bool.false_eq_true, if_false, h2]
  have hsize : ('a' : Char).utf8Size = 1 := by decide
  have hl1 : len (String.mk (List.replicate 1048576 'a')) = 1048576 := by
    rw [len_replicate, hsize]
  have hl2 : len (String.mk (List.replicate 1048577 'a')) = 1048577 := by
    rw [len_replicate, hsize]
  have hne1 : List.replicate 1048576 'a' ≠ [] := by
    intro h
    have := congrArg List.length h
    rw [List.length_replicate] at this
    exact absurd this (by decide)
  refine ⟨hmax, hempty, hlong r, hok r, ?_, hl1, ?_, ?_⟩
  · intro h
    apply hok r
    · intro h0
      rw [h0] at h
      have : len (String.mk []) = 0 := rfl
      omega
    · omega
  · exact hok { Query := List.replicate 1048576 'a' } hne1 (by show len _ ≤ _; rw [hl1])
  · exact hlong { Query := List.replicate 1048577 'a' } (by show len _ > _; rw [hl2]; decide)


/-! ## C15: the contexts of the calls -/

/-- Claim C15 as stated fails. In a run of `Execute` on the example database the call
`CREATE DATABASE` is made under `context.Background()`, not under the deadline-bound context
`execCtx`, under which the `USE` and the statement run: `NewSandbox` takes no context and
hands `context.Background()` to `create`. -/
theorem execute_create_context_counterexample :
    (MySQLExecutor.Execute exampleExecutor exampleDatabase exampleEnv "SELECT 1".toList
      exampleWorld).2.trace =
    [Event.dbExec Ctx.background "CREATE DATABASE `sandbox_123e4567e89b`".toList,
      Event.dbExec Ctx.exec "USE `sandbox_123e4567e89b`".toList,
      Event.dbQuery Ctx.exec "SELECT 1".toList,
      Event.dbExec Ctx.background "DROP DATABASE IF EXISTS `sandbox_123e4567e89b`".toList] ∧
    ((MySQLExecutor.Execute exampleExecutor exampleDatabase exampleEnv "SELECT 1".toList
      exampleWorld).2.trace.head?.bind Event.context) ≠ some Ctx.exec := by
  decide

/-- Claim C15, amended. In `MySQLExecutor.Execute` the deadline-bound context `execCtx`
governs the `USE` and every statement executed in the sandbox, and nothing else: the
sandbox's `CREATE DATABASE` is made under `context.Background()`, before them, and
`Sandbox.Cleanup` is made under `context.Background()`, after them; what follows the cleanup
is no call on the database. -/
theorem execute_contexts {σ : Type} (db : Database σ) (e : MySQLExecutor) (env : Env)
    (query : List Char) (w : World σ) :
    ∃ mid tail,
      (MySQLExecutor.Execute e db env query w).2.trace =
        w.trace ++ createEvent Ctx.background ⟨e.dbPrefix ++ generateShortUUID env.fullUUID⟩ ::
          (mid ++ tail) ∧
      (∀ ev ∈ mid, ev.context = some Ctx.exec) ∧
      (∀ sandbox w1, NewSandbox db e.dbPrefix env.fullUUID w = (.ok sandbox, w1) →
        (∃ done, done <+: splitSQLStatements query ∧
          mid = useEvent Ctx.exec sandbox :: done.map (statementEvent Ctx.exec)) ∧
        ∃ rest, tail = cleanupEvent Ctx.background sandbox :: rest ∧
          ∀ ev ∈ rest, ev.context = none) ∧
      (∀ err w1, NewSandbox db e.dbPrefix env.fullUUID w = (.error err, w1) →
        mid = [] ∧ tail = []) := by
  have hnew := NewSandbox_trace db e.dbPrefix env.fullUUID w
  have hstmt : ∀ stmt, (statementEvent Ctx.exec stmt).context = some Ctx.exec := by
    intro stmt
    unfold statementEvent
    split <;> rfl
  cases hn : NewSandbox db e.dbPrefix env.fullUUID w with
  | mk r w1 =>
    rw [hn] at hnew
    cases r with
    | error err =>
      refine ⟨[], [], ?_, by simp, ?_, ?_⟩
      · exact execute_cleanup_helper db e env query w err w1 hn
      · intro sandbox w2 h; cases h
      · intro err2 w2 _; exact ⟨rfl, rfl⟩
    | ok sandbox =>
      have hsb := hnew.2 sandbox rfl
      obtain ⟨tail, hx, htail⟩ := Execute_trace_ok db e env query w w1 sandbox hn
      obtain ⟨done, hd, hq⟩ := ExecuteQuery_trace db sandbox Ctx.exec query w1
      refine ⟨useEvent Ctx.exec sandbox :: done.map (statementEvent Ctx.exec),
        cleanupEvent Ctx.background sandbox :: tail, ?_, ?_, ?_, ?_⟩
      · rw [hx, hq, hnew.1, hsb]
        simp
      · intro ev hev
        rcases List.mem_cons.mp hev with h | h
        · rw [h]; rfl
        · obtain ⟨stmt, _, rfl⟩ := List.mem_map.mp h
          exact hstmt stmt
      · intro sandbox2 w2 h
        simp only [Prod.mk.injEq, Except.ok.injEq] at h
        obtain ⟨rfl, rfl⟩ := h
        refine ⟨⟨done, hd, rfl⟩, tail, rfl, ?_⟩
        intro ev hev
        rcases htail with rfl | ⟨line, rfl⟩
        · simp at hev
        · simp only [List.mem_singleton] at hev
          rw [hev]; rfl
      · intro err w2 h; cases h


/-! ## C12, C17: the rendered table -/

theorem foldl_append_string (p q : String) (l : List String) :
    l.foldl (fun r s => r ++ s) (p ++ q) = p ++ l.foldl (fun r s => r ++ s) q := by
  induction l generalizing q with
  | nil => rfl
  | cons o l ih => simp only [List.foldl_cons]; rw [String.append_assoc, ih]

theorem join_cons (a : String) (l : List String) :
    String.join (a :: l) = a ++ String.join l := by
  unfold String.join
  rw [List.foldl_cons, String.empty_append]
  have := foldl_append_string a "" l
  rw [String.append_empty] at this
  exact this

theorem join_nil : String.join [] = "" := rfl

theorem join_replicate (n : Nat) (c : Char) :
    String.join (List.replicate n (String.mk [c])) = String.mk (List.replicate n c) := by
  induction n with
  | zero => rfl
  | succ n ih =>
    rw [List.replicate_succ, join_cons, ih, List.replicate_succ]
    rfl

theorem len_join (l : List String) : len (String.join l) = (l.map len).sum := by
  induction l with
  | nil => rfl
  | cons a l ih => rw [join_cons, len_append, ih]; simp

/-- The border the code builds is the border of the specification. -/
theorem buildBorder_eq (colWidths : List Nat) : buildBorder colWidths = borderLine colWidths := by
  have h : ∀ (ws : List Nat) (acc : String),
      ws.foldl (fun border width =>
        border ++ String.join (List.replicate (width + 2) "-") ++ "+") acc =
      acc ++ String.join
        (ws.map (fun width => String.mk (List.replicate (width + 2) '-') ++ "+")) := by
    intro ws
    induction ws with
    | nil => intro acc; simp [join_nil, String.append_empty]
    | cons w ws ih =>
      intro acc
      rw [List.foldl_cons, ih, List.map_cons, join_cons]
      have : String.join (List.replicate (w + 2) "-") = String.mk (List.replicate (w + 2) '-') :=
        join_replicate (w + 2) '-'
      rw [this]
      simp only [String.append_assoc]
  exact h colWidths "+"

theorem Repeat_space (width : Nat) (cell : String) (h : len cell ≤ width) :
    Repeat " " ((width : Int) - (len cell : Int)) =
      some (String.mk (List.replicate (width - len cell) ' ')) := by
  unfold Repeat
  have h1 : ¬ ((width : Int) - (len cell : Int) < 0) := by omega
  have h2 : ((width : Int) - (len cell : Int)).toNat = width - len cell := by omega
  rw [if_neg h1, h2]
  exact congrArg some (join_replicate (width - len cell) ' ')

theorem get?_append_length (pre : List Nat) (w : Nat) (ws : List Nat) :
    (pre ++ w :: ws).get? pre.length = some w := by
  induction pre with
  | nil => rfl
  | cons p pre ih => simpa using ih

theorem set_append_length (pre : List Nat) (w v : Nat) (ws : List Nat) :
    (pre ++ w :: ws).set pre.length v = pre ++ v :: ws := by
  induction pre with
  | nil => rfl
  | cons p pre ih => simp [List.set, ih]

/-- The row loop of `buildRow` on cells that fit their widths. -/
theorem buildRow_loop (cells : List String) (ws : List Nat)
    (h : List.Forall₂ (fun cell width => len cell ≤ width) cells ws) (pre : List Nat)
    (acc : String) :
    (List.enumFrom pre.length cells).foldl (buildRowStep (pre ++ ws)) (some acc) =
      some (acc ++ String.join
        (List.zipWith (fun cell width => " " ++ padRight cell width ++ " |") cells ws)) := by
  induction h generalizing pre acc with
  | nil => simp [join_nil, String.append_empty]
  | @cons cell w cells ws hfit _ ih =>
    rw [List.enumFrom_cons, List.foldl_cons]
    have hstep : buildRowStep (pre ++ w :: ws) (some acc) (pre.length, cell) =
        some (acc ++ " " ++ cell ++ String.mk (List.replicate (w - len cell) ' ') ++ " |") := by
      unfold buildRowStep
      simp only [get?_append_length, Repeat_space w cell hfit]
    rw [hstep]
    have e : pre ++ w :: ws = (pre ++ [w]) ++ ws := by simp
    have e2 : pre.length + 1 = (pre ++ [w]).length := by simp
    rw [e, e2, ih (pre ++ [w])]
    rw [List.zipWith_cons_cons, join_cons]
    simp only [padRight, String.append_assoc]

/-- The row the code builds is the row of the specification, when the cells fit. -/
theorem buildRow_eq (cells : List String) (ws : List Nat)
    (h : List.Forall₂ (fun cell width => len cell ≤ width) cells ws) :
    buildRow cells ws = some (rowLine cells ws) := by
  have := buildRow_loop cells ws h [] "|"
  simpa [buildRow, List.enum, rowLine] using this

theorem len_borderLine (ws : List Nat) : len (borderLine ws) = lineLength ws := by
  unfold borderLine lineLength
  rw [len_append, len_join, List.map_map]
  have h1 : len "+" = 1 := by decide
  rw [h1]
  congr 2
  apply List.map_congr_left
  intro w _
  simp only [Function.comp]
  rw [len_append, len_replicate, h1]
  have : ('-' : Char).utf8Size = 1 := by decide
  rw [this]; omega

theorem len_rowLine (cells : List String) (ws : List Nat)
    (h : List.Forall₂ (fun cell width => len cell ≤ width) cells ws) :
    len (rowLine cells ws) = lineLength ws := by
  unfold rowLine lineLength
  rw [len_append, len_join]
  have h1 : len "|" = 1 := by decide
  rw [h1]
  congr 1
  induction h with
  | nil => rfl
  | @cons cell w cells ws hfit _ ih =>
    rw [List.zipWith_cons_cons, List.map_cons, List.sum_cons, ih, List.map_cons, List.sum_cons]
    congr 1
    rw [len_append, len_append, padRight, len_append, len_replicate]
    have h2 : len " " = 1 := by decide
    have h3 : len " |" = 2 := by decide
    have h4 : (' ' : Char).utf8Size = 1 := by decide
    rw [h2, h3, h4]
    omega


/-- The width loop over one row: every width becomes the maximum of itself and the length
of its cell. -/
theorem widen_loop (cells : List String) (ws : List Nat) (h : cells.length = ws.length)
    (pre : List Nat) :
    (List.enumFrom pre.length cells).foldl widenStep (some (pre ++ ws)) =
      some (pre ++ List.zipWith max ws (cells.map len)) := by
  induction cells generalizing ws pre with
  | nil =>
    cases ws with
    | nil => rfl
    | cons w ws => simp at h
  | cons cell cells ih =>
    cases ws with
    | nil => simp at h
    | cons w ws =>
      rw [List.enumFrom_cons, List.foldl_cons]
      have hstep : widenStep (some (pre ++ w :: ws)) (pre.length, cell) =
          some (pre ++ max w (len cell) :: ws) := by
        unfold widenStep
        simp only [get?_append_length]
        by_cases hc : len cell > w
        · rw [if_pos hc, set_append_length]
          have : max w (len cell) = len cell := by omega
          rw [this]
        · rw [if_neg hc]
          have : max w (len cell) = w := by omega
          rw [this]
      rw [hstep]
      have e : pre ++ max w (len cell) :: ws = (pre ++ [max w (len cell)]) ++ ws := by simp
      have e2 : pre.length + 1 = (pre ++ [max w (len cell)]).length := by simp
      rw [e, e2, ih ws (by simpa using h)]
      simp

/-- The width loop over all rows. -/
theorem computeWidths_loop (results : List (List String)) (ws : List Nat)
    (h : ∀ row ∈ results, row.length = ws.length) :
    results.foldl (fun ws row => row.enum.foldl widenStep ws) (some ws) =
      some (results.foldl (fun ws row => List.zipWith max ws (row.map len)) ws) := by
  induction results generalizing ws with
  | nil => rfl
  | cons row rest ih =>
    rw [List.foldl_cons, List.foldl_cons]
    have h1 := widen_loop row ws (h row (by simp)) []
    simp only [List.nil_append, List.length_nil] at h1
    rw [List.enum, h1]
    apply ih
    intro r hr
    rw [h r (by simp [hr])]
    simp [h row (by simp)]

theorem zipMax_length (results : List (List String)) (ws : List Nat)
    (h : ∀ row ∈ results, row.length = ws.length) :
    (results.foldl (fun ws row => List.zipWith max ws (row.map len)) ws).length = ws.length := by
  induction results generalizing ws with
  | nil => rfl
  | cons row rest ih =>
    rw [List.foldl_cons, ih]
    · simp [h row (by simp)]
    · intro r hr
      rw [h r (by simp [hr])]
      simp [h row (by simp)]

theorem zipMax_get (results : List (List String)) (ws : List Nat)
    (h : ∀ row ∈ results, row.length = ws.length) (j : Nat) (hj : j < ws.length) :
    (results.foldl (fun ws row => List.zipWith max ws (row.map len)) ws).getD j 0 =
      (results.map (fun row => len (row.getD j ""))).foldl max (ws.getD j 0) := by
  induction results generalizing ws with
  | nil => rfl
  | cons row rest ih =>
    rw [List.foldl_cons, List.map_cons, List.foldl_cons]
    have hrow := h row (by simp)
    have hlen : (List.zipWith max ws (row.map len)).length = ws.length := by simp [hrow]
    rw [ih (List.zipWith max ws (row.map len))
      (fun r hr => by rw [h r (by simp [hr]), hlen]) (by rw [hlen]; exact hj)]
    congr 1
    have hj2 : j < row.length := by rw [hrow]; exact hj
    simp [List.getD_eq_getElem?_getD, List.getElem?_zipWith, List.getElem?_eq_getElem hj,
      List.getElem?_eq_getElem hj2]

/-- The widths the code computes are the widths of the specification. -/
theorem computeWidths_eq (columns : List String) (results : List (List String))
    (h : ∀ row ∈ results, row.length = columns.length) :
    computeWidths columns results = some (tableWidths columns results) := by
  unfold computeWidths
  have h2 : ∀ row ∈ results, row.length = (columns.map len).length := by
    intro row hr; rw [h row hr]; simp
  rw [computeWidths_loop results (columns.map len) h2]
  congr 1
  apply List.ext_getElem
  · rw [zipMax_length results _ h2]; simp [tableWidths]
  · intro j hj1 hj2
    have hj : j < (columns.map len).length := by
      rw [zipMax_length results _ h2] at hj1; exact hj1
    have hjc : j < columns.length := by simpa using hj
    have := zipMax_get results (columns.map len) h2 j hj
    rw [List.getD_eq_getElem?_getD, List.getElem?_eq_getElem hj1] at this
    simp only [Option.getD_some] at this
    rw [this]
    simp [tableWidths, columnWidth, List.getD_eq_getElem?_getD, List.getElem?_eq_getElem hjc]

theorem foldl_max_ge (l : List Nat) (init : Nat) :
    init ≤ l.foldl max init ∧ ∀ x ∈ l, x ≤ l.foldl max init := by
  induction l generalizing init with
  | nil => simp
  | cons a l ih =>
    rw [List.foldl_cons]
    have h1 := ih (max init a)
    refine ⟨by have := h1.1; omega, ?_⟩
    intro x hx
    rcases List.mem_cons.mp hx with rfl | hx
    · have := h1.1; omega
    · exact h1.2 x hx

/-- Every header and every cell fits the width of its column. -/
theorem fits_tableWidths (columns : List String) (results : List (List String))
    (h : ∀ row ∈ results, row.length = columns.length) (row : List String)
    (hrow : row ∈ columns :: results) :
    List.Forall₂ (fun cell width => len cell ≤ width) row (tableWidths columns results) := by
  have hlen : row.length = columns.length := by
    rcases List.mem_cons.mp hrow with rfl | hr
    · rfl
    · exact h row hr
  rw [List.forall₂_iff_get]
  refine ⟨by simp [tableWidths, hlen], ?_⟩
  intro j hj1 hj2
  have hjc : j < columns.length := by rw [← hlen]; exact hj1
  simp only [tableWidths, List.get_eq_getElem, List.getElem_map, List.getElem_range, columnWidth]
  have hge := foldl_max_ge (results.map (fun r => len (r.getD j ""))) (len (columns.getD j ""))
  rcases List.mem_cons.mp hrow with rfl | hr
  · have : row.getD j "" = row[j] := by
      simp [List.getD_eq_getElem?_getD, List.getElem?_eq_getElem hj1]
    rw [← this]; exact hge.1
  · have hmem : len (row.getD j "") ∈ results.map (fun r => len (r.getD j "")) :=
      List.mem_map_of_mem _ hr
    have : row.getD j "" = row[j] := by
      simp [List.getD_eq_getElem?_getD, List.getElem?_eq_getElem hj1]
    rw [← this]; exact hge.2 _ hmem


theorem joinWith_append (sep : String) (l m : List String) (hm : m ≠ []) :
    joinWith sep (l ++ m) = String.join (l.map (fun s => s ++ sep)) ++ joinWith sep m := by
  induction l with
  | nil => simp [join_nil, String.empty_append]
  | cons a l ih =>
    cases hlm : l ++ m with
    | nil =>
      have : m = [] := (List.append_eq_nil.mp hlm).2
      exact absurd this hm
    | cons b t =>
      rw [List.cons_append, hlm, joinWith_cons_cons, ← hlm, ih, List.map_cons, join_cons]
      simp only [String.append_assoc]

theorem body_loop (f : Option String → List String → Option String)
    (results : List (List String)) (ws : List Nat)
    (hf : ∀ o row line, buildRow row ws = some line → f (some o) row = some (o ++ line ++ "\n"))
    (h : ∀ row ∈ results, buildRow row ws = some (rowLine row ws)) (acc : String) :
    results.foldl f (some acc) =
      some (acc ++ String.join (results.map (fun row => rowLine row ws ++ "\n"))) := by
  induction results generalizing acc with
  | nil => simp [join_nil, String.append_empty]
  | cons row rest ih =>
    rw [List.foldl_cons, hf acc row _ (h row (by simp))]
    rw [ih (fun r hr => h r (by simp [hr])), List.map_cons, join_cons]
    simp only [String.append_assoc]

/-- The table the code renders is the lines of the specification, joined by newlines. -/
theorem formatTable_eq (columns : List String) (results : List (List String))
    (h : ∀ row ∈ results, row.length = columns.length) :
    formatTable columns results = some (joinWith "\n" (tableLines columns results)) := by
  have hfit := fits_tableWidths columns results h
  unfold formatTable
  rw [computeWidths_eq columns results h]
  simp only
  rw [buildRow_eq columns _ (hfit columns (by simp))]
  simp only
  rw [body_loop _ results (tableWidths columns results)
    (fun o row line hl => by simp only [hl])
    (fun row hr => buildRow_eq row _ (hfit row (by simp [hr])))]
  simp only [buildBorder_eq]
  congr 1
  have e : tableLines columns results =
      ([borderLine (tableWidths columns results), rowLine columns (tableWidths columns results),
        borderLine (tableWidths columns results)] ++
        results.map (fun row => rowLine row (tableWidths columns results))) ++
      [borderLine (tableWidths columns results), rowCountLine results.length] := rfl
  rw [e, joinWith_append _ _ _ (by simp)]
  simp only [List.cons_append, List.nil_append, List.map_cons, List.map_map, join_cons,
    joinWith_cons_cons, joinWith, rowCountLine, String.append_assoc, Function.comp]
  by_cases h1 : results.length = 1
  · simp [h1]; rfl
  · simp [h1]; rfl

theorem scanRows_ok (columnCount : Nat) (cells : List (List (Option String)))
    (h : ∀ row ∈ cells, row.length = columnCount) :
    scanRows columnCount (cells.map .ok) =
      .ok (cells.map (fun row => row.map (fun val => val.getD "NULL"))) := by
  induction cells with
  | nil => rfl
  | cons row rest ih =>
    simp only [List.map_cons, scanRows]
    have hr : ¬ row.length ≠ columnCount := by simp [h row (by simp)]
    rw [if_neg hr, ih (fun r hr => h r (by simp [hr]))]

/-- The result of `formatResultSet` on columns and rows that were read without error. -/
theorem formatResultSet_eq (columns : List String) (cells : List (List (Option String)))
    (hcols : columns ≠ []) (hrows : cells ≠ [])
    (hlen : ∀ row ∈ cells, row.length = columns.length) :
    formatResultSet { columns := .ok columns, rows := cells.map .ok, err := none } =
      Outcome.ok (joinWith "\n"
        (tableLines columns (cells.map (fun row => row.map (fun val => val.getD "NULL"))))) := by
  unfold formatResultSet
  simp only
  have hl : (columns.length == 0) = false := by
    cases columns with
    | nil => exact absurd rfl hcols
    | cons c cs => simp
  rw [hl]
  simp only [Bool.false_eq_true, if_false]
  rw [scanRows_ok columns.length cells hlen]
  simp only
  have hl2 : ((cells.map (fun row => row.map (fun val => val.getD "NULL"))).length == 0)
      = false := by
    cases cells with
    | nil => exact absurd rfl hrows
    | cons c cs => simp
  rw [hl2]
  simp only [Bool.false_eq_true, if_false]
  rw [formatTable_eq]
  intro row hrow
  obtain ⟨r, hr, rfl⟩ := List.mem_map.mp hrow
  simp [hlen r hr]

/-- Claim C12. For a non-empty list of columns and a non-empty list of rows (each with one
cell per column, read without error), `formatResultSet` returns, separated by newlines: a
border, the header row, a border, one line per data row in row order, a border and the
row-count line.  The width of a column is the maximum of the lengths of its header and of
its cells; a border is `+` and for each column `width + 2` dashes and `+`; a row is `|` and
for each column a space, the cell padded on the right with spaces to the width, a space and
`|`; the row-count line is `1 row in set` for one row and `<N> rows in set` otherwise.  For
the columns `id`, `name` and the row `1`, `Ann` the widths are 2 and 4 and the output ends
in `1 row in set`. -/
theorem formatResultSet_table (columns : List String) (cells : List (List (Option String)))
    (hcols : columns ≠ []) (hrows : cells ≠ [])
    (hlen : ∀ row ∈ cells, row.length = columns.length) :
    formatResultSet { columns := .ok columns, rows := cells.map .ok, err := none } =
      Outcome.ok (joinWith "\n"
        (tableLines columns (cells.map (fun row => row.map (fun val => val.getD "NULL"))))) ∧
    computeWidths columns (cells.map (fun row => row.map (fun val => val.getD "NULL"))) =
      some (tableWidths columns
        (cells.map (fun row => row.map (fun val => val.getD "NULL")))) ∧
    tableWidths ["id", "name"] [["1", "Ann"]] = [2, 4] ∧
    formatResultSet
        { columns := .ok ["id", "name"], rows := [.ok [some "1", some "Ann"]], err := none } =
      Outcome.ok ("+----+------+\n| id | name |\n+----+------+\n" ++
        "| 1  | Ann  |\n+----+------+\n1 row in set") := by
  refine ⟨formatResultSet_eq columns cells hcols hrows hlen, ?_, by decide, by decide⟩
  apply computeWidths_eq
  intro row hrow
  obtain ⟨r, hr, rfl⟩ := List.mem_map.mp hrow
  simp [hlen r hr]

/-- The theorem at the example of the specification: the lines of the table. -/
theorem formatResultSet_table_witness :
    formatResultSet
        { columns := .ok ["id", "name"], rows := [.ok [some "1", some "Ann"]], err := none } =
      Outcome.ok (joinWith "\n"
        ["+----+------+", "| id | name |", "+----+------+", "| 1  | Ann  |", "+----+------+",
          "1 row in set"]) := by
  have h := (formatResultSet_table ["id", "name"] [[some "1", some "Ann"]] (by decide)
    (by decide) (by decide)).1
  rw [show ([.ok [some "1", some "Ann"]] : List (Except String (List (Option String)))) =
    [[some "1", some "Ann"]].map .ok from rfl, h]
  decide

/-- The borders and rows of a table whose rows have one cell per column: the lengths, and
the padding counts. -/
theorem table_line_lengths (columns : List String) (results : List (List String))
    (h : ∀ row ∈ results, row.length = columns.length) :
    len (buildBorder (tableWidths columns results)) = lineLength (tableWidths columns results) ∧
    (∀ row ∈ columns :: results,
      (∃ line, buildRow row (tableWidths columns results) = some line ∧
        len line = lineLength (tableWidths columns results)) ∧
      ∀ i cell width, row.get? i = some cell →
        (tableWidths columns results).get? i = some width →
        (0 : Int) ≤ (width : Int) - (len cell : Int)) ∧
    (∀ line ∈ (tableLines columns results).dropLast,
      len line = lineLength (tableWidths columns results)) := by
  have hfit := fits_tableWidths columns results h
  refine ⟨?_, ?_, ?_⟩
  · rw [buildBorder_eq]; exact len_borderLine _
  · intro row hrow
    refine ⟨⟨rowLine row _, buildRow_eq row _ (hfit row hrow),
      len_rowLine row _ (hfit row hrow)⟩, ?_⟩
    intro i cell width hc hw
    have h2 := List.forall₂_iff_get.mp (hfit row hrow)
    have hi1 : i < row.length := by
      rw [List.get?_eq_some] at hc; exact hc.choose
    have hi2 : i < (tableWidths columns results).length := by
      rw [List.get?_eq_some] at hw; exact hw.choose
    have h3 := h2.2 i hi1 hi2
    rw [List.get?_eq_get hi1] at hc
    rw [List.get?_eq_get hi2] at hw
    simp only [Option.some.injEq] at hc hw
    rw [hc, hw] at h3
    omega
  · intro line hline
    have e : (tableLines columns results).dropLast =
        [borderLine (tableWidths columns results), rowLine columns (tableWidths columns results),
          borderLine (tableWidths columns results)] ++
        results.map (fun row => rowLine row (tableWidths columns results)) ++
        [borderLine (tableWidths columns results)] := by
      unfold tableLines
      rw [show ∀ (a b : String) (l : List String), l ++ [a, b] = (l ++ [a]) ++ [b] from
        fun a b l => by simp, List.dropLast_concat]
    rw [e] at hline
    simp only [List.mem_append, List.mem_cons, List.mem_singleton, List.not_mem_nil, or_false,
      List.mem_map] at hline
    rcases hline with ((h | h | h) | ⟨row, hrow, h⟩) | h
    · rw [h]; exact len_borderLine _
    · rw [h]; exact len_rowLine _ _ (hfit columns (by simp))
    · rw [h]; exact len_borderLine _
    · rw [← h]
      exact len_rowLine _ _ (hfit row (List.mem_cons_of_mem _ hrow))
    · rw [h]; exact len_borderLine _

/-- Claim C17. For a non-empty list of columns and a non-empty list of rows that each have
as many cells as there are columns, all borders and all header and data rows of the table
that `formatResultSet` renders have the same length in bytes, 1 and for each column its
width and 3; the padding count `colWidths[i] - len(cell)` that `buildRow` hands to
`strings.Repeat` is never negative, so the rendering does not panic. -/
theorem formatResultSet_line_lengths (columns : List String)
    (cells : List (List (Option String))) (hcols : columns ≠ []) (hrows : cells ≠ [])
    (hlen : ∀ row ∈ cells, row.length = columns.length) :
    ∃ colWidths results,
      results = cells.map (fun row => row.map (fun val => val.getD "NULL")) ∧
      computeWidths columns results = some colWidths ∧
      formatResultSet { columns := .ok columns, rows := cells.map .ok, err := none } =
        Outcome.ok (joinWith "\n" (tableLines columns results)) ∧
      (∀ line ∈ (tableLines columns results).dropLast, len line = lineLength colWidths) ∧
      len (buildBorder colWidths) = lineLength colWidths ∧
      (∀ row ∈ columns :: results,
        (∃ line, buildRow row colWidths = some line ∧ len line = lineLength colWidths) ∧
        ∀ i cell width, row.get? i = some cell → colWidths.get? i = some width →
          (0 : Int) ≤ (width : Int) - (len cell : Int)) ∧
      formatResultSet { columns := .ok columns, rows := cells.map .ok, err := none } ≠
        Outcome.panic := by
  have hlen2 : ∀ row ∈ cells.map (fun row => row.map (fun val => val.getD "NULL")),
      row.length = columns.length := by
    intro row hrow
    obtain ⟨r, hr, rfl⟩ := List.mem_map.mp hrow
    simp [hlen r hr]
  obtain ⟨h1, h2, h3⟩ := table_line_lengths columns _ hlen2
  refine ⟨tableWidths columns _, _, rfl, computeWidths_eq columns _ hlen2,
    formatResultSet_eq columns cells hcols hrows hlen, h3, h1, h2, ?_⟩
  rw [formatResultSet_eq columns cells hcols hrows hlen]
  intro h; cases h

/-- The theorem at the example of the specification: every border and row is 13 bytes
long. -/
theorem formatResultSet_line_lengths_witness :
    lineLength [2, 4] = 13 ∧ len "+----+------+" = 13 ∧ len "| id | name |" = 13 ∧
    len "| 1  | Ann  |" = 13 ∧
    ∃ colWidths, computeWidths ["id", "name"] [["1", "Ann"]] = some colWidths ∧
      len (buildBorder colWidths) = lineLength colWidths := by
  obtain ⟨ws, results, hres, h1, _, _, h2, _⟩ := formatResultSet_line_lengths ["id", "name"]
    [[some "1", some "Ann"]] (by decide) (by decide) (by decide)
  subst hres
  exact ⟨by decide, by decide, by decide, by decide, ws, h1, h2⟩


end MySQLAPIServer
